import Mathlib

/-!
# The optimizer façade of `plan/optimizer.go`

A shallow embedding of `src/plan/optimizer.go`: the flag constants, the rule
list, `Optimize`, `doOptimize`, `logicalOptimize`, `physicalOptimize`,
`existsCartesianProduct`, `PrepareStmt`, `init` and the optimizer error values;
and, modelled from the specification, the results of the queries that the
decorrelation and aggregation-pruning properties speak of.

Conventions of the embedding.

* Go interface values of type `Plan`, `LogicalPlan` and `PhysicalPlan` are
  values of the tree type `Plan`; the nil interface value is `Plan.nil`.
* A Go `error` is an `Option Err`, `none` being nil.
* Functions that live in other files of the package (the six rules, the plan
  builder, the physical converter, the post-physical passes, type inference)
  are fields of `Env`; the functions of `optimizer.go` take an `Env`.
* In-place mutation is made explicit: a function that mutates its argument
  returns the mutated value, and every function that is handed the
  `*idAllocator` returns the allocator's new contents.
* Every run carries a ghost call trace (`Exec.calls`), the calls made in the
  order they were made, so that "is invoked" and "is not invoked" can be
  stated.  A run-time panic is `Exec.result = none`.
-/

namespace plan

/-! ## Errors (`juju/errors`, `terror`) -/

/-- The error classes of `terror`; the source names only the optimizer class. -/
inductive ErrClass where
  | ClassOptimizer
  | other (n : Nat)
  deriving DecidableEq, Repr

/-- Non-nil Go error values: a `terror` base error, an error of any other
origin, or the wrapper added by `errors.Trace`. -/
inductive Err where
  | terror (cls : ErrClass) (code : Nat) (message : String)
  | foreign (tag : Nat)
  | traced (previous : Err)
  deriving DecidableEq, Repr

/-- A Go `error`: `none` is nil. -/
abbrev error := Option Err

/-- The function `errors.Cause`: the error at the bottom of the wrappers. -/
def Err.Cause : Err → Err
  | .traced previous => previous.Cause
  | e => e

/-- The function `errors.Trace`: nil stays nil, anything else gets one more wrapper. -/
def errors.Trace : error → error
  | none => none
  | some e => some (Err.traced e)

/-- The method `terror.ErrClass.New`. -/
def ErrClass.New (cls : ErrClass) (code : Nat) (message : String) : Err :=
  Err.terror cls code message

/-! ## Optimizer error codes and base errors (optimizer.go 142-158) -/

def CodeOperandColumns : Nat := 1
def CodeInvalidWildCard : Nat := 3
def CodeUnsupported : Nat := 4
def CodeInvalidGroupFuncUse : Nat := 5
def CodeIllegalReference : Nat := 6

def ErrOperandColumns : Err :=
  ErrClass.ClassOptimizer.New CodeOperandColumns "Operand should contain %d column(s)"
def ErrInvalidWildCard : Err :=
  ErrClass.ClassOptimizer.New CodeInvalidWildCard
    "Wildcard fields without any table name appears in wrong place"
def ErrCartesianProductUnsupported : Err :=
  ErrClass.ClassOptimizer.New CodeUnsupported "Cartesian product is unsupported"
def ErrInvalidGroupFuncUse : Err :=
  ErrClass.ClassOptimizer.New CodeInvalidGroupFuncUse "Invalid use of group function"
def ErrIllegalReference : Err :=
  ErrClass.ClassOptimizer.New CodeIllegalReference "Illegal reference"

/-! ## Plans -/

/-- The join types.  The source names `InnerJoin`, `LeftOuterJoin` and
`RightOuterJoin`; every other join type (semi join, ...) is `other`. -/
inductive JoinType where
  | InnerJoin
  | LeftOuterJoin
  | RightOuterJoin
  | other (tag : Nat)
  deriving DecidableEq, Repr

/-- Plan values.  `Join` is the node `*Join` with the two fields the source
reads; `logical` is any other node that implements `LogicalPlan`;
`nonLogical` is a node that implements `Plan` but not `LogicalPlan`; `nil` is
the nil interface value.  `children` is what `Children()` returns. -/
inductive Plan where
  | nil
  | Join (JoinType : JoinType) (EqualConditions : List Nat) (children : List Plan)
  | logical (tag : Nat) (children : List Plan)
  | nonLogical (tag : Nat) (children : List Plan)
  deriving Repr

/-- Test `p == nil`. -/
def Plan.isNil : Plan → Bool
  | .nil => true
  | _ => false

/-- The outcome `ok` of the type assertion `p.(LogicalPlan)`. -/
def Plan.isLogical : Plan → Bool
  | .Join _ _ _ => true
  | .logical _ _ => true
  | _ => false

/-- The method `Children()` of a non-nil plan. -/
def Plan.Children : Plan → List Plan
  | .nil => []
  | .Join _ _ children => children
  | .logical _ children => children
  | .nonLogical _ children => children

/-! ## Flags and the rule list (optimizer.go 26-45) -/

/-- The package variables of `optimizer.go`. -/
structure Globals where
  AllowCartesianProduct : Bool
  deriving DecidableEq, Repr

/-- The initial value: `var AllowCartesianProduct = true`. -/
def Globals.initial : Globals := ⟨true⟩

def flagDecorrelate : Nat := (1 <<< 0) % 2 ^ 64
def flagPredicatePushDown : Nat := (1 <<< 1) % 2 ^ 64
def flagPrunColumns : Nat := (1 <<< 2) % 2 ^ 64
def flagBuildKeyInfo : Nat := (1 <<< 3) % 2 ^ 64
def flagEliminateAgg : Nat := (1 <<< 4) % 2 ^ 64
def flagAggPushDown : Nat := (1 <<< 5) % 2 ^ 64

/-- The six rule structs that implement `logicalOptRule`. -/
inductive logicalOptRule where
  | decorrelateSolver
  | ppdSolver
  | columnPruner
  | buildKeySolver
  | aggPruner
  | aggPushDownSolver
  deriving DecidableEq, Repr

def optRuleList : List logicalOptRule :=
  [.decorrelateSolver, .ppdSolver, .columnPruner, .buildKeySolver, .aggPruner,
   .aggPushDownSolver]

/-! ## Types declared in other files of the package -/

/-- Modelled from the spec: the struct `idAllocator` is declared outside
`optimizer.go`; the spec describes a per-call counter producing plan-node and
column ids.  `new(idAllocator)` is the zero value. -/
structure idAllocator where
  id : Nat := 0
  deriving DecidableEq, Repr

/-- Modelled from the spec: the struct `requiredProperty` is declared outside
`optimizer.go`; the spec describes an ordered list of (column, direction)
pairs to be sorted by and an optional row-count limit/offset.  The composite
literal `requiredProperty{}` is the zero value. -/
structure requiredProperty where
  props : List (Nat × Bool) := []
  limit : Option (Nat × Nat) := none
  deriving DecidableEq, Repr

/-- The struct `physicalPlanInfo`, of which the source reads the field `p`. -/
structure physicalPlanInfo where
  p : Plan
  cost : Nat := 0

structure StatementContext where
  id : Nat
  deriving DecidableEq, Repr

structure SessionVars where
  StmtCtx : StatementContext
  deriving DecidableEq, Repr

/-- The interface `context.Context`, of which the source calls `GetSessionVars`. -/
structure Context where
  sessionVars : SessionVars
  deriving DecidableEq, Repr

def Context.GetSessionVars (ctx : Context) : SessionVars := ctx.sessionVars

/-- The interface `ast.Node`. -/
structure Node where
  id : Nat
  deriving DecidableEq, Repr

/-- The interface `infoschema.InfoSchema`. -/
structure InfoSchema where
  id : Nat
  deriving DecidableEq, Repr

/-- The struct `planBuilder`, with the fields `Optimize` writes and reads.
`allocator` is the contents of the allocator the builder points to, which is
the allocator `Optimize` created. -/
structure planBuilder where
  ctx : Context
  is : InfoSchema
  colMapper : List (Nat × Int)
  allocator : idAllocator
  err : error := none
  optFlag : Nat := 0

/-! ## Call trace and collaborators -/

/-- One entry of the ghost call trace: the function called and its arguments. -/
inductive Call where
  | InferType (sc : StatementContext) (node : Node)
  | build (builder : planBuilder) (node : Node)
  | optimize (rule : logicalOptRule) (logic : Plan) (alloc : idAllocator)
  | existsCartesianProduct (p : Plan)
  | ResolveIndicesAndCorCols (logic : Plan)
  | convert2PhysicalPlan (logic : Plan) (prop : requiredProperty)
  | EliminateProjection (pp : Plan)
  | addCachePlan (pp : Plan) (allocator : idAllocator)
  | Preprocess (node : Node) (is : InfoSchema) (ctx : Context)
  | Validate (node : Node) (inPrepare : Bool)

/-- A run: the calls made, and the values returned (`none` after a panic). -/
structure Exec (α : Type) where
  calls : List Call
  result : Option α

/-- The functions `optimizer.go` calls and does not define.  Each returns what
the Go function returns, together with the new contents of what it mutates
through a pointer. -/
structure Env where
  /-- The call `InferType(sc, node)`: the statement with its types annotated in place,
  and the error returned. -/
  InferType : StatementContext → Node → Node × error
  /-- The call `builder.build(node)`: the plan returned, and the builder after the call
  (its fields `err` and `optFlag`, and the allocator it points to). -/
  build : planBuilder → Node → Plan × planBuilder
  /-- The call `rule.optimize(logic, ctx, alloc)`: the pair returned, and the allocator
  after the call. -/
  optimize : logicalOptRule → Plan → Context → idAllocator → (Plan × error) × idAllocator
  /-- The call `logic.ResolveIndicesAndCorCols()`: the plan as the call leaves it. -/
  ResolveIndicesAndCorCols : Plan → Plan
  /-- The call `logic.convert2PhysicalPlan(prop)`: the pair returned; the first
  component is a pointer, `none` when nil. -/
  convert2PhysicalPlan : Plan → requiredProperty → Option physicalPlanInfo × error
  /-- The call `EliminateProjection(pp)`: the plan returned. -/
  EliminateProjection : Plan → Plan
  /-- The call `addCachePlan(pp, allocator)`, whose return value the source drops: the
  plan `pp` and the allocator as the call leaves them. -/
  addCachePlan : Plan → idAllocator → Plan × idAllocator

/-! ## The functions of optimizer.go -/

mutual
/-- The function `existsCartesianProduct` (optimizer.go 117-127).  `none` is the
panic of a failed type assertion or of a method call on nil. -/
def existsCartesianProduct : Plan → Option Bool
  | .nil => none
  | .Join JoinType EqualConditions children =>
    if EqualConditions.length = 0 then
      some (JoinType == .InnerJoin || JoinType == .LeftOuterJoin || JoinType == .RightOuterJoin)
    else existsCartesianProductChildren children
  | .logical _ children => existsCartesianProductChildren children
  | .nonLogical _ children => existsCartesianProductChildren children
/-- The loop `for _, child := range p.Children()` of `existsCartesianProduct`,
with the type assertion `child.(LogicalPlan)`. -/
def existsCartesianProductChildren : List Plan → Option Bool
  | [] => some false
  | child :: rest =>
    match child with
    | .nil => none
    | .nonLogical _ _ => none
    | child =>
      match existsCartesianProduct child with
      | none => none
      | some true => some true
      | some false => existsCartesianProductChildren rest
end

/-- The loop `for i, rule := range optRuleList` of `logicalOptimize`, from
index `i` on, with the current values of the variables `logic` and `err`. -/
def logicalOptimizeLoop (env : Env) (flag : Nat) (ctx : Context) :
    List logicalOptRule → Nat → Plan → error → idAllocator →
      Exec ((Plan × error) × idAllocator)
  | [], _, logic, err, alloc => ⟨[], some ((logic, errors.Trace err), alloc)⟩
  | rule :: rest, i, logic, err, alloc =>
    if flag &&& ((1 <<< i) % 2 ^ 64) = 0 then
      logicalOptimizeLoop env flag ctx rest (i + 1) logic err alloc
    else
      let r := env.optimize rule logic ctx alloc
      match r.1.2 with
      | some e =>
        ⟨[Call.optimize rule logic alloc], some ((Plan.nil, errors.Trace (some e)), r.2)⟩
      | none =>
        let k := logicalOptimizeLoop env flag ctx rest (i + 1) r.1.1 none r.2
        ⟨Call.optimize rule logic alloc :: k.calls, k.result⟩

/-- The function `logicalOptimize` (optimizer.go 87-102). -/
def logicalOptimize (env : Env) (flag : Nat) (logic : Plan) (ctx : Context)
    (alloc : idAllocator) : Exec ((Plan × error) × idAllocator) :=
  logicalOptimizeLoop env flag ctx optRuleList 0 logic none alloc

/-- The function `physicalOptimize` (optimizer.go 104-115). -/
def physicalOptimize (env : Env) (flag : Nat) (logic : Plan) (allocator : idAllocator) :
    Exec ((Plan × error) × idAllocator) :=
  if logic.isNil then ⟨[], none⟩
  else
    let r := env.convert2PhysicalPlan logic {}
    let c1 := [Call.convert2PhysicalPlan logic {}]
    match r.2 with
    | some e => ⟨c1, some ((Plan.nil, errors.Trace (some e)), allocator)⟩
    | none =>
      match r.1 with
      | none => ⟨c1, none⟩
      | some info =>
        let pp := env.EliminateProjection info.p
        let c2 := c1 ++ [Call.EliminateProjection info.p]
        if flag &&& flagDecorrelate > 0 then
          let m := env.addCachePlan pp allocator
          ⟨c2 ++ [Call.addCachePlan pp allocator], some ((m.1, none), m.2)⟩
        else ⟨c2, some ((pp, none), allocator)⟩

/-- The condition `!AllowCartesianProduct && existsCartesianProduct(logic)` of
`doOptimize`, with its short-circuit evaluation. -/
def cartesianGuard (g : Globals) (logic : Plan) : Exec Bool :=
  if g.AllowCartesianProduct then ⟨[], some false⟩
  else ⟨[Call.existsCartesianProduct logic], existsCartesianProduct logic⟩

/-- The function `doOptimize` (optimizer.go 75-85). -/
def doOptimize (env : Env) (g : Globals) (flag : Nat) (logic : Plan) (ctx : Context)
    (allocator : idAllocator) : Exec ((Plan × error) × idAllocator) :=
  let r := logicalOptimize env flag logic ctx allocator
  match r.result with
  | none => ⟨r.calls, none⟩
  | some ((logic, err), allocator) =>
    match err with
    | some e => ⟨r.calls, some ((Plan.nil, errors.Trace (some e)), allocator)⟩
    | none =>
      let guard := cartesianGuard g logic
      match guard.result with
      | none => ⟨r.calls ++ guard.calls, none⟩
      | some true =>
        ⟨r.calls ++ guard.calls,
          some ((Plan.nil, errors.Trace (some ErrCartesianProductUnsupported)), allocator)⟩
      | some false =>
        if logic.isNil then ⟨r.calls ++ guard.calls, none⟩
        else
          let resolved := env.ResolveIndicesAndCorCols logic
          let k := physicalOptimize env flag resolved allocator
          ⟨r.calls ++ guard.calls ++ [Call.ResolveIndicesAndCorCols logic] ++ k.calls,
            k.result⟩

/-- The function `Optimize` (optimizer.go 54-73). -/
def Optimize (env : Env) (g : Globals) (ctx : Context) (node : Node) (is : InfoSchema) :
    Exec (Plan × error) :=
  let t := env.InferType ctx.GetSessionVars.StmtCtx node
  let c0 := [Call.InferType ctx.GetSessionVars.StmtCtx node]
  match t.2 with
  | some e => ⟨c0, some (Plan.nil, errors.Trace (some e))⟩
  | none =>
    let allocator : idAllocator := {}
    let builder : planBuilder :=
      { ctx := ctx, is := is, colMapper := [], allocator := allocator }
    let b := env.build builder t.1
    let c1 := c0 ++ [Call.build builder t.1]
    match b.2.err with
    | some e => ⟨c1, some (Plan.nil, errors.Trace (some e))⟩
    | none =>
      if b.1.isLogical then
        let k := doOptimize env g b.2.optFlag b.1 ctx b.2.allocator
        ⟨c1 ++ k.calls, k.result.map (fun v => v.1)⟩
      else ⟨c1, some (b.1, none)⟩

/-- The functions `PrepareStmt` calls and does not define. -/
structure PrepareEnv where
  /-- The call `Preprocess(node, is, ctx)`: the statement as the call leaves it,
  and the error returned. -/
  Preprocess : Node → InfoSchema → Context → Node × error
  /-- The call `Validate(node, inPrepare)`: the error returned. -/
  Validate : Node → Bool → error

/-- The function `PrepareStmt` (optimizer.go 129-140). -/
def PrepareStmt (penv : PrepareEnv) (is : InfoSchema) (ctx : Context) (node : Node) :
    Exec error :=
  let r := penv.Preprocess node is ctx
  let c0 := [Call.Preprocess node is ctx]
  match r.2 with
  | some e => ⟨c0, some (errors.Trace (some e))⟩
  | none =>
    match penv.Validate r.1 true with
    | some e => ⟨c0 ++ [Call.Validate r.1 true], some (errors.Trace (some e))⟩
    | none => ⟨c0 ++ [Call.Validate r.1 true], some none⟩

/-- The constants of package `mysql` that `init` reads; they are declared
outside `optimizer.go`. -/
structure mysqlCodes where
  ErrOperandColumns : Nat
  ErrParse : Nat
  ErrInvalidGroupFuncUse : Nat
  ErrIllegalReference : Nat
  deriving DecidableEq, Repr

/-- The map literal `mySQLErrCodes` of `init` (optimizer.go 161-166), as the list
of its key-value pairs. -/
def mySQLErrCodes (mysql : mysqlCodes) : List (Nat × Nat) :=
  [(CodeOperandColumns, mysql.ErrOperandColumns),
   (CodeInvalidWildCard, mysql.ErrParse),
   (CodeInvalidGroupFuncUse, mysql.ErrInvalidGroupFuncUse),
   (CodeIllegalReference, mysql.ErrIllegalReference)]

/-- The function `init` (optimizer.go 160-169), as its effect on the table
`terror.ErrClassToMySQLCodes`: the entry of the optimizer class is set to
`mySQLErrCodes`.  (Its other statement assigns `expression.EvalAstExpr`.) -/
def init (mysql : mysqlCodes) (ErrClassToMySQLCodes : ErrClass → List (Nat × Nat)) :
    ErrClass → List (Nat × Nat) :=
  fun cls => if cls = ErrClass.ClassOptimizer then mySQLErrCodes mysql else ErrClassToMySQLCodes cls

/-! ## Vocabulary of the specification -/

/-- The function a trace entry is a call of. -/
inductive Callee where
  | InferType | build | optimize | existsCartesianProduct | ResolveIndicesAndCorCols
  | convert2PhysicalPlan | EliminateProjection | addCachePlan | Preprocess | Validate
  deriving DecidableEq, Repr

def Call.callee : Call → Callee
  | .InferType _ _ => .InferType
  | .build _ _ => .build
  | .optimize _ _ _ => .optimize
  | .existsCartesianProduct _ => .existsCartesianProduct
  | .ResolveIndicesAndCorCols _ => .ResolveIndicesAndCorCols
  | .convert2PhysicalPlan _ _ => .convert2PhysicalPlan
  | .EliminateProjection _ => .EliminateProjection
  | .addCachePlan _ _ => .addCachePlan
  | .Preprocess _ _ _ => .Preprocess
  | .Validate _ _ => .Validate

/-- The rule a trace entry applies, when it is a rule application. -/
def Call.rule : Call → Option logicalOptRule
  | .optimize rule _ _ => some rule
  | _ => none

/-- The code of a `terror` base error (its method `Code()`); other errors have
none. -/
def Err.code : Err → Option Nat
  | .terror _ code _ => some code
  | _ => none

/-- The five optimizer error codes. -/
def optimizerCodes : List Nat :=
  [CodeOperandColumns, CodeInvalidWildCard, CodeUnsupported, CodeInvalidGroupFuncUse,
   CodeIllegalReference]

/-- The five optimizer base errors. -/
def optimizerErrors : List Err :=
  [ErrOperandColumns, ErrInvalidWildCard, ErrCartesianProductUnsupported,
   ErrInvalidGroupFuncUse, ErrIllegalReference]

/-- The node is a join of type inner, left outer or right outer with no
equality condition. -/
def Plan.isCartesianJoin : Plan → Bool
  | .Join JoinType EqualConditions _ =>
    EqualConditions.isEmpty &&
      (JoinType == .InnerJoin || JoinType == .LeftOuterJoin || JoinType == .RightOuterJoin)
  | _ => false

mutual
/-- The nodes of a plan tree: the root and all its descendants. -/
def Plan.nodes : Plan → List Plan
  | .nil => []
  | .Join JoinType EqualConditions children =>
    .Join JoinType EqualConditions children :: Plan.nodesOfList children
  | .logical tag children => .logical tag children :: Plan.nodesOfList children
  | .nonLogical tag children => .nonLogical tag children :: Plan.nodesOfList children
def Plan.nodesOfList : List Plan → List Plan
  | [] => []
  | child :: rest => child.nodes ++ Plan.nodesOfList rest
end

mutual
/-- A logical plan tree: every node, the root included, is a `LogicalPlan`. -/
def Plan.isLogicalTree : Plan → Bool
  | .nil => false
  | .Join _ _ children => Plan.areLogicalTrees children
  | .logical _ children => Plan.areLogicalTrees children
  | .nonLogical _ _ => false
def Plan.areLogicalTrees : List Plan → Bool
  | [] => true
  | child :: rest => child.isLogicalTree && Plan.areLogicalTrees rest
end

mutual
/-- The height of a plan tree: the number of nodes on its longest path from
the root down. -/
def Plan.height : Plan → Nat
  | .nil => 0
  | .Join _ _ children => 1 + Plan.heightOfList children
  | .logical _ children => 1 + Plan.heightOfList children
  | .nonLogical _ children => 1 + Plan.heightOfList children
def Plan.heightOfList : List Plan → Nat
  | [] => 0
  | child :: rest => max child.height (Plan.heightOfList rest)
end

/-- A run of `existsCartesianProduct` with its cost: the value returned (`none`
after a panic), the number of calls of the function, the first one included,
and the greatest depth of nested calls. -/
structure CallCost where
  value : Option Bool
  calls : Nat
  depth : Nat
  deriving DecidableEq, Repr

mutual
/-- The function `existsCartesianProduct` with its calls and its recursion depth
counted: the same case analysis and the same loop as `existsCartesianProduct`. -/
def existsCartesianProductCost : Plan → CallCost
  | .nil => ⟨none, 1, 1⟩
  | .Join JoinType EqualConditions children =>
    if EqualConditions.length = 0 then
      ⟨some (JoinType == .InnerJoin || JoinType == .LeftOuterJoin ||
        JoinType == .RightOuterJoin), 1, 1⟩
    else
      ⟨(existsCartesianProductChildrenCost children).value,
        1 + (existsCartesianProductChildrenCost children).calls,
        1 + (existsCartesianProductChildrenCost children).depth⟩
  | .logical _ children =>
    ⟨(existsCartesianProductChildrenCost children).value,
      1 + (existsCartesianProductChildrenCost children).calls,
      1 + (existsCartesianProductChildrenCost children).depth⟩
  | .nonLogical _ children =>
    ⟨(existsCartesianProductChildrenCost children).value,
      1 + (existsCartesianProductChildrenCost children).calls,
      1 + (existsCartesianProductChildrenCost children).depth⟩
/-- The loop over the children with the calls it makes and their depth counted. -/
def existsCartesianProductChildrenCost : List Plan → CallCost
  | [] => ⟨some false, 0, 0⟩
  | child :: rest =>
    match child with
    | .nil => ⟨none, 0, 0⟩
    | .nonLogical _ _ => ⟨none, 0, 0⟩
    | child =>
      match (existsCartesianProductCost child).value with
      | none => ⟨none, (existsCartesianProductCost child).calls,
          (existsCartesianProductCost child).depth⟩
      | some true => ⟨some true, (existsCartesianProductCost child).calls,
          (existsCartesianProductCost child).depth⟩
      | some false =>
        ⟨(existsCartesianProductChildrenCost rest).value,
          (existsCartesianProductCost child).calls +
            (existsCartesianProductChildrenCost rest).calls,
          max (existsCartesianProductCost child).depth
            (existsCartesianProductChildrenCost rest).depth⟩
end

/-- The six rules with their flag bits, in the pipeline order of the
specification: decorrelation, predicate push-down, column pruning, key-info
construction, aggregation pruning, aggregation push-down. -/
def pipelineOrder : List (Nat × logicalOptRule) :=
  [(flagDecorrelate, .decorrelateSolver), (flagPredicatePushDown, .ppdSolver),
   (flagPrunColumns, .columnPruner), (flagBuildKeyInfo, .buildKeySolver),
   (flagEliminateAgg, .aggPruner), (flagAggPushDown, .aggPushDownSolver)]

/-- The rules of a list of (bit, rule) pairs whose bit is set in `flag`, in the
order of the list. -/
def selectRules (flag : Nat) (l : List (Nat × logicalOptRule)) : List logicalOptRule :=
  (l.filter (fun br => decide (flag &&& br.1 ≠ 0))).map Prod.snd

/-- The rules whose bit is set in `flag`, in pipeline order. -/
def enabledRules (flag : Nat) : List logicalOptRule :=
  selectRules flag pipelineOrder

/-- The rules among the first `i` of the pipeline whose bit is set in `flag`. -/
def enabledBefore (flag : Nat) (i : Nat) : List logicalOptRule :=
  selectRules flag (pipelineOrder.take i)

/-- The rule returns an error on the plan and allocator it is given. -/
def ruleFails (env : Env) (ctx : Context) (rule : logicalOptRule) (p : Plan)
    (a : idAllocator) : Bool :=
  (env.optimize rule p ctx a).1.2.isSome

/-- The trace entry is a rule application that returns an error. -/
def callFails (env : Env) (ctx : Context) : Call → Bool
  | .optimize rule p a => ruleFails env ctx rule p a
  | _ => false

/-- One rule applied to a plan and an allocator: the plan it returns and the
allocator it leaves. -/
def applyRule (env : Env) (ctx : Context) (s : Plan × idAllocator) (rule : logicalOptRule) :
    Plan × idAllocator :=
  ((env.optimize rule s.1 ctx s.2).1.1, (env.optimize rule s.1 ctx s.2).2)

/-- The rules of the list applied one after the other, each once, each to the
output of the one before it. -/
def applyRules (env : Env) (ctx : Context) (rules : List logicalOptRule)
    (s : Plan × idAllocator) : Plan × idAllocator :=
  rules.foldl (applyRule env ctx) s

/-- The calls made when the rules of the list are applied one after the other. -/
def applyRulesCalls (env : Env) (ctx : Context) :
    List logicalOptRule → Plan × idAllocator → List Call
  | [], _ => []
  | rule :: rest, s =>
    Call.optimize rule s.1 s.2 :: applyRulesCalls env ctx rest (applyRule env ctx s rule)

/-- No rule of the list fails when the rules are applied one after the other. -/
def noRuleFails (env : Env) (ctx : Context) :
    List logicalOptRule → Plan × idAllocator → Bool
  | [], _ => true
  | rule :: rest, s =>
    !ruleFails env ctx rule s.1 s.2 && noRuleFails env ctx rest (applyRule env ctx s rule)

/-- The rules of the list applied one after the other, stopping at the first
one that returns an error, whose error is returned traced with a nil plan. -/
def runRules (env : Env) (ctx : Context) :
    List logicalOptRule → Plan → idAllocator → Exec ((Plan × error) × idAllocator)
  | [], p, a => ⟨[], some ((p, none), a)⟩
  | rule :: rest, p, a =>
    match (env.optimize rule p ctx a).1.2 with
    | some e =>
      ⟨[Call.optimize rule p a], some ((Plan.nil, some (Err.traced e)), (env.optimize rule p ctx a).2)⟩
    | none =>
      ⟨Call.optimize rule p a ::
          (runRules env ctx rest (env.optimize rule p ctx a).1.1 (env.optimize rule p ctx a).2).calls,
        (runRules env ctx rest (env.optimize rule p ctx a).1.1 (env.optimize rule p ctx a).2).result⟩

/-- The rules of the list, taken as the rules at indices `i`, `i + 1`, ... of
the loop, whose bit is set in `flag`. -/
def enabledFrom (flag : Nat) : List logicalOptRule → Nat → List logicalOptRule
  | [], _ => []
  | rule :: rest, i =>
    if flag &&& ((1 <<< i) % 2 ^ 64) = 0 then enabledFrom flag rest (i + 1)
    else rule :: enabledFrom flag rest (i + 1)

/-- The number of calls of a function in a trace. -/
def timesCalled (f : Callee) (calls : List Call) : Nat :=
  calls.countP (fun c => c.callee == f)

/-- The builder as `Optimize` sets it up: the context, the schema, an empty
column map and a new allocator. -/
def newBuilder (ctx : Context) (is : InfoSchema) : planBuilder :=
  { ctx := ctx, is := is, colMapper := [], allocator := {} }

/-- The statement as type inference leaves it, and the error of type inference. -/
def inferred (env : Env) (ctx : Context) (node : Node) : Node × error :=
  env.InferType ctx.GetSessionVars.StmtCtx node

/-- The plan the builder produces for the statement, and the builder after
the build. -/
def built (env : Env) (ctx : Context) (node : Node) (is : InfoSchema) : Plan × planBuilder :=
  env.build (newBuilder ctx is) (inferred env ctx node).1

/-- The rule pipeline followed by index resolution and physical conversion,
with no cartesian-product guard in between. -/
def pipelineThenPhysical (env : Env) (flag : Nat) (logic : Plan) (ctx : Context)
    (allocator : idAllocator) : Exec ((Plan × error) × idAllocator) :=
  let r := logicalOptimize env flag logic ctx allocator
  match r.result with
  | none => ⟨r.calls, none⟩
  | some ((_, some e), a1) => ⟨r.calls, some ((Plan.nil, some (Err.traced e)), a1)⟩
  | some ((q, none), a1) =>
    if q.isNil then ⟨r.calls, none⟩
    else
      ⟨r.calls ++ [Call.ResolveIndicesAndCorCols q] ++
          (physicalOptimize env flag (env.ResolveIndicesAndCorCols q) a1).calls,
        (physicalOptimize env flag (env.ResolveIndicesAndCorCols q) a1).result⟩

/-- Modelled from the spec: the column descriptor of an output schema is
declared outside `optimizer.go`; the spec lists name, type, unique id,
nullable flag and table origin. -/
structure Column where
  name : String
  tp : Nat
  id : Nat
  nullable : Bool
  table : String
  deriving DecidableEq, Repr

/-- Modelled from the spec: the rule structs and their `optimize` methods are
defined outside `optimizer.go`; the rule contract of the spec says that a rule
must not alter the logical plan's output schema (column identity, order and
types).  `outputSchema` is the output schema of a plan, an ordered sequence of
column descriptors. -/
def rulesPreserveSchema (env : Env) (ctx : Context) (outputSchema : Plan → List Column) :
    Prop :=
  ∀ (rule : logicalOptRule) (p : Plan) (a : idAllocator),
    (env.optimize rule p ctx a).1.2 = none →
      outputSchema (env.optimize rule p ctx a).1.1 = outputSchema p

/-! ## Query results (decorrelation and aggregation pruning)

The rules and the executor are outside `optimizer.go`; what follows models, from
the specification, the two rewrites whose results the specification and the
tests of `executor_test.go` pin down. -/

/-- Modelled from the spec: a SQL value of an `int` column, an integer or NULL
(`none`). -/
abbrev Value := Option Int

/-- Modelled from the spec: a row, the values of its columns in order. -/
abbrev Row := List Value

/-- The value of column `i` of a row (NULL outside the row). -/
def Row.col (r : Row) (i : Nat) : Value := r.getD i none

/-- The comparison of a correlated condition. -/
inductive CmpOp where
  | eq
  | lt
  deriving DecidableEq, Repr

/-- Modelled from the spec: SQL comparison, unknown (`none`) when an operand is
NULL. -/
def compareValues (op : CmpOp) (a b : Value) : Option Bool :=
  match a, b with
  | some x, some y =>
    match op with
    | .eq => some (x == y)
    | .lt => some (decide (x < y))
  | _, _ => none

/-- Modelled from the spec: the aggregate `SUM`, NULL over no non-NULL value. -/
def aggSum (vs : List Value) : Value :=
  match vs.filterMap (fun v => v) with
  | [] => none
  | n :: ns => some (n + ns.sum)

/-- Modelled from the spec: the aggregate `COUNT(x)`, the number of non-NULL
values. -/
def aggCount (vs : List Value) : Int :=
  ((vs.filterMap (fun v => v)).length : Int)

/-- Modelled from the spec: a correlated sub-query
`select * from inner k where k.innerCol op t.outerCol [having sum(k.col) = v]`,
`t` being the row of the enclosing query. -/
structure SubQuery where
  inner : List Row
  innerCol : Nat
  op : CmpOp
  outerCol : Nat
  having : Option (Nat × Int)
  deriving Repr

/-- Modelled from the spec: the query
`select * from outer t where [not] exists (sub)`. -/
structure ExistsQuery where
  outer : List Row
  negated : Bool
  sub : SubQuery
  deriving Repr

/-- Modelled from the spec: the rows the sub-query returns for one row of the
enclosing query: the inner rows on which the correlated condition is true,
or, with `having sum(col) = v`, the one aggregated row when it passes the
`having` filter. -/
def SubQuery.rowsFor (s : SubQuery) (t : Row) : List Row :=
  let matching :=
    s.inner.filter (fun k => compareValues s.op (k.col s.innerCol) (t.col s.outerCol) == some true)
  match s.having with
  | none => matching
  | some (col, v) =>
    if aggSum (matching.map (fun k => k.col col)) = some v then
      [[aggSum (matching.map (fun k => k.col col))]]
    else []

/-- Modelled from the spec: nested evaluation, the sub-query evaluated once
per row of the enclosing query. -/
def nestedEval (q : ExistsQuery) : List Row :=
  q.outer.filter (fun t => (!(q.sub.rowsFor t).isEmpty) != q.negated)

/-- Modelled from the spec: the plan decorrelation leaves: a semi join (anti
semi join for `not exists`) on the equality of two columns, with no outer
reference remaining, or the sub-query left as apply-style nested evaluation. -/
inductive DecorrelatedPlan where
  | semiJoin (outer inner : List Row) (outerCol innerCol : Nat) (anti : Bool)
  | applyNested (q : ExistsQuery)

/-- Modelled from the spec: the decorrelation rule is defined outside
`optimizer.go`; the spec says that a sub-query with a simple equality
correlation becomes a semi join and that a sub-query whose correlation cannot
be removed is left as apply-style nested evaluation. -/
def decorrelate (q : ExistsQuery) : DecorrelatedPlan :=
  match q.sub.op, q.sub.having with
  | .eq, none => .semiJoin q.outer q.sub.inner q.sub.outerCol q.sub.innerCol q.negated
  | _, _ => .applyNested q

/-- Modelled from the spec: the execution of the decorrelated plan.  The semi
join collects the non-NULL keys of the inner side once and keeps the outer
rows whose key is among them (is not among them, for the anti semi join). -/
def DecorrelatedPlan.execute : DecorrelatedPlan → List Row
  | .semiJoin outer inner outerCol innerCol anti =>
    let keys := inner.filterMap (fun k => k.col innerCol)
    outer.filter (fun t =>
      (match t.col outerCol with
        | none => false
        | some v => keys.contains v) != anti)
  | .applyNested q => nestedEval q

/-- Modelled from the spec: a row of a table with a unique (primary) key `id`
and a column `x`. -/
structure KeyedRow where
  id : Int
  x : Value
  deriving DecidableEq, Repr

/-- Modelled from the spec: the un-pruned aggregation
`select id, sum(x) from t group by id`: one row per distinct `id`, with the sum
over the rows of the group. -/
def groupBySum (t : List KeyedRow) : List (Int × Value) :=
  (t.map (fun r => r.id)).dedup.map
    (fun k => (k, aggSum ((t.filter (fun r => r.id = k)).map (fun r => r.x))))

/-- Modelled from the spec: the un-pruned aggregation
`select id, count(x) from t group by id`. -/
def groupByCount (t : List KeyedRow) : List (Int × Int) :=
  (t.map (fun r => r.id)).dedup.map
    (fun k => (k, aggCount ((t.filter (fun r => r.id = k)).map (fun r => r.x))))

/-- Modelled from the spec: aggregation pruning is defined outside
`optimizer.go`; the spec says the aggregation node is eliminated and `SUM(x)`
becomes `x`. -/
def prunedSum (t : List KeyedRow) : List (Int × Value) :=
  t.map (fun r => (r.id, r.x))

/-- Modelled from the spec: aggregation pruning, where `COUNT(x)` becomes
`x IS NOT NULL`, 1 or 0. -/
def prunedCount (t : List KeyedRow) : List (Int × Int) :=
  t.map (fun r => (r.id, if r.x.isSome then 1 else 0))

/-! ## Sample plans and collaborators -/

/-- The table `t(c int, d int)` of `TestSubquery`: rows (1,1), (2,2), (3,4). -/
def sampleTable : List Row :=
  [[some 1, some 1], [some 2, some 2], [some 3, some 4]]

/-- The query
`select * from t where exists(select * from t k where t.c = k.c having sum(c) = 1)`. -/
def sampleExistsHaving : ExistsQuery :=
  { outer := sampleTable, negated := false,
    sub := { inner := sampleTable, innerCol := 0, op := .eq, outerCol := 0,
             having := some (0, 1) } }

/-- The query `select * from t where exists(select * from t2 where t2.a = t.a)`
with NULLs in `a` on both sides. -/
def sampleExistsEq : ExistsQuery :=
  { outer := [[some 1], [none], [some 3]], negated := false,
    sub := { inner := [[none], [some 3], [some 4]], innerCol := 0, op := .eq, outerCol := 0,
             having := none } }

/-- The table of `TestAggPrune`, columns `id` and `c`: rows (1, NULL), (2, 1). -/
def sampleKeyed : List KeyedRow := [⟨1, none⟩, ⟨2, some 1⟩]

/-- A sample output schema: one column per leaf, two for a join. -/
def sampleSchema : Plan → List Column
  | .logical tag _ => [⟨"c", 0, tag, true, "t"⟩]
  | .Join _ _ _ => [⟨"c", 0, 1, true, "a"⟩, ⟨"c", 0, 2, true, "b"⟩]
  | _ => []

/-- The plan of `select * from t t1 left join (select 1) t2 on 1`: a left outer
join with no equality condition. -/
def sampleLeftJoin : Plan :=
  .Join .LeftOuterJoin [] [.logical 1 [], .logical 2 []]

/-- The plan of `select * from a join b on a.x = b.x`: an inner join with one
equality condition. -/
def sampleEquiJoin : Plan :=
  .Join .InnerJoin [0] [.logical 1 [], .logical 2 []]

/-- The plan of `select * from a, b`: an inner join with no equality condition. -/
def sampleCartesian : Plan :=
  .Join .InnerJoin [] [.logical 1 [], .logical 2 []]

/-- A semi join (a join type other than inner, left outer, right outer) with
no equality condition, whose inner side is `sampleCartesian`: the shape of
`select * from t where exists (select * from a, b where a.x > t.x)`. -/
def sampleSemiOverCartesian : Plan :=
  .Join (.other 3) [] [.logical 0 [], sampleCartesian]

/-- Sample collaborators.  Rules return their input and take one id; the
predicate push-down fails on the node `logical 7`; conversion fails on the
node `logical 8`; the builder yields a plan chosen by the statement's id. -/
def sampleEnv : Env where
  InferType := fun _ node =>
    if node.id = 9 then (node, some (Err.foreign 1)) else (node, none)
  build := fun b node =>
    match node.id with
    | 0 => (sampleCartesian, { b with optFlag := 3, allocator := ⟨b.allocator.id + 3⟩ })
    | 1 => (.nonLogical 50 [], b)
    | 2 => (.nil, { b with err := some ErrInvalidWildCard })
    | 3 => (.logical 7 [], { b with optFlag := 3 })
    | 4 => (.logical 8 [], { b with optFlag := 3 })
    | _ => (.logical 1 [], { b with optFlag := 63 })
  optimize := fun rule p _ a =>
    match rule, p with
    | .ppdSolver, .logical 7 _ => ((.nil, some ErrIllegalReference), a)
    | _, _ => ((p, none), ⟨a.id + 1⟩)
  ResolveIndicesAndCorCols := fun p => p
  convert2PhysicalPlan := fun p _ =>
    match p with
    | .logical 8 _ => (none, some (Err.foreign 2))
    | _ => (some { p := .nonLogical 100 [p] }, none)
  EliminateProjection := fun pp => pp
  addCachePlan := fun pp a => (pp, ⟨a.id + 1⟩)

def sampleCtx : Context := ⟨⟨⟨0⟩⟩⟩

/-- A plan whose root has a child that is not a `LogicalPlan`, after a child
that is one. -/
def sampleNonLogicalChild : Plan :=
  .logical 0 [.logical 1 [], .nonLogical 2 []]

/-- The MySQL error numbers of the four constants `init` reads. -/
def sampleMysqlCodes : mysqlCodes := ⟨1241, 1064, 1111, 1247⟩

/-- Sample collaborators of `PrepareStmt`: preprocessing fails on the statement
with id 7, validation on the statement with id 8. -/
def samplePrepareEnv : PrepareEnv where
  Preprocess := fun node _ _ =>
    if node.id = 7 then (node, some (Err.foreign 3)) else (node, none)
  Validate := fun node _ =>
    if node.id = 8 then some (Err.foreign 4) else none

/-! ## The rule loop -/

theorem logicalOptimizeLoop_eq_runRules (env : Env) (flag : Nat) (ctx : Context)
    (rules : List logicalOptRule) :
    ∀ (i : Nat) (logic : Plan) (alloc : idAllocator),
      logicalOptimizeLoop env flag ctx rules i logic none alloc =
        runRules env ctx (enabledFrom flag rules i) logic alloc := by
  induction rules with
  | nil => intro i logic alloc; rfl
  | cons rule rest ih =>
    intro i logic alloc
    by_cases hbit : flag &&& ((1 <<< i) % 2 ^ 64) = 0
    · simp only [logicalOptimizeLoop, enabledFrom, hbit, if_true]
      exact ih (i + 1) logic alloc
    · simp only [logicalOptimizeLoop, enabledFrom, hbit, if_false, runRules]
      cases h : (env.optimize rule logic ctx alloc).1.2 with
      | some e => simp [errors.Trace]
      | none => simp [ih]

theorem enabledFrom_optRuleList (flag : Nat) :
    enabledFrom flag optRuleList 0 = enabledRules flag := by
  have h0 : (1 <<< 0) % 2 ^ 64 = flagDecorrelate := rfl
  have h1 : (1 <<< (0 + 1)) % 2 ^ 64 = flagPredicatePushDown := rfl
  have h2 : (1 <<< (0 + 1 + 1)) % 2 ^ 64 = flagPrunColumns := rfl
  have h3 : (1 <<< (0 + 1 + 1 + 1)) % 2 ^ 64 = flagBuildKeyInfo := rfl
  have h4 : (1 <<< (0 + 1 + 1 + 1 + 1)) % 2 ^ 64 = flagEliminateAgg := rfl
  have h5 : (1 <<< (0 + 1 + 1 + 1 + 1 + 1)) % 2 ^ 64 = flagAggPushDown := rfl
  simp only [optRuleList, enabledFrom, h0, h1, h2, h3, h4, h5, enabledRules, selectRules,
    pipelineOrder, List.filter, decide_not]
  by_cases b0 : flag &&& flagDecorrelate = 0 <;>
  by_cases b1 : flag &&& flagPredicatePushDown = 0 <;>
  by_cases b2 : flag &&& flagPrunColumns = 0 <;>
  by_cases b3 : flag &&& flagBuildKeyInfo = 0 <;>
  by_cases b4 : flag &&& flagEliminateAgg = 0 <;>
  by_cases b5 : flag &&& flagAggPushDown = 0 <;>
  simp [b0, b1, b2, b3, b4, b5]

theorem logicalOptimize_eq_runRules (env : Env) (flag : Nat) (logic : Plan) (ctx : Context)
    (alloc : idAllocator) :
    logicalOptimize env flag logic ctx alloc =
      runRules env ctx (enabledRules flag) logic alloc := by
  rw [logicalOptimize, logicalOptimizeLoop_eq_runRules, enabledFrom_optRuleList]

theorem runRules_calls_callee (env : Env) (ctx : Context) (rules : List logicalOptRule) :
    ∀ (p : Plan) (a : idAllocator), ∀ c ∈ (runRules env ctx rules p a).calls,
      c.callee = Callee.optimize := by
  induction rules with
  | nil => intro p a c hc; simp [runRules] at hc
  | cons rule rest ih =>
    intro p a c hc
    simp only [runRules] at hc
    cases h : (env.optimize rule p ctx a).1.2 with
    | some e =>
      simp only [h, List.mem_singleton] at hc
      subst hc; rfl
    | none =>
      simp only [h, List.mem_cons] at hc
      rcases hc with hc | hc
      · subst hc; rfl
      · exact ih _ _ c hc

theorem logicalOptimize_calls_callee (env : Env) (flag : Nat) (logic : Plan) (ctx : Context)
    (alloc : idAllocator) :
    ∀ c ∈ (logicalOptimize env flag logic ctx alloc).calls, c.callee = Callee.optimize := by
  rw [logicalOptimize_eq_runRules]
  exact runRules_calls_callee env ctx _ logic alloc

theorem runRules_returns (env : Env) (ctx : Context) (rules : List logicalOptRule) :
    ∀ (p : Plan) (a : idAllocator),
      ∃ q err a1, (runRules env ctx rules p a).result = some ((q, err), a1) := by
  induction rules with
  | nil => intro p a; exact ⟨p, none, a, rfl⟩
  | cons rule rest ih =>
    intro p a
    simp only [runRules]
    cases h : (env.optimize rule p ctx a).1.2 with
    | some e => exact ⟨_, _, _, rfl⟩
    | none => exact ih _ _

theorem runRules_rules_isPrefix (env : Env) (ctx : Context) (rules : List logicalOptRule) :
    ∀ (p : Plan) (a : idAllocator),
      (runRules env ctx rules p a).calls.filterMap Call.rule <+: rules := by
  induction rules with
  | nil => intro p a; simp [runRules]
  | cons rule rest ih =>
    intro p a
    simp only [runRules]
    cases h : (env.optimize rule p ctx a).1.2 with
    | some e =>
      simp only [List.filterMap_cons, Call.rule, List.filterMap_nil]
      exact ⟨rest, rfl⟩
    | none =>
      simp only [List.filterMap_cons, Call.rule]
      exact (List.prefix_cons_inj rule).mpr (ih _ _)

theorem runRules_error (env : Env) (ctx : Context) (rules : List logicalOptRule) :
    ∀ (p : Plan) (a : idAllocator) (q : Plan) (e : Err) (a1 : idAllocator),
      (runRules env ctx rules p a).result = some ((q, some e), a1) →
        q = Plan.nil ∧
        ∃ pre rule q0 a0 e0,
          (runRules env ctx rules p a).calls = pre ++ [Call.optimize rule q0 a0] ∧
          (∀ c ∈ pre, callFails env ctx c = false) ∧
          (env.optimize rule q0 ctx a0).1.2 = some e0 ∧
          e = Err.traced e0 ∧ a1 = (env.optimize rule q0 ctx a0).2 := by
  induction rules with
  | nil => intro p a q e a1 h; simp [runRules] at h
  | cons rule rest ih =>
    intro p a q e a1 h
    simp only [runRules] at h ⊢
    cases hr : (env.optimize rule p ctx a).1.2 with
    | some e0 =>
      simp only [hr, Option.some.injEq, Prod.mk.injEq] at h
      obtain ⟨⟨hq, he⟩, ha⟩ := h
      refine ⟨hq.symm, [], rule, p, a, e0, rfl, ?_, hr, he.symm, ha.symm⟩
      intro c hc; simp at hc
    | none =>
      simp only [hr] at h
      obtain ⟨hq, pre, rule1, q0, a0, e0, hcalls, hpre, hfail, he, ha⟩ := ih _ _ q e a1 h
      refine ⟨hq, Call.optimize rule p a :: pre, rule1, q0, a0, e0, ?_, ?_, hfail, he, ha⟩
      · simp [hcalls]
      · intro c hc
        simp only [List.mem_cons] at hc
        rcases hc with hc | hc
        · subst hc; simp [callFails, ruleFails, hr]
        · exact hpre c hc

theorem runRules_success (env : Env) (ctx : Context) (rules : List logicalOptRule) :
    ∀ (p : Plan) (a : idAllocator) (q : Plan) (a1 : idAllocator),
      (runRules env ctx rules p a).result = some ((q, none), a1) →
        (∀ c ∈ (runRules env ctx rules p a).calls, callFails env ctx c = false) ∧
        (runRules env ctx rules p a).calls.filterMap Call.rule = rules := by
  induction rules with
  | nil => intro p a q a1 _; simp [runRules]
  | cons rule rest ih =>
    intro p a q a1 h
    simp only [runRules] at h ⊢
    cases hr : (env.optimize rule p ctx a).1.2 with
    | some e0 => simp [hr] at h
    | none =>
      simp only [hr] at h
      obtain ⟨hall, hrules⟩ := ih _ _ q a1 h
      refine ⟨?_, ?_⟩
      · intro c hc
        simp only [List.mem_cons] at hc
        rcases hc with hc | hc
        · subst hc; simp [callFails, ruleFails, hr]
        · exact hall c hc
      · simp [Call.rule, hrules]

theorem runRules_of_noRuleFails (env : Env) (ctx : Context) (rules : List logicalOptRule) :
    ∀ (s : Plan × idAllocator), noRuleFails env ctx rules s = true →
      runRules env ctx rules s.1 s.2 =
        ⟨applyRulesCalls env ctx rules s,
          some (((applyRules env ctx rules s).1, none), (applyRules env ctx rules s).2)⟩ := by
  induction rules with
  | nil => intro s _; rfl
  | cons rule rest ih =>
    intro s h
    simp only [noRuleFails, Bool.and_eq_true, Bool.not_eq_true', ruleFails] at h
    obtain ⟨h1, h2⟩ := h
    have hr : (env.optimize rule s.1 ctx s.2).1.2 = none := by
      cases hx : (env.optimize rule s.1 ctx s.2).1.2 with
      | none => rfl
      | some e => simp [hx] at h1
    have := ih _ h2
    simp only [applyRule] at this
    simp [runRules, hr, this, applyRulesCalls, applyRules, applyRule]

theorem physicalOptimize_error (env : Env) (flag : Nat) (logic : Plan) (a : idAllocator)
    (q : Plan) (e : Err) (a1 : idAllocator)
    (h : (physicalOptimize env flag logic a).result = some ((q, some e), a1)) :
    q = Plan.nil ∧ ∃ e0, (env.convert2PhysicalPlan logic {}).2 = some e0 ∧ e = Err.traced e0 := by
  unfold physicalOptimize at h
  by_cases hn : logic.isNil = true
  · simp [hn] at h
  · simp only [hn] at h
    cases hc : (env.convert2PhysicalPlan logic {}).2 with
    | some e0 =>
      simp only [hc, errors.Trace, Bool.false_eq_true, if_false, Option.some.injEq,
        Prod.mk.injEq] at h
      exact ⟨h.1.1.symm, e0, rfl, h.1.2.symm⟩
    | none =>
      simp only [hc] at h
      cases hi : (env.convert2PhysicalPlan logic {}).1 with
      | none => simp [hi] at h
      | some info =>
        simp only [hi] at h
        split_ifs at h <;> simp at h

theorem physicalOptimize_calls_callee (env : Env) (flag : Nat) (logic : Plan)
    (a : idAllocator) :
    ∀ c ∈ (physicalOptimize env flag logic a).calls,
      c.callee = Callee.convert2PhysicalPlan ∨ c.callee = Callee.EliminateProjection ∨
        c.callee = Callee.addCachePlan := by
  intro c hc
  unfold physicalOptimize at hc
  by_cases hn : logic.isNil = true
  · simp [hn] at hc
  · simp only [hn, Bool.false_eq_true, if_false] at hc
    cases hcv : (env.convert2PhysicalPlan logic {}).2 with
    | some e0 =>
      simp only [hcv, List.mem_singleton] at hc
      subst hc; exact Or.inl rfl
    | none =>
      simp only [hcv] at hc
      cases hi : (env.convert2PhysicalPlan logic {}).1 with
      | none =>
        simp only [hi, List.mem_singleton] at hc
        subst hc; exact Or.inl rfl
      | some info =>
        simp only [hi] at hc
        split_ifs at hc <;>
          simp only [List.mem_append, List.mem_singleton, List.mem_cons, List.not_mem_nil,
            or_false] at hc
        · rcases hc with (hc | hc) | hc <;> subst hc
          · exact Or.inl rfl
          · exact Or.inr (Or.inl rfl)
          · exact Or.inr (Or.inr rfl)
        · rcases hc with hc | hc <;> subst hc
          · exact Or.inl rfl
          · exact Or.inr (Or.inl rfl)

theorem doOptimize_eq_pipelineThenPhysical (env : Env) (g : Globals) (flag : Nat) (p : Plan)
    (ctx : Context) (a : idAllocator) (hon : g.AllowCartesianProduct = true) :
    doOptimize env g flag p ctx a = pipelineThenPhysical env flag p ctx a := by
  unfold doOptimize pipelineThenPhysical
  cases hr : (logicalOptimize env flag p ctx a).result with
  | none => simp only [hr]
  | some v =>
    obtain ⟨⟨q, err⟩, a1⟩ := v
    cases err with
    | some e => simp only [hr, errors.Trace]
    | none => simp only [hr, cartesianGuard, hon, if_true, List.append_nil]

theorem pipelineThenPhysical_calls_callee (env : Env) (flag : Nat) (p : Plan)
    (ctx : Context) (a : idAllocator) :
    ∀ c ∈ (pipelineThenPhysical env flag p ctx a).calls,
      c.callee ≠ Callee.existsCartesianProduct := by
  intro c hc
  have hlog := logicalOptimize_calls_callee env flag p ctx a
  unfold pipelineThenPhysical at hc
  cases hr : (logicalOptimize env flag p ctx a).result with
  | none =>
    simp only [hr] at hc
    rw [hlog c hc]; decide
  | some v =>
    obtain ⟨⟨q, err⟩, a1⟩ := v
    cases err with
    | some e =>
      simp only [hr] at hc
      rw [hlog c hc]; decide
    | none =>
      simp only [hr] at hc
      split_ifs at hc
      · rw [hlog c hc]; decide
      · simp only [List.mem_append, List.mem_singleton] at hc
        rcases hc with (hc | hc) | hc
        · rw [hlog c hc]; decide
        · subst hc; simp [Call.callee]
        · rcases physicalOptimize_calls_callee env flag _ a1 c hc with h | h | h <;>
            rw [h] <;> decide

theorem pipelineThenPhysical_error (env : Env) (flag : Nat) (p : Plan) (ctx : Context)
    (a : idAllocator) (q : Plan) (e : Err) (a1 : idAllocator)
    (h : (pipelineThenPhysical env flag p ctx a).result = some ((q, some e), a1)) :
    (∃ rule q0 a0 e0, (env.optimize rule q0 ctx a0).1.2 = some e0 ∧
        e = Err.traced (Err.traced e0)) ∨
      (∃ q0 e0, (env.convert2PhysicalPlan q0 {}).2 = some e0 ∧ e = Err.traced e0) := by
  unfold pipelineThenPhysical at h
  cases hr : (logicalOptimize env flag p ctx a).result with
  | none => simp [hr] at h
  | some v =>
    obtain ⟨⟨q1, err⟩, a2⟩ := v
    cases err with
    | some e1 =>
      simp only [hr, Option.some.injEq, Prod.mk.injEq] at h
      rw [logicalOptimize_eq_runRules] at hr
      obtain ⟨_, _, rule, q0, a0, e0, _, _, hfail, he, _⟩ :=
        runRules_error env ctx _ p a q1 e1 a2 hr
      exact Or.inl ⟨rule, q0, a0, e0, hfail, by rw [← h.1.2, he]⟩
    | none =>
      simp only [hr] at h
      split_ifs at h
      obtain ⟨_, e0, hc, he⟩ := physicalOptimize_error env flag _ a2 q e a1 h
      exact Or.inr ⟨_, e0, hc, he⟩

theorem sampleEnv_optimize_error (rule : logicalOptRule) (q : Plan) (ctx : Context)
    (al : idAllocator) (e : Err) (h : (sampleEnv.optimize rule q ctx al).1.2 = some e) :
    e = ErrIllegalReference := by
  simp only [sampleEnv] at h
  split at h <;> simp at h
  exact h.symm

theorem sampleEnv_convert_error (q : Plan) (prop : requiredProperty) (e : Err)
    (h : (sampleEnv.convert2PhysicalPlan q prop).2 = some e) : e = Err.foreign 2 := by
  simp only [sampleEnv] at h
  split at h <;> simp at h
  exact h.symm

theorem selectRules_cons_of_clear (flag : Nat) (x : Nat × logicalOptRule)
    (xs : List (Nat × logicalOptRule)) (h : flag &&& x.1 = 0) :
    selectRules flag (x :: xs) = selectRules flag xs := by
  simp [selectRules, List.filter, h]

theorem selectRules_cons_of_set (flag : Nat) (x : Nat × logicalOptRule)
    (xs : List (Nat × logicalOptRule)) (h : ¬ flag &&& x.1 = 0) :
    selectRules flag (x :: xs) = x.2 :: selectRules flag xs := by
  simp [selectRules, List.filter, h]

theorem selectRules_subset (flag : Nat) (l : List (Nat × logicalOptRule)) :
    selectRules flag l ⊆ l.map Prod.snd :=
  (List.Sublist.map Prod.snd (List.filter_sublist l)).subset

theorem runRules_applied_iff (env : Env) (ctx : Context) (flag : Nat) :
    ∀ (l : List (Nat × logicalOptRule)), (l.map Prod.snd).Nodup →
      ∀ (i : Nat) (br : Nat × logicalOptRule), l[i]? = some br →
        ∀ (p : Plan) (a : idAllocator),
          (br.2 ∈ (runRules env ctx (selectRules flag l) p a).calls.filterMap Call.rule ↔
            flag &&& br.1 ≠ 0 ∧
              noRuleFails env ctx (selectRules flag (l.take i)) (p, a) = true) := by
  intro l
  induction l with
  | nil => intro _ i br h; simp at h
  | cons x xs ih =>
    intro hnd i br hget p a
    rw [List.map_cons, List.nodup_cons] at hnd
    obtain ⟨hx, hnd1⟩ := hnd
    cases i with
    | zero =>
      simp only [List.getElem?_cons_zero, Option.some.injEq] at hget
      subst hget
      simp only [List.take_zero]
      by_cases hbit : flag &&& x.1 = 0
      · rw [selectRules_cons_of_clear flag x xs hbit]
        constructor
        · intro hmem
          exact absurd (selectRules_subset flag xs
            ((runRules_rules_isPrefix env ctx _ p a).subset hmem)) hx
        · intro h; exact absurd hbit h.1
      · rw [selectRules_cons_of_set flag x xs hbit]
        constructor
        · intro _; exact ⟨hbit, rfl⟩
        · intro _
          simp only [runRules]
          cases hr : (env.optimize x.2 p ctx a).1.2 <;> simp [Call.rule]
    | succ j =>
      simp only [List.getElem?_cons_succ] at hget
      have hbr : br.2 ∈ xs.map Prod.snd := List.mem_map_of_mem Prod.snd (List.getElem?_mem hget)
      have hne : br.2 ≠ x.2 := fun h => hx (h ▸ hbr)
      rw [List.take_succ_cons]
      by_cases hbit : flag &&& x.1 = 0
      · rw [selectRules_cons_of_clear flag x xs hbit,
          selectRules_cons_of_clear flag x (xs.take j) hbit]
        exact ih hnd1 j br hget p a
      · rw [selectRules_cons_of_set flag x xs hbit,
          selectRules_cons_of_set flag x (xs.take j) hbit]
        simp only [runRules, noRuleFails, ruleFails, applyRule]
        cases hr : (env.optimize x.2 p ctx a).1.2 with
        | some e =>
          simp [Call.rule, hne]
        | none =>
          have := ih hnd1 j br hget (env.optimize x.2 p ctx a).1.1 (env.optimize x.2 p ctx a).2
          simp [Call.rule, hne, this]

theorem pipelineOrder_at_index (i : Nat) (rule : logicalOptRule)
    (h : optRuleList[i]? = some rule) : pipelineOrder[i]? = some (2 ^ i, rule) := by
  have hi : i < 6 := by
    by_contra hge
    have : optRuleList[i]? = none := List.getElem?_eq_none (by simp [optRuleList]; omega)
    rw [this] at h; cases h
  interval_cases i <;> simp [optRuleList] at h <;> subst h <;> rfl

theorem runRules_calls_chain (env : Env) (ctx : Context) (rules : List logicalOptRule) :
    ∀ (p : Plan) (a : idAllocator),
      (runRules env ctx rules p a).calls =
        applyRulesCalls env ctx ((runRules env ctx rules p a).calls.filterMap Call.rule)
          (p, a) := by
  induction rules with
  | nil => intro p a; rfl
  | cons rule rest ih =>
    intro p a
    simp only [runRules]
    cases hr : (env.optimize rule p ctx a).1.2 with
    | some e => simp [Call.rule, applyRulesCalls]
    | none =>
      simp only [List.filterMap_cons, Call.rule, applyRulesCalls, applyRule]
      congr 1
      exact ih _ _

theorem doOptimize_error_plan_nil (env : Env) (g : Globals) (flag : Nat) (logic : Plan)
    (ctx : Context) (a : idAllocator) (q : Plan) (e : Err) (a1 : idAllocator)
    (h : (doOptimize env g flag logic ctx a).result = some ((q, some e), a1)) :
    q = Plan.nil := by
  unfold doOptimize at h
  cases hr : (logicalOptimize env flag logic ctx a).result with
  | none => simp [hr] at h
  | some v =>
    obtain ⟨⟨q1, err⟩, a2⟩ := v
    cases err with
    | some e1 =>
      simp only [hr, Option.some.injEq, Prod.mk.injEq] at h
      exact h.1.1.symm
    | none =>
      simp only [hr] at h
      cases hg : (cartesianGuard g q1).result with
      | none => simp [hg] at h
      | some b =>
        cases b with
        | true =>
          simp only [hg, Option.some.injEq, Prod.mk.injEq] at h
          exact h.1.1.symm
        | false =>
          simp only [hg] at h
          split_ifs at h
          exact (physicalOptimize_error env flag _ a2 q e a1 h).1

theorem cartesianGuard_calls_callee (g : Globals) (q : Plan) :
    ∀ c ∈ (cartesianGuard g q).calls, c.callee = Callee.existsCartesianProduct := by
  intro c hc
  unfold cartesianGuard at hc
  split_ifs at hc
  · simp at hc
  · simp only [List.mem_singleton] at hc
    subst hc; rfl

theorem timesCalled_eq_zero (f : Callee) (calls : List Call)
    (h : ∀ c ∈ calls, c.callee ≠ f) : timesCalled f calls = 0 := by
  unfold timesCalled
  rw [List.countP_eq_zero]
  intro c hc
  simpa using h c hc

theorem timesCalled_append (f : Callee) (xs ys : List Call) :
    timesCalled f (xs ++ ys) = timesCalled f xs + timesCalled f ys := by
  simp [timesCalled, List.countP_append]

theorem physicalOptimize_calls_shape (env : Env) (flag : Nat) (logic : Plan)
    (a : idAllocator) (hlogic : logic.isNil = false) :
    ∃ rest, (physicalOptimize env flag logic a).calls =
        Call.convert2PhysicalPlan logic ({} : requiredProperty) :: rest ∧
      ∀ c ∈ rest, c.callee ≠ Callee.convert2PhysicalPlan := by
  unfold physicalOptimize
  simp only [hlogic, Bool.false_eq_true, if_false]
  cases hcv : (env.convert2PhysicalPlan logic {}).2 with
  | some e0 => exact ⟨[], rfl, by simp⟩
  | none =>
    cases hi : (env.convert2PhysicalPlan logic {}).1 with
    | none => exact ⟨[], rfl, by simp⟩
    | some info =>
      by_cases hf : flag &&& flagDecorrelate > 0
      · refine ⟨[Call.EliminateProjection info.p,
          Call.addCachePlan (env.EliminateProjection info.p) a], ?_, ?_⟩
        · simp [hf]
        · intro c hc
          simp only [List.mem_cons, List.mem_singleton, List.not_mem_nil, or_false] at hc
          rcases hc with hc | hc <;> subst hc <;> simp [Call.callee]
      · refine ⟨[Call.EliminateProjection info.p], ?_, ?_⟩
        · simp [hf]
        · intro c hc
          simp only [List.mem_singleton] at hc
          subst hc; simp [Call.callee]

theorem physicalOptimize_of_converted (env : Env) (flag : Nat) (logic : Plan)
    (a : idAllocator) (info : physicalPlanInfo) (hlogic : logic.isNil = false)
    (hconv : env.convert2PhysicalPlan logic {} = (some info, none)) :
    physicalOptimize env flag logic a =
      if flag &&& flagDecorrelate > 0 then
        ⟨[Call.convert2PhysicalPlan logic {}, Call.EliminateProjection info.p,
            Call.addCachePlan (env.EliminateProjection info.p) a],
          some (((env.addCachePlan (env.EliminateProjection info.p) a).1, none),
            (env.addCachePlan (env.EliminateProjection info.p) a).2)⟩
      else
        ⟨[Call.convert2PhysicalPlan logic {}, Call.EliminateProjection info.p],
          some ((env.EliminateProjection info.p, none), a)⟩ := by
  unfold physicalOptimize
  simp only [hlogic, hconv, Bool.false_eq_true, if_false]
  split_ifs <;> rfl

theorem Optimize_of_built_non_logical (env : Env) (g : Globals)
    (ctx : Context) (node : Node) (is : InfoSchema)
    (hinfer : (inferred env ctx node).2 = none)
    (hbuild : (built env ctx node is).2.err = none)
    (hplan : (built env ctx node is).1.isLogical = false) :
    Optimize env g ctx node is =
      ⟨[Call.InferType ctx.GetSessionVars.StmtCtx node,
          Call.build (newBuilder ctx is) (inferred env ctx node).1],
        some ((built env ctx node is).1, none)⟩ := by
  simp only [built, inferred, newBuilder] at hinfer hbuild hplan ⊢
  simp [Optimize, hinfer, hbuild, hplan]

theorem Optimize_of_built (env : Env) (g : Globals) (ctx : Context) (node : Node)
    (is : InfoSchema) (hinfer : (inferred env ctx node).2 = none)
    (hbuild : (built env ctx node is).2.err = none)
    (hplan : (built env ctx node is).1.isLogical = true) :
    Optimize env g ctx node is =
      ⟨[Call.InferType ctx.GetSessionVars.StmtCtx node,
          Call.build (newBuilder ctx is) (inferred env ctx node).1] ++
          (doOptimize env g (built env ctx node is).2.optFlag (built env ctx node is).1 ctx
            (built env ctx node is).2.allocator).calls,
        (doOptimize env g (built env ctx node is).2.optFlag (built env ctx node is).1 ctx
          (built env ctx node is).2.allocator).result.map (fun v => v.1)⟩ := by
  simp only [built, inferred, newBuilder] at hinfer hbuild hplan ⊢
  simp [Optimize, hinfer, hbuild, hplan]

theorem runRules_preserves (env : Env) (ctx : Context) {β : Type} (f : Plan → β)
    (hf : ∀ (rule : logicalOptRule) (p : Plan) (a : idAllocator),
      (env.optimize rule p ctx a).1.2 = none → f (env.optimize rule p ctx a).1.1 = f p)
    (rules : List logicalOptRule) :
    ∀ (p : Plan) (a : idAllocator) (q : Plan) (a1 : idAllocator),
      (runRules env ctx rules p a).result = some ((q, none), a1) → f q = f p := by
  induction rules with
  | nil =>
    intro p a q a1 h
    simp only [runRules, Option.some.injEq, Prod.mk.injEq, and_true] at h
    rw [h.1]
  | cons rule rest ih =>
    intro p a q a1 h
    simp only [runRules] at h
    cases hr : (env.optimize rule p ctx a).1.2 with
    | some e => simp [hr] at h
    | none =>
      simp only [hr] at h
      rw [ih _ _ q a1 h, hf rule p a hr]

theorem sampleEnv_preserves_schema (ctx : Context) :
    rulesPreserveSchema sampleEnv ctx sampleSchema := by
  intro rule p a h
  simp only [sampleEnv] at h ⊢
  split at h
  · simp at h
  · rfl

theorem filterMap_rule_eq_nil (calls : List Call)
    (h : ∀ c ∈ calls, c.callee ≠ Callee.optimize) : calls.filterMap Call.rule = [] := by
  induction calls with
  | nil => rfl
  | cons c rest ih =>
    have hc := h c (List.mem_cons_self c rest)
    have hrest := ih (fun d hd => h d (List.mem_cons_of_mem c hd))
    cases c <;> simp_all [Call.rule, Call.callee]

theorem physicalOptimize_rules (env : Env) (flag : Nat) (logic : Plan) (a : idAllocator) :
    (physicalOptimize env flag logic a).calls.filterMap Call.rule = [] := by
  apply filterMap_rule_eq_nil
  intro c hc
  rcases physicalOptimize_calls_callee env flag logic a c hc with h | h | h <;>
    rw [h] <;> decide

theorem cartesianGuard_rules (g : Globals) (q : Plan) :
    (cartesianGuard g q).calls.filterMap Call.rule = [] := by
  apply filterMap_rule_eq_nil
  intro c hc
  rw [cartesianGuard_calls_callee g q c hc]; decide

theorem doOptimize_rules (env : Env) (g : Globals) (flag : Nat) (p : Plan) (ctx : Context)
    (a : idAllocator) :
    (doOptimize env g flag p ctx a).calls.filterMap Call.rule =
      (logicalOptimize env flag p ctx a).calls.filterMap Call.rule := by
  unfold doOptimize
  cases hr : (logicalOptimize env flag p ctx a).result with
  | none => simp only [hr]
  | some v =>
    obtain ⟨⟨q, err⟩, a1⟩ := v
    cases err with
    | some e => simp only [hr]
    | none =>
      simp only [hr]
      cases hg : (cartesianGuard g q).result with
      | none => simp [cartesianGuard_rules]
      | some b =>
        cases b with
        | true => simp [cartesianGuard_rules]
        | false =>
          by_cases hn : q.isNil = true
          · simp [hn, cartesianGuard_rules]
          · simp [hn, cartesianGuard_rules, physicalOptimize_rules, Call.rule]

theorem physicalOptimize_error_call (env : Env) (flag : Nat) (logic : Plan) (a : idAllocator)
    (q : Plan) (e : Err) (a1 : idAllocator)
    (h : (physicalOptimize env flag logic a).result = some ((q, some e), a1)) :
    Call.convert2PhysicalPlan logic {} ∈ (physicalOptimize env flag logic a).calls := by
  have hn : logic.isNil = false := by
    cases hl : logic.isNil with
    | false => rfl
    | true => simp [physicalOptimize, hl] at h
  obtain ⟨rest, hcalls, _⟩ := physicalOptimize_calls_shape env flag logic a hn
  rw [hcalls]
  exact List.mem_cons_self _ _

theorem doOptimize_error_origin (env : Env) (g : Globals) (flag : Nat) (p : Plan)
    (ctx : Context) (a : idAllocator) (q : Plan) (e : Err) (a1 : idAllocator)
    (h : (doOptimize env g flag p ctx a).result = some ((q, some e), a1)) :
    (∃ rule q0 a0 e0, Call.optimize rule q0 a0 ∈ (doOptimize env g flag p ctx a).calls ∧
        (env.optimize rule q0 ctx a0).1.2 = some e0 ∧ e = Err.traced (Err.traced e0)) ∨
    (e = Err.traced ErrCartesianProductUnsupported ∧ g.AllowCartesianProduct = false ∧
        ∃ q0, Call.existsCartesianProduct q0 ∈ (doOptimize env g flag p ctx a).calls ∧
          existsCartesianProduct q0 = some true) ∨
    (∃ q0 prop e0, Call.convert2PhysicalPlan q0 prop ∈ (doOptimize env g flag p ctx a).calls ∧
        (env.convert2PhysicalPlan q0 prop).2 = some e0 ∧ e = Err.traced e0) := by
  unfold doOptimize at h ⊢
  cases hr : (logicalOptimize env flag p ctx a).result with
  | none => simp [hr] at h
  | some v =>
    obtain ⟨⟨q1, err⟩, a2⟩ := v
    cases err with
    | some e1 =>
      simp only [hr, errors.Trace, Option.some.injEq, Prod.mk.injEq] at h ⊢
      have hr1 := hr
      rw [logicalOptimize_eq_runRules] at hr1
      obtain ⟨_, pre, rule, q0, a0, e0, hcalls, _, hfail, he, _⟩ :=
        runRules_error env ctx _ p a q1 e1 a2 hr1
      refine Or.inl ⟨rule, q0, a0, e0, ?_, hfail, by rw [← h.1.2, he]⟩
      rw [logicalOptimize_eq_runRules, hcalls]
      simp
    | none =>
      simp only [hr] at h ⊢
      cases hg : (cartesianGuard g q1).result with
      | none => simp [hg] at h
      | some b =>
        have hguard := hg
        unfold cartesianGuard at hguard
        cases b with
        | true =>
          simp only [hg, errors.Trace, Option.some.injEq, Prod.mk.injEq] at h ⊢
          by_cases hon : g.AllowCartesianProduct = true
          · simp [hon] at hguard
          · simp only [hon, Bool.false_eq_true, if_false] at hguard
            refine Or.inr (Or.inl ⟨h.1.2.symm, by simpa using hon, q1, ?_, hguard⟩)
            simp [cartesianGuard, hon]
        | false =>
          simp only [hg] at h ⊢
          split_ifs at h with hn
          have hcall := physicalOptimize_error_call env flag _ a2 q e a1 h
          obtain ⟨_, e0, hc, he⟩ := physicalOptimize_error env flag _ a2 q e a1 h
          refine Or.inr (Or.inr ⟨_, _, e0, ?_, hc, he⟩)
          simp only [hn, Bool.false_eq_true, if_false]
          exact List.mem_append_right _ hcall

theorem Optimize_of_infer_error (env : Env) (g : Globals) (ctx : Context) (node : Node)
    (is : InfoSchema) (e : Err) (hinfer : (inferred env ctx node).2 = some e) :
    Optimize env g ctx node is =
      ⟨[Call.InferType ctx.GetSessionVars.StmtCtx node],
        some (Plan.nil, some (Err.traced e))⟩ := by
  simp only [inferred] at hinfer
  simp [Optimize, hinfer, errors.Trace]

theorem Optimize_of_build_error (env : Env) (g : Globals) (ctx : Context) (node : Node)
    (is : InfoSchema) (e : Err) (hinfer : (inferred env ctx node).2 = none)
    (hbuild : (built env ctx node is).2.err = some e) :
    Optimize env g ctx node is =
      ⟨[Call.InferType ctx.GetSessionVars.StmtCtx node,
          Call.build (newBuilder ctx is) (inferred env ctx node).1],
        some (Plan.nil, some (Err.traced e))⟩ := by
  simp only [built, inferred, newBuilder] at hinfer hbuild ⊢
  simp [Optimize, hinfer, hbuild, errors.Trace]

/-! ## Flags as sets of rules -/

theorem selectRules_congr (f g : Nat) (l : List (Nat × logicalOptRule))
    (h : ∀ x ∈ l, (f &&& x.1 = 0 ↔ g &&& x.1 = 0)) : selectRules f l = selectRules g l := by
  unfold selectRules
  congr 1
  apply List.filter_congr
  intro x hx
  simp only [ne_eq, decide_not, h x hx]

theorem flag_mod_and (flag b : Nat) (hb : 63 &&& b = b) : (flag % 64) &&& b = flag &&& b := by
  have h64 : flag % 64 = flag &&& 63 := (Nat.and_pow_two_sub_one_eq_mod flag 6).symm
  rw [h64, Nat.and_assoc, hb]

theorem enabledRules_mod (flag : Nat) : enabledRules (flag % 64) = enabledRules flag := by
  unfold enabledRules
  apply selectRules_congr
  intro x hx
  have hb : 63 &&& x.1 = x.1 := by
    simp only [pipelineOrder, List.mem_cons, List.mem_singleton, List.not_mem_nil,
      or_false] at hx
    rcases hx with h | h | h | h | h | h <;> subst h <;> rfl
  rw [flag_mod_and flag x.1 hb]

theorem enabledRules_zero : enabledRules 0 = [] := by decide

theorem lor_eq_zero (x y : Nat) : x ||| y = 0 ↔ x = 0 ∧ y = 0 := by
  constructor
  · intro h
    have hbits : ∀ i, (x.testBit i || y.testBit i) = false := by
      intro i
      rw [← Nat.testBit_or, h, Nat.zero_testBit]
    constructor
    · apply Nat.eq_of_testBit_eq
      intro i
      have := hbits i
      rw [Nat.zero_testBit]
      cases hx : x.testBit i <;> simp_all
    · apply Nat.eq_of_testBit_eq
      intro i
      have := hbits i
      rw [Nat.zero_testBit]
      cases hy : y.testBit i <;> simp_all
  · rintro ⟨hx, hy⟩
    subst hx hy
    rfl

theorem lor_and_eq_zero (f1 f2 b : Nat) :
    (f1 ||| f2) &&& b = 0 ↔ f1 &&& b = 0 ∧ f2 &&& b = 0 := by
  rw [Nat.and_comm, Nat.and_or_distrib_left, lor_eq_zero, Nat.and_comm b f1, Nat.and_comm b f2]

theorem selectRules_eq_nil (f : Nat) (l : List (Nat × logicalOptRule))
    (h : ∀ x ∈ l, f &&& x.1 = 0) : selectRules f l = [] := by
  unfold selectRules
  rw [List.map_eq_nil_iff, List.filter_eq_nil_iff]
  intro x hx
  simp [h x hx]

theorem selectRules_lor (f1 f2 : Nat) :
    ∀ (l : List (Nat × logicalOptRule)),
      l.Pairwise (fun x y => ¬ (f2 &&& x.1 ≠ 0 ∧ f1 &&& y.1 ≠ 0)) →
      (∀ x ∈ l, ¬ (f1 &&& x.1 ≠ 0 ∧ f2 &&& x.1 ≠ 0)) →
        selectRules (f1 ||| f2) l = selectRules f1 l ++ selectRules f2 l := by
  intro l
  induction l with
  | nil => intro _ _; rfl
  | cons x xs ih =>
    intro hpair hself
    rw [List.pairwise_cons] at hpair
    obtain ⟨hx, hxs⟩ := hpair
    have ih1 := ih hxs (fun y hy => hself y (List.mem_cons_of_mem x hy))
    by_cases h1 : f1 &&& x.1 = 0
    · by_cases h2 : f2 &&& x.1 = 0
      · rw [selectRules_cons_of_clear (f1 ||| f2) x xs ((lor_and_eq_zero f1 f2 x.1).mpr ⟨h1, h2⟩),
          selectRules_cons_of_clear f1 x xs h1, selectRules_cons_of_clear f2 x xs h2, ih1]
      · have hf1 : selectRules f1 xs = [] := by
          apply selectRules_eq_nil
          intro y hy
          by_contra hne
          exact hx y hy ⟨h2, hne⟩
        rw [selectRules_cons_of_set (f1 ||| f2) x xs
            (fun h => h2 ((lor_and_eq_zero f1 f2 x.1).mp h).2),
          selectRules_cons_of_clear f1 x xs h1, selectRules_cons_of_set f2 x xs h2, ih1, hf1]
        rfl
    · have h2 : f2 &&& x.1 = 0 := by
        by_contra hne
        exact hself x (List.mem_cons_self x xs) ⟨h1, hne⟩
      rw [selectRules_cons_of_set (f1 ||| f2) x xs
          (fun h => h1 ((lor_and_eq_zero f1 f2 x.1).mp h).1),
        selectRules_cons_of_set f1 x xs h1, selectRules_cons_of_clear f2 x xs h2, ih1]
      rfl

theorem runRules_append_of_success (env : Env) (ctx : Context) (l1 l2 : List logicalOptRule) :
    ∀ (p : Plan) (a : idAllocator) (q : Plan) (a1 : idAllocator),
      (runRules env ctx l1 p a).result = some ((q, none), a1) →
        runRules env ctx (l1 ++ l2) p a =
          ⟨(runRules env ctx l1 p a).calls ++ (runRules env ctx l2 q a1).calls,
            (runRules env ctx l2 q a1).result⟩ := by
  induction l1 with
  | nil =>
    intro p a q a1 h
    simp only [runRules, Option.some.injEq, Prod.mk.injEq, and_true] at h
    obtain ⟨hq, ha⟩ := h
    subst hq ha
    rfl
  | cons rule rest ih =>
    intro p a q a1 h
    simp only [runRules, List.cons_append] at h ⊢
    cases hr : (env.optimize rule p ctx a).1.2 with
    | some e => simp [hr] at h
    | none =>
      simp only [hr] at h ⊢
      rw [show rest.append l2 = rest ++ l2 from rfl, ih _ _ q a1 h]
      rfl

theorem runRules_append_of_error (env : Env) (ctx : Context) (l1 l2 : List logicalOptRule) :
    ∀ (p : Plan) (a : idAllocator) (q : Plan) (e : Err) (a1 : idAllocator),
      (runRules env ctx l1 p a).result = some ((q, some e), a1) →
        runRules env ctx (l1 ++ l2) p a = runRules env ctx l1 p a := by
  induction l1 with
  | nil => intro p a q e a1 h; simp [runRules] at h
  | cons rule rest ih =>
    intro p a q e a1 h
    simp only [runRules, List.cons_append] at h ⊢
    cases hr : (env.optimize rule p ctx a).1.2 with
    | some e0 => rfl
    | none =>
      simp only [hr] at h ⊢
      rw [show rest.append l2 = rest ++ l2 from rfl, ih _ _ q e a1 h]

theorem enabledRules_lor (f1 f2 : Nat)
    (horder : ∀ i j, i < 6 → j < 6 → f1 &&& 2 ^ i ≠ 0 → f2 &&& 2 ^ j ≠ 0 → i < j) :
    enabledRules (f1 ||| f2) = enabledRules f1 ++ enabledRules f2 := by
  have hlt : ∀ i j, i < 6 → j < 6 → j ≤ i → ¬ (f2 &&& 2 ^ j ≠ 0 ∧ f1 &&& 2 ^ i ≠ 0) := by
    intro i j hi hj hji h
    have := horder i j hi hj h.2 h.1
    omega
  unfold enabledRules
  apply selectRules_lor
  · simp only [pipelineOrder, List.pairwise_cons, List.mem_cons, List.mem_singleton,
      List.not_mem_nil, or_false, forall_eq_or_imp, forall_eq, List.Pairwise.nil,
      and_true, IsEmpty.forall_iff, implies_true]
    refine ⟨⟨hlt 1 0 (by omega) (by omega) (by omega), hlt 2 0 (by omega) (by omega) (by omega),
        hlt 3 0 (by omega) (by omega) (by omega), hlt 4 0 (by omega) (by omega) (by omega),
        hlt 5 0 (by omega) (by omega) (by omega)⟩,
      ⟨hlt 2 1 (by omega) (by omega) (by omega), hlt 3 1 (by omega) (by omega) (by omega),
        hlt 4 1 (by omega) (by omega) (by omega), hlt 5 1 (by omega) (by omega) (by omega)⟩,
      ⟨hlt 3 2 (by omega) (by omega) (by omega), hlt 4 2 (by omega) (by omega) (by omega),
        hlt 5 2 (by omega) (by omega) (by omega)⟩,
      ⟨hlt 4 3 (by omega) (by omega) (by omega), hlt 5 3 (by omega) (by omega) (by omega)⟩,
      hlt 5 4 (by omega) (by omega) (by omega)⟩
  · intro x hx
    simp only [pipelineOrder, List.mem_cons, List.mem_singleton, List.not_mem_nil,
      or_false] at hx
    intro h
    rcases hx with hx | hx | hx | hx | hx | hx <;> subst hx
    · exact hlt 0 0 (by omega) (by omega) (by omega) ⟨h.2, h.1⟩
    · exact hlt 1 1 (by omega) (by omega) (by omega) ⟨h.2, h.1⟩
    · exact hlt 2 2 (by omega) (by omega) (by omega) ⟨h.2, h.1⟩
    · exact hlt 3 3 (by omega) (by omega) (by omega) ⟨h.2, h.1⟩
    · exact hlt 4 4 (by omega) (by omega) (by omega) ⟨h.2, h.1⟩
    · exact hlt 5 5 (by omega) (by omega) (by omega) ⟨h.2, h.1⟩

theorem bits_of_1_below_bits_of_6 :
    ∀ i j, i < 6 → j < 6 → 1 &&& 2 ^ i ≠ 0 → 6 &&& 2 ^ j ≠ 0 → i < j := by
  intro i j hi hj h1 h2
  interval_cases i <;> interval_cases j <;>
    first
    | omega
    | exact absurd (by decide) h1
    | exact absurd (by decide) h2

theorem bits_of_2_below_bits_of_4 :
    ∀ i j, i < 6 → j < 6 → 2 &&& 2 ^ i ≠ 0 → 4 &&& 2 ^ j ≠ 0 → i < j := by
  intro i j hi hj h1 h2
  interval_cases i <;> interval_cases j <;>
    first
    | omega
    | exact absurd (by decide) h1
    | exact absurd (by decide) h2

theorem doOptimize_of_pipeline_error (env : Env) (g : Globals) (flag : Nat) (p : Plan)
    (ctx : Context) (a : idAllocator) (q : Plan) (e : Err) (a1 : idAllocator)
    (hpipe : (logicalOptimize env flag p ctx a).result = some ((q, some e), a1)) :
    doOptimize env g flag p ctx a =
      ⟨(logicalOptimize env flag p ctx a).calls,
        some ((Plan.nil, some (Err.traced e)), a1)⟩ := by
  simp [doOptimize, hpipe, errors.Trace]

theorem doOptimize_of_guard_passed (env : Env) (g : Globals) (flag : Nat) (p : Plan)
    (ctx : Context) (a : idAllocator) (q : Plan) (a1 : idAllocator)
    (hpipe : (logicalOptimize env flag p ctx a).result = some ((q, none), a1))
    (hguard : (cartesianGuard g q).result = some false) (hq : q.isNil = false) :
    doOptimize env g flag p ctx a =
      ⟨(logicalOptimize env flag p ctx a).calls ++ (cartesianGuard g q).calls ++
          [Call.ResolveIndicesAndCorCols q] ++
          (physicalOptimize env flag (env.ResolveIndicesAndCorCols q) a1).calls,
        (physicalOptimize env flag (env.ResolveIndicesAndCorCols q) a1).result⟩ := by
  simp [doOptimize, hpipe, hguard, hq]

theorem existsCartesianProduct_some_not_nil (q : Plan) (b : Bool)
    (h : existsCartesianProduct q = some b) : q.isNil = false := by
  cases q with
  | nil => simp [existsCartesianProduct] at h
  | Join _ _ _ => rfl
  | logical _ _ => rfl
  | nonLogical _ _ => rfl

theorem Optimize_error_origin (env : Env) (g : Globals) (ctx : Context) (node : Node)
    (is : InfoSchema) (q : Plan) (e : Err)
    (h : (Optimize env g ctx node is).result = some (q, some e)) :
    (∃ e0, (inferred env ctx node).2 = some e0 ∧ e = Err.traced e0) ∨
    (∃ e0, (built env ctx node is).2.err = some e0 ∧ e = Err.traced e0) ∨
    (∃ rule q0 a0 e0, (env.optimize rule q0 ctx a0).1.2 = some e0 ∧
        e = Err.traced (Err.traced e0)) ∨
    (e = Err.traced ErrCartesianProductUnsupported ∧ g.AllowCartesianProduct = false ∧
        ∃ q0, Call.existsCartesianProduct q0 ∈ (Optimize env g ctx node is).calls ∧
          existsCartesianProduct q0 = some true) ∨
    (∃ q0 prop e0, (env.convert2PhysicalPlan q0 prop).2 = some e0 ∧ e = Err.traced e0) := by
  cases hi : (inferred env ctx node).2 with
  | some e1 =>
    rw [Optimize_of_infer_error env g ctx node is e1 hi] at h
    simp only [Option.some.injEq, Prod.mk.injEq] at h
    exact Or.inl ⟨e1, rfl, h.2.symm⟩
  | none =>
    cases hb : (built env ctx node is).2.err with
    | some e1 =>
      rw [Optimize_of_build_error env g ctx node is e1 hi hb] at h
      simp only [Option.some.injEq, Prod.mk.injEq] at h
      exact Or.inr (Or.inl ⟨e1, rfl, h.2.symm⟩)
    | none =>
      cases hl : (built env ctx node is).1.isLogical with
      | false =>
        rw [Optimize_of_built_non_logical env g ctx node is hi hb hl] at h
        simp at h
      | true =>
        have hrun := Optimize_of_built env g ctx node is hi hb hl
        rw [hrun] at h ⊢
        simp only at h ⊢
        cases hd : (doOptimize env g (built env ctx node is).2.optFlag
            (built env ctx node is).1 ctx (built env ctx node is).2.allocator).result with
        | none => simp [hd] at h
        | some v =>
          obtain ⟨⟨q1, err⟩, a2⟩ := v
          simp only [hd, Option.map_some', Option.some.injEq, Prod.mk.injEq] at h
          obtain ⟨hq, he⟩ := h
          subst hq he
          rcases doOptimize_error_origin env g _ _ ctx _ q1 e a2 hd with
            ⟨rule, q0, a0, e0, _, hfail, he⟩ | ⟨he, hoff, q0, hmem, hcart⟩ |
            ⟨q0, prop, e0, _, hfail, he⟩
          · exact Or.inr (Or.inr (Or.inl ⟨rule, q0, a0, e0, hfail, he⟩))
          · exact Or.inr (Or.inr (Or.inr (Or.inl
              ⟨he, hoff, q0, List.mem_append_right _ hmem, hcart⟩)))
          · exact Or.inr (Or.inr (Or.inr (Or.inr ⟨q0, prop, e0, hfail, he⟩)))

/-! ## The search for a cartesian product -/

theorem existsCartesianProductChildren_cons_join (jt : JoinType) (eqs : List Nat)
    (cs rest : List Plan) :
    existsCartesianProductChildren (Plan.Join jt eqs cs :: rest) =
      match existsCartesianProduct (Plan.Join jt eqs cs) with
      | none => none
      | some true => some true
      | some false => existsCartesianProductChildren rest := by
  rw [existsCartesianProductChildren]
  · intro h; cases h
  · intro _ _ h; cases h

theorem existsCartesianProductChildren_cons_logical (tag : Nat) (cs rest : List Plan) :
    existsCartesianProductChildren (Plan.logical tag cs :: rest) =
      match existsCartesianProduct (Plan.logical tag cs) with
      | none => none
      | some true => some true
      | some false => existsCartesianProductChildren rest := by
  rw [existsCartesianProductChildren]
  · intro h; cases h
  · intro _ _ h; cases h

theorem existsCartesianProductChildren_cons_of_logical (c : Plan) (rest : List Plan)
    (hc : c.isLogical = true) :
    existsCartesianProductChildren (c :: rest) =
      match existsCartesianProduct c with
      | none => none
      | some true => some true
      | some false => existsCartesianProductChildren rest := by
  cases c with
  | nil => simp [Plan.isLogical] at hc
  | nonLogical _ _ => simp [Plan.isLogical] at hc
  | Join jt eqs cs => exact existsCartesianProductChildren_cons_join jt eqs cs rest
  | logical tag cs => exact existsCartesianProductChildren_cons_logical tag cs rest

theorem existsCartesianProductChildren_cons_of_not_logical (c : Plan) (rest : List Plan)
    (hc : c.isLogical = false) : existsCartesianProductChildren (c :: rest) = none := by
  cases c with
  | nil => rw [existsCartesianProductChildren]
  | nonLogical _ _ => rw [existsCartesianProductChildren]
  | Join _ _ _ => simp [Plan.isLogical] at hc
  | logical _ _ => simp [Plan.isLogical] at hc

theorem isLogical_of_isLogicalTree (p : Plan) (h : p.isLogicalTree = true) :
    p.isLogical = true := by
  cases p with
  | nil => simp [Plan.isLogicalTree] at h
  | nonLogical _ _ => simp [Plan.isLogicalTree] at h
  | Join _ _ _ => rfl
  | logical _ _ => rfl

mutual
theorem existsCartesianProduct_returns :
    ∀ (p : Plan), p.isLogicalTree = true → ∃ b, existsCartesianProduct p = some b
  | .nil, h => by simp [Plan.isLogicalTree] at h
  | .nonLogical _ _, h => by simp [Plan.isLogicalTree] at h
  | .Join jt eqs cs, h => by
    rw [Plan.isLogicalTree] at h
    rw [existsCartesianProduct]
    split_ifs
    · exact ⟨_, rfl⟩
    · exact existsCartesianProductChildren_returns cs h
  | .logical _ cs, h => by
    rw [Plan.isLogicalTree] at h
    rw [existsCartesianProduct]
    exact existsCartesianProductChildren_returns cs h
theorem existsCartesianProductChildren_returns :
    ∀ (cs : List Plan), Plan.areLogicalTrees cs = true →
      ∃ b, existsCartesianProductChildren cs = some b
  | [], _ => ⟨false, by rw [existsCartesianProductChildren]⟩
  | c :: rest, h => by
    rw [Plan.areLogicalTrees, Bool.and_eq_true] at h
    obtain ⟨b, hb⟩ := existsCartesianProduct_returns c h.1
    obtain ⟨b1, hb1⟩ := existsCartesianProductChildren_returns rest h.2
    rw [existsCartesianProductChildren_cons_of_logical c rest
      (isLogical_of_isLogicalTree c h.1), hb]
    cases b with
    | true => exact ⟨true, rfl⟩
    | false => exact ⟨b1, hb1⟩
end

theorem existsCartesianProductChildrenCost_cons_of_logical (c : Plan) (rest : List Plan)
    (hc : c.isLogical = true) :
    existsCartesianProductChildrenCost (c :: rest) =
      match (existsCartesianProductCost c).value with
      | none => ⟨none, (existsCartesianProductCost c).calls,
          (existsCartesianProductCost c).depth⟩
      | some true => ⟨some true, (existsCartesianProductCost c).calls,
          (existsCartesianProductCost c).depth⟩
      | some false =>
        ⟨(existsCartesianProductChildrenCost rest).value,
          (existsCartesianProductCost c).calls +
            (existsCartesianProductChildrenCost rest).calls,
          max (existsCartesianProductCost c).depth
            (existsCartesianProductChildrenCost rest).depth⟩ := by
  cases c with
  | nil => simp [Plan.isLogical] at hc
  | nonLogical _ _ => simp [Plan.isLogical] at hc
  | Join jt eqs cs =>
    rw [existsCartesianProductChildrenCost]
    · intro h; cases h
    · intro _ _ h; cases h
  | logical tag cs =>
    rw [existsCartesianProductChildrenCost]
    · intro h; cases h
    · intro _ _ h; cases h

theorem existsCartesianProductChildrenCost_cons_of_not_logical (c : Plan) (rest : List Plan)
    (hc : c.isLogical = false) :
    existsCartesianProductChildrenCost (c :: rest) = ⟨none, 0, 0⟩ := by
  cases c with
  | nil => rw [existsCartesianProductChildrenCost]
  | nonLogical _ _ => rw [existsCartesianProductChildrenCost]
  | Join _ _ _ => simp [Plan.isLogical] at hc
  | logical _ _ => simp [Plan.isLogical] at hc

mutual
theorem existsCartesianProductCost_value :
    ∀ (p : Plan), (existsCartesianProductCost p).value = existsCartesianProduct p
  | .nil => by rw [existsCartesianProductCost, existsCartesianProduct]
  | .Join jt eqs cs => by
    rw [existsCartesianProductCost, existsCartesianProduct]
    split_ifs
    · rfl
    · exact existsCartesianProductChildrenCost_value cs
  | .logical _ cs => by
    rw [existsCartesianProductCost, existsCartesianProduct]
    exact existsCartesianProductChildrenCost_value cs
  | .nonLogical _ cs => by
    rw [existsCartesianProductCost, existsCartesianProduct]
    exact existsCartesianProductChildrenCost_value cs
theorem existsCartesianProductChildrenCost_value :
    ∀ (cs : List Plan),
      (existsCartesianProductChildrenCost cs).value = existsCartesianProductChildren cs
  | [] => by rw [existsCartesianProductChildrenCost, existsCartesianProductChildren]
  | c :: rest => by
    cases hc : c.isLogical with
    | false =>
      rw [existsCartesianProductChildrenCost_cons_of_not_logical c rest hc,
        existsCartesianProductChildren_cons_of_not_logical c rest hc]
    | true =>
      rw [existsCartesianProductChildrenCost_cons_of_logical c rest hc,
        existsCartesianProductChildren_cons_of_logical c rest hc,
        ← existsCartesianProductCost_value c]
      cases hv : (existsCartesianProductCost c).value with
      | none => rfl
      | some b =>
        cases b with
        | true => rfl
        | false => exact existsCartesianProductChildrenCost_value rest
end

mutual
theorem existsCartesianProductCost_bounds :
    ∀ (p : Plan), p.isLogicalTree = true →
      1 ≤ (existsCartesianProductCost p).calls ∧
      (existsCartesianProductCost p).calls ≤ p.nodes.length ∧
      1 ≤ (existsCartesianProductCost p).depth ∧
      (existsCartesianProductCost p).depth ≤ p.height
  | .nil, h => by simp [Plan.isLogicalTree] at h
  | .nonLogical _ _, h => by simp [Plan.isLogicalTree] at h
  | .Join jt eqs cs, h => by
    rw [Plan.isLogicalTree] at h
    have hcs := existsCartesianProductChildrenCost_bounds cs h
    rw [existsCartesianProductCost, Plan.nodes, Plan.height, List.length_cons]
    split_ifs
    · simp only
      omega
    · simp only
      omega
  | .logical _ cs, h => by
    rw [Plan.isLogicalTree] at h
    have hcs := existsCartesianProductChildrenCost_bounds cs h
    rw [existsCartesianProductCost, Plan.nodes, Plan.height, List.length_cons]
    simp only
    omega
theorem existsCartesianProductChildrenCost_bounds :
    ∀ (cs : List Plan), Plan.areLogicalTrees cs = true →
      (existsCartesianProductChildrenCost cs).calls ≤ (Plan.nodesOfList cs).length ∧
      (existsCartesianProductChildrenCost cs).depth ≤ Plan.heightOfList cs
  | [], _ => by
    rw [existsCartesianProductChildrenCost]
    exact ⟨Nat.zero_le _, Nat.zero_le _⟩
  | c :: rest, h => by
    rw [Plan.areLogicalTrees, Bool.and_eq_true] at h
    have hc := existsCartesianProductCost_bounds c h.1
    have hrest := existsCartesianProductChildrenCost_bounds rest h.2
    rw [existsCartesianProductChildrenCost_cons_of_logical c rest
      (isLogical_of_isLogicalTree c h.1), Plan.nodesOfList, Plan.heightOfList,
      List.length_append]
    cases hv : (existsCartesianProductCost c).value with
    | none =>
      simp only
      omega
    | some b =>
      cases b with
      | true =>
        simp only
        omega
      | false =>
        simp only
        omega
end

theorem existsCartesianProductChildren_skips_false (tail : List Plan) :
    ∀ (pre : List Plan),
      (∀ c ∈ pre, c.isLogical = true ∧ existsCartesianProduct c = some false) →
        existsCartesianProductChildren (pre ++ tail) = existsCartesianProductChildren tail := by
  intro pre
  induction pre with
  | nil => intro _; rfl
  | cons c cs ih =>
    intro h
    have hc := h c (List.mem_cons_self c cs)
    rw [List.cons_append, existsCartesianProductChildren_cons_of_logical c (cs ++ tail) hc.1,
      hc.2]
    exact ih (fun d hd => h d (List.mem_cons_of_mem c hd))

/-! ## The allocator -/

theorem physicalOptimize_addCachePlan_allocator (env : Env) (flag : Nat) (logic : Plan)
    (a : idAllocator) (pp : Plan) (al : idAllocator)
    (h : Call.addCachePlan pp al ∈ (physicalOptimize env flag logic a).calls) : al = a := by
  unfold physicalOptimize at h
  by_cases hn : logic.isNil = true
  · simp [hn] at h
  · simp only [hn, Bool.false_eq_true, if_false] at h
    cases hcv : (env.convert2PhysicalPlan logic {}).2 with
    | some e0 => simp [hcv] at h
    | none =>
      simp only [hcv] at h
      cases hi : (env.convert2PhysicalPlan logic {}).1 with
      | none => simp [hi] at h
      | some info =>
        simp only [hi] at h
        split_ifs at h
        · simp at h
          exact h.2
        · simp at h

theorem doOptimize_calls_split (env : Env) (g : Globals) (flag : Nat) (p : Plan)
    (ctx : Context) (a : idAllocator) :
    ∃ rest, (doOptimize env g flag p ctx a).calls =
        (logicalOptimize env flag p ctx a).calls ++ rest ∧
      (∀ c ∈ rest, c.callee ≠ Callee.optimize) ∧
      (∀ pp al, Call.addCachePlan pp al ∈ rest →
        ∃ q, (logicalOptimize env flag p ctx a).result = some ((q, none), al)) := by
  unfold doOptimize
  cases hr : (logicalOptimize env flag p ctx a).result with
  | none =>
    simp only [hr]
    exact ⟨[], by simp, by simp, by simp⟩
  | some v =>
    obtain ⟨⟨q, err⟩, a1⟩ := v
    cases err with
    | some e =>
      simp only [hr]
      exact ⟨[], by simp, by simp, by simp⟩
    | none =>
      simp only [hr]
      have hguard : ∀ c ∈ (cartesianGuard g q).calls, c.callee ≠ Callee.optimize := by
        intro c hc
        rw [cartesianGuard_calls_callee g q c hc]; decide
      have hguard2 : ∀ pp al, Call.addCachePlan pp al ∉ (cartesianGuard g q).calls := by
        intro pp al hc
        have := cartesianGuard_calls_callee g q _ hc
        simp [Call.callee] at this
      cases hg : (cartesianGuard g q).result with
      | none =>
        exact ⟨(cartesianGuard g q).calls, rfl, hguard,
          fun pp al hc => absurd hc (hguard2 pp al)⟩
      | some b =>
        cases b with
        | true =>
          exact ⟨(cartesianGuard g q).calls, rfl, hguard,
            fun pp al hc => absurd hc (hguard2 pp al)⟩
        | false =>
          by_cases hn : q.isNil = true
          · simp only [hn, if_true]
            exact ⟨(cartesianGuard g q).calls, rfl, hguard,
              fun pp al hc => absurd hc (hguard2 pp al)⟩
          · simp only [hn, Bool.false_eq_true, if_false]
            refine ⟨(cartesianGuard g q).calls ++ [Call.ResolveIndicesAndCorCols q] ++
              (physicalOptimize env flag (env.ResolveIndicesAndCorCols q) a1).calls,
              by simp [List.append_assoc], ?_, ?_⟩
            · intro c hc
              simp only [List.mem_append, List.mem_singleton] at hc
              rcases hc with (hc | hc) | hc
              · exact hguard c hc
              · subst hc; simp [Call.callee]
              · rcases physicalOptimize_calls_callee env flag _ a1 c hc with h | h | h <;>
                  rw [h] <;> decide
            · intro pp al hc
              simp only [List.mem_append, List.mem_singleton] at hc
              rcases hc with (hc | hc) | hc
              · exact absurd hc (hguard2 pp al)
              · cases hc
              · rw [physicalOptimize_addCachePlan_allocator env flag _ a1 pp al hc]
                exact ⟨q, rfl⟩

theorem doOptimize_calls_callee (env : Env) (g : Globals) (flag : Nat) (p : Plan)
    (ctx : Context) (a : idAllocator) :
    ∀ c ∈ (doOptimize env g flag p ctx a).calls,
      c.callee = Callee.optimize ∨ c.callee = Callee.existsCartesianProduct ∨
      c.callee = Callee.ResolveIndicesAndCorCols ∨ c.callee = Callee.convert2PhysicalPlan ∨
      c.callee = Callee.EliminateProjection ∨ c.callee = Callee.addCachePlan := by
  intro c hc
  obtain ⟨rest, hcalls, _, _⟩ := doOptimize_calls_split env g flag p ctx a
  by_cases hlog : c ∈ (logicalOptimize env flag p ctx a).calls
  · exact Or.inl (logicalOptimize_calls_callee env flag p ctx a c hlog)
  · unfold doOptimize at hc
    cases hr : (logicalOptimize env flag p ctx a).result with
    | none => simp only [hr] at hc; exact absurd hc hlog
    | some v =>
      obtain ⟨⟨q, err⟩, a1⟩ := v
      cases err with
      | some e => simp only [hr] at hc; exact absurd hc hlog
      | none =>
        simp only [hr] at hc
        have hguard := cartesianGuard_calls_callee g q
        cases hg : (cartesianGuard g q).result with
        | none =>
          simp only [hg, List.mem_append] at hc
          rcases hc with hc | hc
          · exact absurd hc hlog
          · exact Or.inr (Or.inl (hguard c hc))
        | some b =>
          cases b with
          | true =>
            simp only [hg, List.mem_append] at hc
            rcases hc with hc | hc
            · exact absurd hc hlog
            · exact Or.inr (Or.inl (hguard c hc))
          | false =>
            simp only [hg] at hc
            split_ifs at hc
            · simp only [List.mem_append] at hc
              rcases hc with hc | hc
              · exact absurd hc hlog
              · exact Or.inr (Or.inl (hguard c hc))
            · simp only [List.mem_append, List.mem_singleton] at hc
              rcases hc with ((hc | hc) | hc) | hc
              · exact absurd hc hlog
              · exact Or.inr (Or.inl (hguard c hc))
              · subst hc; exact Or.inr (Or.inr (Or.inl rfl))
              · rcases physicalOptimize_calls_callee env flag _ a1 c hc with h | h | h
                · exact Or.inr (Or.inr (Or.inr (Or.inl h)))
                · exact Or.inr (Or.inr (Or.inr (Or.inr (Or.inl h))))
                · exact Or.inr (Or.inr (Or.inr (Or.inr (Or.inr h))))

theorem Optimize_build_calls (env : Env) (g : Globals) (ctx : Context) (node : Node)
    (is : InfoSchema) (b : planBuilder) (n : Node)
    (h : Call.build b n ∈ (Optimize env g ctx node is).calls) : b = newBuilder ctx is := by
  cases hi : (inferred env ctx node).2 with
  | some e =>
    rw [Optimize_of_infer_error env g ctx node is e hi] at h
    simp at h
  | none =>
    cases hb : (built env ctx node is).2.err with
    | some e =>
      rw [Optimize_of_build_error env g ctx node is e hi hb] at h
      simp at h
      exact h.1
    | none =>
      cases hl : (built env ctx node is).1.isLogical with
      | false =>
        rw [Optimize_of_built_non_logical env g ctx node is hi hb hl] at h
        simp at h
        exact h.1
      | true =>
        rw [Optimize_of_built env g ctx node is hi hb hl] at h
        simp only [List.mem_append, List.mem_cons, List.mem_singleton, List.not_mem_nil,
          or_false] at h
        rcases h with (h | h) | h
        · cases h
        · cases h; rfl
        · have := doOptimize_calls_callee env g _ _ ctx _ _ h
          simp [Call.callee] at this

/-! ## Query results -/

theorem filter_isEmpty_eq_any {α : Type} (f : α → Bool) (l : List α) :
    (!(l.filter f).isEmpty) = l.any f := by
  induction l with
  | nil => rfl
  | cons x xs ih =>
    cases hx : f x <;> simp [List.filter, hx, ih]

theorem any_compare_null (op : CmpOp) (ic : Nat) (inner : List Row) :
    inner.any (fun k => compareValues op (k.col ic) none == some true) = false := by
  induction inner with
  | nil => rfl
  | cons k ks ih =>
    have hk : compareValues op (k.col ic) none = none := by
      unfold compareValues
      cases k.col ic <;> rfl
    simp only [List.any_cons, hk, ih]
    rfl

theorem contains_keys_eq_any (ic : Nat) (v : Int) (inner : List Row) :
    (inner.filterMap (fun k => k.col ic)).contains v =
      inner.any (fun k => compareValues CmpOp.eq (k.col ic) (some v) == some true) := by
  induction inner with
  | nil => rfl
  | cons k ks ih =>
    cases hk : k.col ic with
    | none =>
      simp only [List.filterMap_cons, hk, List.any_cons, compareValues, ih]
      rfl
    | some x =>
      have hhead : (v == x) = (compareValues CmpOp.eq (some x) (some v) == some true) := by
        by_cases hxv : x = v
        · subst hxv; simp [compareValues]
        · have hvx : ¬ v = x := fun h => hxv h.symm
          simp [compareValues, hxv, hvx]
      rw [List.filterMap_cons]
      simp only [hk]
      rw [List.contains_cons, List.any_cons, ih, hk, hhead]

theorem filter_key_eq_singleton (t : List KeyedRow) (hkey : (t.map (fun r => r.id)).Nodup) :
    ∀ r ∈ t, t.filter (fun s => decide (s.id = r.id)) = [r] := by
  induction t with
  | nil => intro r hr; cases hr
  | cons x xs ih =>
    intro r hr
    rw [List.map_cons, List.nodup_cons] at hkey
    obtain ⟨hx, hxs⟩ := hkey
    rcases List.mem_cons.mp hr with hrx | hrxs
    · subst hrx
      have hnone : xs.filter (fun s => decide (s.id = r.id)) = [] := by
        rw [List.filter_eq_nil_iff]
        intro s hs hsid
        exact hx (List.mem_map.mpr ⟨s, hs, by simpa using hsid⟩)
      simp [List.filter, hnone]
    · have hne : ¬ x.id = r.id := by
        intro h
        exact hx (List.mem_map.mpr ⟨r, hrxs, h.symm⟩)
      simp [List.filter, hne, ih hxs r hrxs]

theorem aggSum_singleton (v : Value) : aggSum [v] = v := by
  cases v <;> simp [aggSum]

theorem aggCount_singleton (v : Value) : aggCount [v] = if v.isSome then 1 else 0 := by
  cases v <;> simp [aggCount]

/-! ## Theorems -/

/-- Claim C1: when the rule pipeline succeeds with plan `q`, the switch
`AllowCartesianProduct` is off and `existsCartesianProduct q` is true,
`doOptimize` returns a nil plan and an error whose cause is
`ErrCartesianProductUnsupported` (optimizer class, code `CodeUnsupported = 4`),
and calls neither `ResolveIndicesAndCorCols` nor `convert2PhysicalPlan`. -/
theorem doOptimize_rejects_cartesian_product (env : Env) (g : Globals) (flag : Nat)
    (p q : Plan) (ctx : Context) (a a1 : idAllocator)
    (hpipe : (logicalOptimize env flag p ctx a).result = some ((q, none), a1))
    (hoff : g.AllowCartesianProduct = false)
    (hcart : existsCartesianProduct q = some true) :
    ∃ e : Err,
      (doOptimize env g flag p ctx a).result = some ((Plan.nil, some e), a1) ∧
      e.Cause = ErrCartesianProductUnsupported ∧
      ErrCartesianProductUnsupported =
        Err.terror ErrClass.ClassOptimizer CodeUnsupported "Cartesian product is unsupported" ∧
      CodeUnsupported = 4 ∧
      (∀ c ∈ (doOptimize env g flag p ctx a).calls,
        c.callee ≠ Callee.ResolveIndicesAndCorCols ∧ c.callee ≠ Callee.convert2PhysicalPlan) ∧
      (doOptimize env g flag p ctx a).calls =
        (logicalOptimize env flag p ctx a).calls ++ [Call.existsCartesianProduct q] := by
  have hrun : doOptimize env g flag p ctx a =
      ⟨(logicalOptimize env flag p ctx a).calls ++ [Call.existsCartesianProduct q],
        some ((Plan.nil, errors.Trace (some ErrCartesianProductUnsupported)), a1)⟩ := by
    simp [doOptimize, hpipe, cartesianGuard, hoff, hcart]
  refine ⟨Err.traced ErrCartesianProductUnsupported, ?_, ?_, rfl, rfl, ?_, ?_⟩
  · rw [hrun]; rfl
  · rfl
  · rw [hrun]
    intro c hc
    simp only [List.mem_append, List.mem_singleton] at hc
    rcases hc with hc | hc
    · rw [logicalOptimize_calls_callee env flag p ctx a c hc]
      exact ⟨by decide, by decide⟩
    · subst hc
      exact ⟨by simp [Call.callee], by simp [Call.callee]⟩
  · rw [hrun]

/-- Witness of C1: `select * from a, b` with the first two rules enabled and the
switch off. -/
theorem doOptimize_rejects_cartesian_product_witness :
    (logicalOptimize sampleEnv 3 sampleCartesian sampleCtx ⟨0⟩).result =
        some ((sampleCartesian, none), ⟨2⟩) ∧
      (⟨false⟩ : Globals).AllowCartesianProduct = false ∧
      existsCartesianProduct sampleCartesian = some true ∧
      ∃ e : Err,
        (doOptimize sampleEnv ⟨false⟩ 3 sampleCartesian sampleCtx ⟨0⟩).result =
          some ((Plan.nil, some e), ⟨2⟩) ∧
        e.Cause = ErrCartesianProductUnsupported ∧
        ErrCartesianProductUnsupported =
          Err.terror ErrClass.ClassOptimizer CodeUnsupported
            "Cartesian product is unsupported" ∧
        CodeUnsupported = 4 ∧
        (∀ c ∈ (doOptimize sampleEnv ⟨false⟩ 3 sampleCartesian sampleCtx ⟨0⟩).calls,
          c.callee ≠ Callee.ResolveIndicesAndCorCols ∧
            c.callee ≠ Callee.convert2PhysicalPlan) ∧
        (doOptimize sampleEnv ⟨false⟩ 3 sampleCartesian sampleCtx ⟨0⟩).calls =
          (logicalOptimize sampleEnv 3 sampleCartesian sampleCtx ⟨0⟩).calls ++
            [Call.existsCartesianProduct sampleCartesian] :=
  ⟨rfl, rfl, rfl,
    doOptimize_rejects_cartesian_product sampleEnv ⟨false⟩ 3 sampleCartesian sampleCartesian
      sampleCtx ⟨0⟩ ⟨2⟩ rfl rfl rfl⟩

/-- Claim C2, evaluated where it fails: on the logical plan tree
`sampleSemiOverCartesian` (a semi join with no equality condition over an
inner join with no equality condition) `existsCartesianProduct` returns
false, although a node of the tree is an inner join with no equality
condition. -/
theorem existsCartesianProduct_misses_join_below_semi_join :
    sampleSemiOverCartesian.isLogicalTree = true ∧
      existsCartesianProduct sampleSemiOverCartesian = some false ∧
      sampleCartesian ∈ sampleSemiOverCartesian.nodes ∧
      sampleCartesian.isCartesianJoin = true ∧
      ¬ (existsCartesianProduct sampleSemiOverCartesian = some true ↔
          ∃ n ∈ sampleSemiOverCartesian.nodes, n.isCartesianJoin = true) := by
  have hmem : sampleCartesian ∈ sampleSemiOverCartesian.nodes := by
    simp [sampleSemiOverCartesian, sampleCartesian, Plan.nodes, Plan.nodesOfList]
  refine ⟨rfl, rfl, hmem, rfl, ?_⟩
  intro h
  have := h.mpr ⟨sampleCartesian, hmem, rfl⟩
  exact absurd this (by decide)

/-- Claim C3: `AllowCartesianProduct` is initially true, and whenever it is true
`doOptimize` skips the guard: its run is the rule pipeline followed by index
resolution and physical conversion, `existsCartesianProduct` is not called,
and, as long as no rule and no conversion returns an error caused by
`ErrCartesianProductUnsupported`, neither does `doOptimize`. -/
theorem doOptimize_allows_cartesian_product_when_switch_on :
    Globals.initial.AllowCartesianProduct = true ∧
    ∀ (env : Env) (g : Globals) (flag : Nat) (p : Plan) (ctx : Context) (a : idAllocator),
      g.AllowCartesianProduct = true →
        doOptimize env g flag p ctx a = pipelineThenPhysical env flag p ctx a ∧
        (∀ c ∈ (doOptimize env g flag p ctx a).calls,
          c.callee ≠ Callee.existsCartesianProduct) ∧
        ((∀ rule q al e, (env.optimize rule q ctx al).1.2 = some e →
            e.Cause ≠ ErrCartesianProductUnsupported) →
          (∀ q prop e, (env.convert2PhysicalPlan q prop).2 = some e →
            e.Cause ≠ ErrCartesianProductUnsupported) →
          ∀ q e a1, (doOptimize env g flag p ctx a).result = some ((q, some e), a1) →
            e.Cause ≠ ErrCartesianProductUnsupported) := by
  refine ⟨rfl, ?_⟩
  intro env g flag p ctx a hon
  have heq := doOptimize_eq_pipelineThenPhysical env g flag p ctx a hon
  refine ⟨heq, ?_, ?_⟩
  · rw [heq]; exact pipelineThenPhysical_calls_callee env flag p ctx a
  · intro hrule hconv q e a1 h
    rw [heq] at h
    rcases pipelineThenPhysical_error env flag p ctx a q e a1 h with
      ⟨rule, q0, a0, e0, hfail, he⟩ | ⟨q0, e0, hfail, he⟩
    · subst he; exact hrule rule q0 a0 e0 hfail
    · subst he; exact hconv q0 _ e0 hfail

/-- Witness of C3: with the initial value of the switch, the left outer join
of `select * from t t1 left join (select 1) t2 on 1`, which has no equality
condition, is optimized to a physical plan; and a run that fails in the
predicate push-down fails with that rule's error. -/
theorem doOptimize_allows_cartesian_product_when_switch_on_witness :
    Globals.initial.AllowCartesianProduct = true ∧
    doOptimize sampleEnv Globals.initial 3 sampleLeftJoin sampleCtx ⟨0⟩ =
      pipelineThenPhysical sampleEnv 3 sampleLeftJoin sampleCtx ⟨0⟩ ∧
    (doOptimize sampleEnv Globals.initial 3 sampleLeftJoin sampleCtx ⟨0⟩).result =
      some ((Plan.nonLogical 100 [sampleLeftJoin], none), ⟨3⟩) ∧
    (doOptimize sampleEnv Globals.initial 3 (Plan.logical 7 []) sampleCtx ⟨0⟩).result =
      some ((Plan.nil, some (Err.traced (Err.traced ErrIllegalReference))), ⟨1⟩) ∧
    (Err.traced (Err.traced ErrIllegalReference)).Cause ≠ ErrCartesianProductUnsupported :=
  ⟨rfl,
    (doOptimize_allows_cartesian_product_when_switch_on.2 sampleEnv Globals.initial 3
      sampleLeftJoin sampleCtx ⟨0⟩ rfl).1,
    rfl, rfl,
    (doOptimize_allows_cartesian_product_when_switch_on.2 sampleEnv Globals.initial 3
      (Plan.logical 7 []) sampleCtx ⟨0⟩ rfl).2.2
      (fun rule q al e h => by
        rw [sampleEnv_optimize_error rule q sampleCtx al e h]; decide)
      (fun q prop e h => by
        rw [sampleEnv_convert_error q prop e h]; decide)
      Plan.nil (Err.traced (Err.traced ErrIllegalReference)) ⟨1⟩ rfl⟩

/-- Claim C4: when none of the rules enabled in `flag` fails, `logicalOptimize`
returns `(q, nil)`, where `q` is the result of applying the enabled rules in
the order decorrelation, predicate push-down, column pruning, key-info
construction, aggregation pruning, aggregation push-down, each exactly once
and each to the output of the one applied before it, the first to `p`. -/
theorem logicalOptimize_applies_enabled_rules_in_order (env : Env) (flag : Nat) (p : Plan)
    (ctx : Context) (a : idAllocator)
    (hok : noRuleFails env ctx (enabledRules flag) (p, a) = true) :
    logicalOptimize env flag p ctx a =
      ⟨applyRulesCalls env ctx (enabledRules flag) (p, a),
        some (((applyRules env ctx (enabledRules flag) (p, a)).1, none),
          (applyRules env ctx (enabledRules flag) (p, a)).2)⟩ ∧
    pipelineOrder.map Prod.snd = optRuleList ∧
    (enabledRules flag).Sublist optRuleList ∧
    ∀ rule, rule ∈ enabledRules flag ↔
      ∃ bit, (bit, rule) ∈ pipelineOrder ∧ flag &&& bit ≠ 0 := by
  refine ⟨?_, rfl, ?_, ?_⟩
  · rw [logicalOptimize_eq_runRules]
    exact runRules_of_noRuleFails env ctx (enabledRules flag) (p, a) hok
  · have h1 : (enabledRules flag).Sublist (pipelineOrder.map Prod.snd) :=
      List.Sublist.map Prod.snd (List.filter_sublist _)
    exact h1
  · intro rule
    simp only [enabledRules, selectRules, List.mem_map, List.mem_filter, decide_eq_true_eq]
    constructor
    · rintro ⟨⟨bit, r⟩, ⟨hmem, hbit⟩, hr⟩
      simp only at hr
      subst hr
      exact ⟨bit, hmem, hbit⟩
    · rintro ⟨bit, hmem, hbit⟩
      exact ⟨(bit, rule), ⟨hmem, hbit⟩, rfl⟩

/-- Witness of C4: with the first two rules enabled, decorrelation is applied to
the input and predicate push-down to the output of decorrelation. -/
theorem logicalOptimize_applies_enabled_rules_in_order_witness :
    noRuleFails sampleEnv sampleCtx (enabledRules 3) (sampleCartesian, ⟨0⟩) = true ∧
    enabledRules 3 = [logicalOptRule.decorrelateSolver, logicalOptRule.ppdSolver] ∧
    logicalOptimize sampleEnv 3 sampleCartesian sampleCtx ⟨0⟩ =
      ⟨[Call.optimize .decorrelateSolver sampleCartesian ⟨0⟩,
          Call.optimize .ppdSolver sampleCartesian ⟨1⟩],
        some ((sampleCartesian, none), ⟨2⟩)⟩ :=
  ⟨rfl, rfl,
    (logicalOptimize_applies_enabled_rules_in_order sampleEnv 3 sampleCartesian sampleCtx ⟨0⟩
      rfl).1⟩

/-- Claim C5, as stated, fails: in a run where the predicate push-down fails,
the column pruner (index 2, bit `flagPrunColumns = 4`) has its bit set in
`flag = 7` and is not applied. -/
theorem rule_with_bit_set_not_applied_after_failure :
    optRuleList[2]? = some logicalOptRule.columnPruner ∧
    flagPrunColumns = 2 ^ 2 ∧
    ¬ (logicalOptRule.columnPruner ∈
          (logicalOptimize sampleEnv 7 (Plan.logical 7 []) sampleCtx ⟨0⟩).calls.filterMap
            Call.rule ↔
        7 &&& flagPrunColumns ≠ 0) := by
  refine ⟨rfl, rfl, ?_⟩
  decide

/-- Claim C5, amended: the flag constants are 1, 2, 4, 8, 16, 32, `optRuleList`
has exactly the six rules in pipeline order, and the rule at index `i` is
applied by `logicalOptimize` if and only if the bit `2 ^ i` is set in `flag`
and none of the enabled rules before it fails. -/
theorem flag_bits_and_rules_correspond :
    flagDecorrelate = 1 ∧ flagPredicatePushDown = 2 ∧ flagPrunColumns = 4 ∧
    flagBuildKeyInfo = 8 ∧ flagEliminateAgg = 16 ∧ flagAggPushDown = 32 ∧
    optRuleList.length = 6 ∧
    optRuleList =
      [logicalOptRule.decorrelateSolver, logicalOptRule.ppdSolver, logicalOptRule.columnPruner,
        logicalOptRule.buildKeySolver, logicalOptRule.aggPruner,
        logicalOptRule.aggPushDownSolver] ∧
    ∀ (env : Env) (flag : Nat) (p : Plan) (ctx : Context) (a : idAllocator) (i : Nat)
      (rule : logicalOptRule), optRuleList[i]? = some rule →
        (rule ∈ (logicalOptimize env flag p ctx a).calls.filterMap Call.rule ↔
          flag &&& 2 ^ i ≠ 0 ∧ noRuleFails env ctx (enabledBefore flag i) (p, a) = true) := by
  refine ⟨rfl, rfl, rfl, rfl, rfl, rfl, rfl, rfl, ?_⟩
  intro env flag p ctx a i rule hget
  rw [logicalOptimize_eq_runRules]
  exact runRules_applied_iff env ctx flag pipelineOrder (by decide) i (2 ^ i, rule)
    (pipelineOrder_at_index i rule hget) p a

/-- Witness of C5 amended: the rule at index 1, predicate push-down, with
`flag = 3`. -/
theorem flag_bits_and_rules_correspond_witness :
    optRuleList[1]? = some logicalOptRule.ppdSolver ∧
    (logicalOptRule.ppdSolver ∈
        (logicalOptimize sampleEnv 3 sampleCartesian sampleCtx ⟨0⟩).calls.filterMap Call.rule ↔
      3 &&& 2 ^ 1 ≠ 0 ∧
        noRuleFails sampleEnv sampleCtx (enabledBefore 3 1) (sampleCartesian, ⟨0⟩) = true) :=
  ⟨rfl,
    flag_bits_and_rules_correspond.2.2.2.2.2.2.2.2 sampleEnv 3 sampleCartesian sampleCtx ⟨0⟩ 1
      logicalOptRule.ppdSolver rfl⟩

/-- Claim C6: `logicalOptimize` always returns; its error is non-nil exactly when
one of the rules it applies (enabled rules, in pipeline order, each on the
output of the one before) returns an error on the plan it is given; then the
plan returned is nil, the error is the error of that rule with the trace of
`errors.Trace`, every rule applied before it succeeded, and it is the last
rule applied. -/
theorem logicalOptimize_fails_iff_applied_rule_fails (env : Env) (flag : Nat) (p : Plan)
    (ctx : Context) (a : idAllocator) :
    ∃ q err a1,
      (logicalOptimize env flag p ctx a).result = some ((q, err), a1) ∧
      (logicalOptimize env flag p ctx a).calls.filterMap Call.rule <+: enabledRules flag ∧
      (logicalOptimize env flag p ctx a).calls =
        applyRulesCalls env ctx
          ((logicalOptimize env flag p ctx a).calls.filterMap Call.rule) (p, a) ∧
      (err ≠ none ↔
        ∃ c ∈ (logicalOptimize env flag p ctx a).calls, callFails env ctx c = true) ∧
      (err = none →
        (logicalOptimize env flag p ctx a).calls.filterMap Call.rule = enabledRules flag) ∧
      (∀ e, err = some e →
        q = Plan.nil ∧
        ∃ pre rule q0 a0 e0,
          (logicalOptimize env flag p ctx a).calls = pre ++ [Call.optimize rule q0 a0] ∧
          (∀ c ∈ pre, callFails env ctx c = false) ∧
          (env.optimize rule q0 ctx a0).1.2 = some e0 ∧
          e = Err.traced e0 ∧ e.Cause = e0.Cause) := by
  rw [logicalOptimize_eq_runRules]
  obtain ⟨q, err, a1, hres⟩ := runRules_returns env ctx (enabledRules flag) p a
  refine ⟨q, err, a1, hres, runRules_rules_isPrefix env ctx _ p a,
    runRules_calls_chain env ctx _ p a, ?_, ?_, ?_⟩
  · cases err with
    | none =>
      have hall := (runRules_success env ctx _ p a q a1 hres).1
      constructor
      · intro h; exact absurd rfl h
      · rintro ⟨c, hc, hf⟩
        rw [hall c hc] at hf; cases hf
    | some e =>
      obtain ⟨_, pre, rule, q0, a0, e0, hcalls, _, hfail, _, _⟩ :=
        runRules_error env ctx _ p a q e a1 hres
      constructor
      · intro _
        refine ⟨Call.optimize rule q0 a0, ?_, ?_⟩
        · rw [hcalls]; simp
        · simp [callFails, ruleFails, hfail]
      · intro _ h; cases h
  · intro herr
    subst herr
    exact (runRules_success env ctx _ p a q a1 hres).2
  · intro e herr
    subst herr
    obtain ⟨hq, pre, rule, q0, a0, e0, hcalls, hpre, hfail, he, _⟩ :=
      runRules_error env ctx _ p a q e a1 hres
    exact ⟨hq, pre, rule, q0, a0, e0, hcalls, hpre, hfail, he, by rw [he]; rfl⟩

/-- Witness of C6: with the first three rules enabled and a plan on which the
predicate push-down fails, the run returns a nil plan and that rule's error,
traced, after two rule applications. -/
theorem logicalOptimize_fails_iff_applied_rule_fails_witness :
    logicalOptimize sampleEnv 7 (Plan.logical 7 []) sampleCtx ⟨0⟩ =
      ⟨[Call.optimize .decorrelateSolver (Plan.logical 7 []) ⟨0⟩,
          Call.optimize .ppdSolver (Plan.logical 7 []) ⟨1⟩],
        some ((Plan.nil, some (Err.traced ErrIllegalReference)), ⟨1⟩)⟩ ∧
    ∃ q err a1,
      (logicalOptimize sampleEnv 7 (Plan.logical 7 []) sampleCtx ⟨0⟩).result =
        some ((q, err), a1) ∧
      (logicalOptimize sampleEnv 7 (Plan.logical 7 []) sampleCtx ⟨0⟩).calls.filterMap Call.rule
        <+: enabledRules 7 ∧
      (logicalOptimize sampleEnv 7 (Plan.logical 7 []) sampleCtx ⟨0⟩).calls =
        applyRulesCalls sampleEnv sampleCtx
          ((logicalOptimize sampleEnv 7 (Plan.logical 7 []) sampleCtx ⟨0⟩).calls.filterMap
            Call.rule) (Plan.logical 7 [], ⟨0⟩) ∧
      (err ≠ none ↔
        ∃ c ∈ (logicalOptimize sampleEnv 7 (Plan.logical 7 []) sampleCtx ⟨0⟩).calls,
          callFails sampleEnv sampleCtx c = true) ∧
      (err = none →
        (logicalOptimize sampleEnv 7 (Plan.logical 7 []) sampleCtx ⟨0⟩).calls.filterMap
          Call.rule = enabledRules 7) ∧
      (∀ e, err = some e →
        q = Plan.nil ∧
        ∃ pre rule q0 a0 e0,
          (logicalOptimize sampleEnv 7 (Plan.logical 7 []) sampleCtx ⟨0⟩).calls =
            pre ++ [Call.optimize rule q0 a0] ∧
          (∀ c ∈ pre, callFails sampleEnv sampleCtx c = false) ∧
          (sampleEnv.optimize rule q0 sampleCtx a0).1.2 = some e0 ∧
          e = Err.traced e0 ∧ e.Cause = e0.Cause) :=
  ⟨rfl,
    logicalOptimize_fails_iff_applied_rule_fails sampleEnv 7 (Plan.logical 7 []) sampleCtx ⟨0⟩⟩

/-- Claim C7: when type inference and the build succeed and the plan built is
not a `LogicalPlan`, `Optimize` returns that plan with a nil error, whatever
`AllowCartesianProduct` is; its only calls are type inference and the build:
no rule, no cartesian-product check, no index resolution, no physical
conversion. -/
theorem Optimize_returns_non_logical_plan_unchanged (env : Env) (g : Globals) (ctx : Context)
    (node : Node) (is : InfoSchema)
    (hinfer : (inferred env ctx node).2 = none)
    (hbuild : (built env ctx node is).2.err = none)
    (hplan : (built env ctx node is).1.isLogical = false) :
    Optimize env g ctx node is =
      ⟨[Call.InferType ctx.GetSessionVars.StmtCtx node,
          Call.build (newBuilder ctx is) (inferred env ctx node).1],
        some ((built env ctx node is).1, none)⟩ ∧
    ∀ c ∈ (Optimize env g ctx node is).calls,
      c.callee ≠ Callee.optimize ∧ c.callee ≠ Callee.existsCartesianProduct ∧
      c.callee ≠ Callee.ResolveIndicesAndCorCols ∧
      c.callee ≠ Callee.convert2PhysicalPlan := by
  have hrun : Optimize env g ctx node is =
      ⟨[Call.InferType ctx.GetSessionVars.StmtCtx node,
          Call.build (newBuilder ctx is) (inferred env ctx node).1],
        some ((built env ctx node is).1, none)⟩ := by
    simp only [built, inferred, newBuilder] at hinfer hbuild hplan ⊢
    simp [Optimize, hinfer, hbuild, hplan]
  refine ⟨hrun, ?_⟩
  rw [hrun]
  intro c hc
  simp only [List.mem_cons, List.mem_singleton, List.not_mem_nil, or_false] at hc
  rcases hc with hc | hc <;> subst hc <;> simp [Call.callee]

/-- Witness of C7: the statement with id 1, for which the sample builder yields
a plan that is not logical, with the switch off. -/
theorem Optimize_returns_non_logical_plan_unchanged_witness :
    (inferred sampleEnv sampleCtx ⟨1⟩).2 = none ∧
    (built sampleEnv sampleCtx ⟨1⟩ ⟨0⟩).2.err = none ∧
    (built sampleEnv sampleCtx ⟨1⟩ ⟨0⟩).1.isLogical = false ∧
    (built sampleEnv sampleCtx ⟨1⟩ ⟨0⟩).1 = Plan.nonLogical 50 [] ∧
    Optimize sampleEnv ⟨false⟩ sampleCtx ⟨1⟩ ⟨0⟩ =
      ⟨[Call.InferType sampleCtx.GetSessionVars.StmtCtx ⟨1⟩,
          Call.build (newBuilder sampleCtx ⟨0⟩) (inferred sampleEnv sampleCtx ⟨1⟩).1],
        some ((built sampleEnv sampleCtx ⟨1⟩ ⟨0⟩).1, none)⟩ :=
  ⟨rfl, rfl, rfl, rfl,
    (Optimize_returns_non_logical_plan_unchanged sampleEnv ⟨false⟩ sampleCtx ⟨1⟩ ⟨0⟩
      rfl rfl rfl).1⟩

/-- Claim C8: whenever `Optimize`, `doOptimize`, `logicalOptimize` or
`physicalOptimize` returns a non-nil error, the plan it returns is nil. -/
theorem nil_plan_with_every_error (env : Env) (g : Globals) (ctx : Context) (node : Node)
    (is : InfoSchema) (flag : Nat) (logic : Plan) (a : idAllocator) :
    (∀ q e, (Optimize env g ctx node is).result = some (q, some e) → q = Plan.nil) ∧
    (∀ q e a1, (doOptimize env g flag logic ctx a).result = some ((q, some e), a1) →
      q = Plan.nil) ∧
    (∀ q e a1, (logicalOptimize env flag logic ctx a).result = some ((q, some e), a1) →
      q = Plan.nil) ∧
    (∀ q e a1, (physicalOptimize env flag logic a).result = some ((q, some e), a1) →
      q = Plan.nil) := by
  refine ⟨?_, ?_, ?_, ?_⟩
  · intro q e h
    unfold Optimize at h
    cases hi : (env.InferType ctx.GetSessionVars.StmtCtx node).2 with
    | some e1 =>
      simp only [hi, Option.some.injEq, Prod.mk.injEq] at h
      exact h.1.symm
    | none =>
      simp only [hi] at h
      generalize env.build _ _ = b at h
      cases hb : b.2.err with
      | some e1 =>
        simp only [hb, Option.some.injEq, Prod.mk.injEq] at h
        exact h.1.symm
      | none =>
        simp only [hb] at h
        split_ifs at h
        · cases hd : (doOptimize env g b.2.optFlag b.1 ctx b.2.allocator).result with
          | none => simp [hd] at h
          | some v =>
            obtain ⟨⟨q1, err⟩, a2⟩ := v
            simp only [hd, Option.map_some', Option.some.injEq, Prod.mk.injEq] at h
            obtain ⟨hq, he⟩ := h
            subst hq he
            exact doOptimize_error_plan_nil env g _ _ ctx _ q1 e a2 hd
        · simp at h
  · intro q e a1 h
    exact doOptimize_error_plan_nil env g flag logic ctx a q e a1 h
  · intro q e a1 h
    rw [logicalOptimize_eq_runRules] at h
    exact (runRules_error env ctx _ logic a q e a1 h).1
  · intro q e a1 h
    exact (physicalOptimize_error env flag logic a q e a1 h).1

/-- Witness of C8: a failure in each step: type inference (statement 9), the
build (statement 2), a logical rule (statement 3), the cartesian-product
guard (statement 0, switch off) and physical conversion (statement 4). -/
theorem nil_plan_with_every_error_witness :
    (Optimize sampleEnv ⟨false⟩ sampleCtx ⟨9⟩ ⟨0⟩).result =
      some (Plan.nil, some (Err.traced (Err.foreign 1))) ∧
    (Optimize sampleEnv ⟨false⟩ sampleCtx ⟨2⟩ ⟨0⟩).result =
      some (Plan.nil, some (Err.traced ErrInvalidWildCard)) ∧
    (Optimize sampleEnv ⟨false⟩ sampleCtx ⟨3⟩ ⟨0⟩).result =
      some (Plan.nil, some (Err.traced (Err.traced ErrIllegalReference))) ∧
    (Optimize sampleEnv ⟨false⟩ sampleCtx ⟨0⟩ ⟨0⟩).result =
      some (Plan.nil, some (Err.traced ErrCartesianProductUnsupported)) ∧
    (Optimize sampleEnv ⟨false⟩ sampleCtx ⟨4⟩ ⟨0⟩).result =
      some (Plan.nil, some (Err.traced (Err.foreign 2))) ∧
    (doOptimize sampleEnv ⟨false⟩ 3 sampleCartesian sampleCtx ⟨0⟩).result =
      some ((Plan.nil, some (Err.traced ErrCartesianProductUnsupported)), ⟨2⟩) ∧
    (logicalOptimize sampleEnv 3 (Plan.logical 7 []) sampleCtx ⟨0⟩).result =
      some ((Plan.nil, some (Err.traced ErrIllegalReference)), ⟨1⟩) ∧
    (physicalOptimize sampleEnv 3 (Plan.logical 8 []) ⟨0⟩).result =
      some ((Plan.nil, some (Err.traced (Err.foreign 2))), ⟨0⟩) ∧
    (Plan.nil = Plan.nil ∧ Plan.nil = Plan.nil ∧ Plan.nil = Plan.nil ∧ Plan.nil = Plan.nil) :=
  ⟨rfl, rfl, rfl, rfl, rfl, rfl, rfl, rfl,
    (nil_plan_with_every_error sampleEnv ⟨false⟩ sampleCtx ⟨9⟩ ⟨0⟩ 3 sampleCartesian ⟨0⟩).1
      Plan.nil (Err.traced (Err.foreign 1)) rfl,
    (nil_plan_with_every_error sampleEnv ⟨false⟩ sampleCtx ⟨9⟩ ⟨0⟩ 3 sampleCartesian
      ⟨0⟩).2.1 Plan.nil (Err.traced ErrCartesianProductUnsupported) ⟨2⟩ rfl,
    (nil_plan_with_every_error sampleEnv ⟨false⟩ sampleCtx ⟨9⟩ ⟨0⟩ 3 (Plan.logical 7 [])
      ⟨0⟩).2.2.1 Plan.nil (Err.traced ErrIllegalReference) ⟨1⟩ rfl,
    (nil_plan_with_every_error sampleEnv ⟨false⟩ sampleCtx ⟨9⟩ ⟨0⟩ 3 (Plan.logical 8 [])
      ⟨0⟩).2.2.2 Plan.nil (Err.traced (Err.foreign 2)) ⟨0⟩ rfl⟩

/-- Claim C9: when the rule pipeline returns `(q, nil)` with `q` not nil and the
guard passes (the switch is on, or `existsCartesianProduct q` is false),
`doOptimize` runs, in this order, the rule pipeline, the guard on `q`,
`ResolveIndicesAndCorCols` on `q`, once, and `physicalOptimize` on `q` as
resolved in place, whose calls come last and whose result it returns. -/
theorem doOptimize_runs_steps_in_order (env : Env) (g : Globals) (flag : Nat) (p q : Plan)
    (ctx : Context) (a a1 : idAllocator)
    (hpipe : (logicalOptimize env flag p ctx a).result = some ((q, none), a1))
    (hguard : (cartesianGuard g q).result = some false)
    (hq : q.isNil = false) :
    (cartesianGuard g q).calls =
      (if g.AllowCartesianProduct then [] else [Call.existsCartesianProduct q]) ∧
    doOptimize env g flag p ctx a =
      ⟨(logicalOptimize env flag p ctx a).calls ++ (cartesianGuard g q).calls ++
          [Call.ResolveIndicesAndCorCols q] ++
          (physicalOptimize env flag (env.ResolveIndicesAndCorCols q) a1).calls,
        (physicalOptimize env flag (env.ResolveIndicesAndCorCols q) a1).result⟩ ∧
    timesCalled Callee.ResolveIndicesAndCorCols (doOptimize env g flag p ctx a).calls = 1 ∧
    (∀ c ∈ (logicalOptimize env flag p ctx a).calls ++ (cartesianGuard g q).calls,
      c.callee ≠ Callee.ResolveIndicesAndCorCols ∧ c.callee ≠ Callee.convert2PhysicalPlan) ∧
    (∀ c ∈ (physicalOptimize env flag (env.ResolveIndicesAndCorCols q) a1).calls,
      c.callee ≠ Callee.ResolveIndicesAndCorCols ∧ c.callee ≠ Callee.optimize ∧
      c.callee ≠ Callee.existsCartesianProduct) := by
  have hrun : doOptimize env g flag p ctx a =
      ⟨(logicalOptimize env flag p ctx a).calls ++ (cartesianGuard g q).calls ++
          [Call.ResolveIndicesAndCorCols q] ++
          (physicalOptimize env flag (env.ResolveIndicesAndCorCols q) a1).calls,
        (physicalOptimize env flag (env.ResolveIndicesAndCorCols q) a1).result⟩ := by
    simp [doOptimize, hpipe, hguard, hq]
  have hbefore : ∀ c ∈ (logicalOptimize env flag p ctx a).calls ++ (cartesianGuard g q).calls,
      c.callee ≠ Callee.ResolveIndicesAndCorCols ∧
        c.callee ≠ Callee.convert2PhysicalPlan := by
    intro c hc
    rcases List.mem_append.mp hc with hc | hc
    · rw [logicalOptimize_calls_callee env flag p ctx a c hc]
      exact ⟨by decide, by decide⟩
    · rw [cartesianGuard_calls_callee g q c hc]
      exact ⟨by decide, by decide⟩
  have hafter : ∀ c ∈ (physicalOptimize env flag (env.ResolveIndicesAndCorCols q) a1).calls,
      c.callee ≠ Callee.ResolveIndicesAndCorCols ∧ c.callee ≠ Callee.optimize ∧
        c.callee ≠ Callee.existsCartesianProduct := by
    intro c hc
    rcases physicalOptimize_calls_callee env flag _ a1 c hc with h | h | h <;>
      rw [h] <;> exact ⟨by decide, by decide, by decide⟩
  refine ⟨?_, hrun, ?_, hbefore, hafter⟩
  · unfold cartesianGuard
    split_ifs <;> rfl
  · rw [hrun]
    simp only [timesCalled_append]
    rw [← timesCalled_append,
      timesCalled_eq_zero _ _ (fun c hc => (hbefore c hc).1),
      timesCalled_eq_zero _ _ (fun c hc => (hafter c hc).1)]
    simp [timesCalled, Call.callee]

/-- Witness of C9: an inner join with an equality condition, the first two
rules enabled, the switch off. -/
theorem doOptimize_runs_steps_in_order_witness :
    (logicalOptimize sampleEnv 3 sampleEquiJoin sampleCtx ⟨0⟩).result =
      some ((sampleEquiJoin, none), ⟨2⟩) ∧
    (cartesianGuard ⟨false⟩ sampleEquiJoin).result = some false ∧
    sampleEquiJoin.isNil = false ∧
    doOptimize sampleEnv ⟨false⟩ 3 sampleEquiJoin sampleCtx ⟨0⟩ =
      ⟨[Call.optimize .decorrelateSolver sampleEquiJoin ⟨0⟩,
          Call.optimize .ppdSolver sampleEquiJoin ⟨1⟩,
          Call.existsCartesianProduct sampleEquiJoin,
          Call.ResolveIndicesAndCorCols sampleEquiJoin,
          Call.convert2PhysicalPlan sampleEquiJoin {},
          Call.EliminateProjection (Plan.nonLogical 100 [sampleEquiJoin]),
          Call.addCachePlan (Plan.nonLogical 100 [sampleEquiJoin]) ⟨2⟩],
        some ((Plan.nonLogical 100 [sampleEquiJoin], none), ⟨3⟩)⟩ ∧
    doOptimize sampleEnv ⟨false⟩ 3 sampleEquiJoin sampleCtx ⟨0⟩ =
      ⟨(logicalOptimize sampleEnv 3 sampleEquiJoin sampleCtx ⟨0⟩).calls ++
          (cartesianGuard ⟨false⟩ sampleEquiJoin).calls ++
          [Call.ResolveIndicesAndCorCols sampleEquiJoin] ++
          (physicalOptimize sampleEnv 3
            (sampleEnv.ResolveIndicesAndCorCols sampleEquiJoin) ⟨2⟩).calls,
        (physicalOptimize sampleEnv 3
          (sampleEnv.ResolveIndicesAndCorCols sampleEquiJoin) ⟨2⟩).result⟩ ∧
    timesCalled Callee.ResolveIndicesAndCorCols
      (doOptimize sampleEnv ⟨false⟩ 3 sampleEquiJoin sampleCtx ⟨0⟩).calls = 1 :=
  ⟨rfl, rfl, rfl, rfl,
    (doOptimize_runs_steps_in_order sampleEnv ⟨false⟩ 3 sampleEquiJoin sampleEquiJoin
      sampleCtx ⟨0⟩ ⟨2⟩ rfl rfl rfl).2.1,
    (doOptimize_runs_steps_in_order sampleEnv ⟨false⟩ 3 sampleEquiJoin sampleEquiJoin
      sampleCtx ⟨0⟩ ⟨2⟩ rfl rfl rfl).2.2.1⟩

/-- Claim C10: on a non-nil logical plan `physicalOptimize` calls
`convert2PhysicalPlan` exactly once, first of all, on the plan itself (its
root) and with the zero value of `requiredProperty`: no sort columns and no
limit. -/
theorem physicalOptimize_converts_root_once (env : Env) (flag : Nat) (logic : Plan)
    (a : idAllocator) (hlogic : logic.isNil = false) :
    (∃ rest, (physicalOptimize env flag logic a).calls =
        Call.convert2PhysicalPlan logic ({} : requiredProperty) :: rest ∧
      ∀ c ∈ rest, c.callee ≠ Callee.convert2PhysicalPlan) ∧
    timesCalled Callee.convert2PhysicalPlan (physicalOptimize env flag logic a).calls = 1 ∧
    ({} : requiredProperty).props = [] ∧ ({} : requiredProperty).limit = none := by
  obtain ⟨rest, hcalls, hrest⟩ := physicalOptimize_calls_shape env flag logic a hlogic
  refine ⟨⟨rest, hcalls, hrest⟩, ?_, rfl, rfl⟩
  rw [hcalls]
  have h0 := timesCalled_eq_zero Callee.convert2PhysicalPlan rest hrest
  have hsplit : Call.convert2PhysicalPlan logic ({} : requiredProperty) :: rest =
      [Call.convert2PhysicalPlan logic ({} : requiredProperty)] ++ rest := rfl
  rw [hsplit, timesCalled_append, h0]
  rfl

/-- Witness of C10: the conversion of an inner join with an equality condition,
with the decorrelation flag set. -/
theorem physicalOptimize_converts_root_once_witness :
    sampleEquiJoin.isNil = false ∧
    (physicalOptimize sampleEnv 1 sampleEquiJoin ⟨0⟩).calls =
      [Call.convert2PhysicalPlan sampleEquiJoin {},
        Call.EliminateProjection (Plan.nonLogical 100 [sampleEquiJoin]),
        Call.addCachePlan (Plan.nonLogical 100 [sampleEquiJoin]) ⟨0⟩] ∧
    timesCalled Callee.convert2PhysicalPlan
      (physicalOptimize sampleEnv 1 sampleEquiJoin ⟨0⟩).calls = 1 :=
  ⟨rfl, rfl, (physicalOptimize_converts_root_once sampleEnv 1 sampleEquiJoin ⟨0⟩ rfl).2.1⟩

/-- Claim C11: when the physical conversion of a non-nil plan succeeds,
`physicalOptimize` calls `addCachePlan` if and only if the bit `flagDecorrelate`
(value 1) is set in `flag`, and then once; the test reads the lowest bit of
`flag` only, so the other five bits do not matter. -/
theorem physicalOptimize_adds_cache_plan_iff_decorrelate (env : Env) (flag : Nat)
    (logic : Plan) (a : idAllocator) (info : physicalPlanInfo)
    (hlogic : logic.isNil = false)
    (hconv : env.convert2PhysicalPlan logic {} = (some info, none)) :
    ((∃ c ∈ (physicalOptimize env flag logic a).calls, c.callee = Callee.addCachePlan) ↔
      flag &&& flagDecorrelate ≠ 0) ∧
    timesCalled Callee.addCachePlan (physicalOptimize env flag logic a).calls =
      (if flag &&& flagDecorrelate ≠ 0 then 1 else 0) ∧
    flagDecorrelate = 1 ∧
    flag &&& flagDecorrelate = flag % 2 ∧
    (∀ other : Nat, other % 2 = flag % 2 →
      timesCalled Callee.addCachePlan (physicalOptimize env other logic a).calls =
        timesCalled Callee.addCachePlan (physicalOptimize env flag logic a).calls) := by
  have hbit : ∀ f : Nat, f &&& flagDecorrelate = f % 2 := fun f => Nat.and_one_is_mod f
  have hcount : ∀ f : Nat,
      timesCalled Callee.addCachePlan (physicalOptimize env f logic a).calls =
        (if f &&& flagDecorrelate ≠ 0 then 1 else 0) := by
    intro f
    rw [physicalOptimize_of_converted env f logic a info hlogic hconv]
    by_cases hf : f &&& flagDecorrelate = 0
    · simp [hf, timesCalled, Call.callee]
    · have hpos : f &&& flagDecorrelate > 0 := Nat.pos_of_ne_zero hf
      simp [hf, hpos, timesCalled, Call.callee]
  refine ⟨?_, hcount flag, rfl, hbit flag, ?_⟩
  · rw [physicalOptimize_of_converted env flag logic a info hlogic hconv]
    by_cases hf : flag &&& flagDecorrelate = 0
    · simp [hf, Call.callee]
    · have hpos : flag &&& flagDecorrelate > 0 := Nat.pos_of_ne_zero hf
      simp [hf, hpos, Call.callee]
  · intro other hother
    rw [hcount other, hcount flag, hbit other, hbit flag, hother]

/-- Witness of C11: with `flag = 62`, all bits but the decorrelation bit,
`addCachePlan` is not called; with `flag = 1` it is called once. -/
theorem physicalOptimize_adds_cache_plan_iff_decorrelate_witness :
    sampleEquiJoin.isNil = false ∧
    sampleEnv.convert2PhysicalPlan sampleEquiJoin {} =
      (some { p := Plan.nonLogical 100 [sampleEquiJoin] }, none) ∧
    timesCalled Callee.addCachePlan (physicalOptimize sampleEnv 62 sampleEquiJoin ⟨0⟩).calls =
      (if 62 &&& flagDecorrelate ≠ 0 then 1 else 0) ∧
    timesCalled Callee.addCachePlan (physicalOptimize sampleEnv 62 sampleEquiJoin ⟨0⟩).calls = 0 ∧
    timesCalled Callee.addCachePlan (physicalOptimize sampleEnv 1 sampleEquiJoin ⟨0⟩).calls =
      (if 1 &&& flagDecorrelate ≠ 0 then 1 else 0) ∧
    timesCalled Callee.addCachePlan (physicalOptimize sampleEnv 1 sampleEquiJoin ⟨0⟩).calls = 1 :=
  ⟨rfl, rfl,
    (physicalOptimize_adds_cache_plan_iff_decorrelate sampleEnv 62 sampleEquiJoin ⟨0⟩
      { p := Plan.nonLogical 100 [sampleEquiJoin] } rfl rfl).2.1,
    rfl,
    (physicalOptimize_adds_cache_plan_iff_decorrelate sampleEnv 1 sampleEquiJoin ⟨0⟩
      { p := Plan.nonLogical 100 [sampleEquiJoin] } rfl rfl).2.1,
    rfl⟩

/-- Claim C12: when each of the six rules leaves the output schema of the plan
it is given unchanged, as the rule contract requires, a successful run of
`logicalOptimize` returns, for every flag, a plan with the output schema of
its input: the same columns in the same order with the same types. -/
theorem logicalOptimize_preserves_schema (env : Env) (ctx : Context)
    (outputSchema : Plan → List Column)
    (hrules : rulesPreserveSchema env ctx outputSchema)
    (flag : Nat) (p q : Plan) (a a1 : idAllocator)
    (hrun : (logicalOptimize env flag p ctx a).result = some ((q, none), a1)) :
    outputSchema q = outputSchema p := by
  rw [logicalOptimize_eq_runRules] at hrun
  exact runRules_preserves env ctx outputSchema hrules (enabledRules flag) p a q a1 hrun

/-- Witness of C12: all six rules enabled on the plan of `select * from a, b`. -/
theorem logicalOptimize_preserves_schema_witness :
    rulesPreserveSchema sampleEnv sampleCtx sampleSchema ∧
    (logicalOptimize sampleEnv 63 sampleCartesian sampleCtx ⟨0⟩).result =
      some ((sampleCartesian, none), ⟨6⟩) ∧
    sampleSchema sampleCartesian = sampleSchema sampleCartesian :=
  ⟨sampleEnv_preserves_schema sampleCtx, rfl,
    logicalOptimize_preserves_schema sampleEnv sampleCtx sampleSchema
      (sampleEnv_preserves_schema sampleCtx) 63 sampleCartesian sampleCartesian ⟨0⟩ ⟨6⟩ rfl⟩

/-- Claim C13, as stated, fails: `Optimize` has no flag input.  For the
statement with id 0 the sample builder sets `optFlag = 3`, in which the bit of
the column pruner is clear, and whatever the caller passes for the switch,
the context and the schema, the column pruner is not applied. -/
theorem Optimize_caller_cannot_select_rules :
    (built sampleEnv sampleCtx ⟨0⟩ ⟨0⟩).2.optFlag = 3 ∧
    3 &&& flagPrunColumns = 0 ∧
    ¬ ∃ (g : Globals) (ctx : Context) (is : InfoSchema),
        logicalOptRule.columnPruner ∈
          (Optimize sampleEnv g ctx ⟨0⟩ is).calls.filterMap Call.rule := by
  refine ⟨rfl, rfl, ?_⟩
  rintro ⟨g, ctx, is, h⟩
  have hrules : (Optimize sampleEnv g ctx ⟨0⟩ is).calls.filterMap Call.rule =
      [logicalOptRule.decorrelateSolver, logicalOptRule.ppdSolver] := by
    rw [Optimize_of_built sampleEnv g ctx ⟨0⟩ is rfl rfl rfl]
    have hflag : (built sampleEnv ctx ⟨0⟩ is).2.optFlag = 3 := rfl
    have hp : (built sampleEnv ctx ⟨0⟩ is).1 = sampleCartesian := rfl
    have halloc : (built sampleEnv ctx ⟨0⟩ is).2.allocator = ⟨3⟩ := rfl
    simp only [List.filterMap_append, doOptimize_rules, hflag, hp, halloc]
    rfl
  rw [hrules] at h
  simp at h

/-- Claim C13, amended: the flag set with which `Optimize` runs the rule
pipeline is `builder.optFlag`, the flag set the plan builder leaves after
building the statement; the rules `Optimize` applies are the rules
`logicalOptimize` applies for that flag set, rules enabled in it, in pipeline
order. -/
theorem Optimize_runs_pipeline_with_builder_flag (env : Env) (g : Globals) (ctx : Context)
    (node : Node) (is : InfoSchema)
    (hinfer : (inferred env ctx node).2 = none)
    (hbuild : (built env ctx node is).2.err = none)
    (hplan : (built env ctx node is).1.isLogical = true) :
    Optimize env g ctx node is =
      ⟨[Call.InferType ctx.GetSessionVars.StmtCtx node,
          Call.build (newBuilder ctx is) (inferred env ctx node).1] ++
          (doOptimize env g (built env ctx node is).2.optFlag (built env ctx node is).1 ctx
            (built env ctx node is).2.allocator).calls,
        (doOptimize env g (built env ctx node is).2.optFlag (built env ctx node is).1 ctx
          (built env ctx node is).2.allocator).result.map (fun v => v.1)⟩ ∧
    (Optimize env g ctx node is).calls.filterMap Call.rule =
      (logicalOptimize env (built env ctx node is).2.optFlag (built env ctx node is).1 ctx
        (built env ctx node is).2.allocator).calls.filterMap Call.rule ∧
    (Optimize env g ctx node is).calls.filterMap Call.rule <+:
      enabledRules (built env ctx node is).2.optFlag := by
  have hrun := Optimize_of_built env g ctx node is hinfer hbuild hplan
  have hrules : (Optimize env g ctx node is).calls.filterMap Call.rule =
      (logicalOptimize env (built env ctx node is).2.optFlag (built env ctx node is).1 ctx
        (built env ctx node is).2.allocator).calls.filterMap Call.rule := by
    rw [hrun]
    simp [Call.rule, doOptimize_rules]
  refine ⟨hrun, hrules, ?_⟩
  rw [hrules, logicalOptimize_eq_runRules]
  exact runRules_rules_isPrefix env ctx _ _ _

/-- Witness of C13 amended: the statement with id 0, for which the sample
builder sets `optFlag = 3`; decorrelation and predicate push-down are applied. -/
theorem Optimize_runs_pipeline_with_builder_flag_witness :
    (inferred sampleEnv sampleCtx ⟨0⟩).2 = none ∧
    (built sampleEnv sampleCtx ⟨0⟩ ⟨0⟩).2.err = none ∧
    (built sampleEnv sampleCtx ⟨0⟩ ⟨0⟩).1.isLogical = true ∧
    (built sampleEnv sampleCtx ⟨0⟩ ⟨0⟩).2.optFlag = 3 ∧
    (Optimize sampleEnv Globals.initial sampleCtx ⟨0⟩ ⟨0⟩).calls.filterMap Call.rule =
      [logicalOptRule.decorrelateSolver, logicalOptRule.ppdSolver] ∧
    (Optimize sampleEnv Globals.initial sampleCtx ⟨0⟩ ⟨0⟩).calls.filterMap Call.rule <+:
      enabledRules (built sampleEnv sampleCtx ⟨0⟩ ⟨0⟩).2.optFlag :=
  ⟨rfl, rfl, rfl, rfl, rfl,
    (Optimize_runs_pipeline_with_builder_flag sampleEnv Globals.initial sampleCtx ⟨0⟩ ⟨0⟩
      rfl rfl rfl).2.2⟩

/-- Claim C15: `PrepareStmt` runs `Preprocess(node, is, ctx)` and then
`Validate(node, true)`.  It returns nil if and only if both succeed; when
`Preprocess` fails its error is returned, traced, and `Validate` is not run;
otherwise when `Validate` fails its error is returned, traced. -/
theorem PrepareStmt_preprocesses_then_validates (penv : PrepareEnv) (is : InfoSchema)
    (ctx : Context) (node : Node) :
    (∃ err, (PrepareStmt penv is ctx node).result = some err ∧
      (err = none ↔
        (penv.Preprocess node is ctx).2 = none ∧
          penv.Validate (penv.Preprocess node is ctx).1 true = none)) ∧
    (∀ e, (penv.Preprocess node is ctx).2 = some e →
      PrepareStmt penv is ctx node =
        ⟨[Call.Preprocess node is ctx], some (some (Err.traced e))⟩) ∧
    ((penv.Preprocess node is ctx).2 = none →
      ∀ e, penv.Validate (penv.Preprocess node is ctx).1 true = some e →
        PrepareStmt penv is ctx node =
          ⟨[Call.Preprocess node is ctx, Call.Validate (penv.Preprocess node is ctx).1 true],
            some (some (Err.traced e))⟩) ∧
    ((penv.Preprocess node is ctx).2 = none →
      penv.Validate (penv.Preprocess node is ctx).1 true = none →
        PrepareStmt penv is ctx node =
          ⟨[Call.Preprocess node is ctx, Call.Validate (penv.Preprocess node is ctx).1 true],
            some none⟩) := by
  refine ⟨?_, ?_, ?_, ?_⟩
  · cases hp : (penv.Preprocess node is ctx).2 with
    | some e =>
      exact ⟨some (Err.traced e), by simp [PrepareStmt, hp, errors.Trace], by simp⟩
    | none =>
      cases hv : penv.Validate (penv.Preprocess node is ctx).1 true with
      | some e =>
        exact ⟨some (Err.traced e), by simp [PrepareStmt, hp, hv, errors.Trace], by simp⟩
      | none => exact ⟨none, by simp [PrepareStmt, hp, hv], by simp⟩
  · intro e hp
    simp [PrepareStmt, hp, errors.Trace]
  · intro hp e hv
    simp [PrepareStmt, hp, hv, errors.Trace]
  · intro hp hv
    simp [PrepareStmt, hp, hv]

/-- Witness of C15: a statement on which preprocessing fails (id 7), one on
which validation fails (id 8) and one on which both succeed (id 0). -/
theorem PrepareStmt_preprocesses_then_validates_witness :
    (samplePrepareEnv.Preprocess ⟨7⟩ ⟨0⟩ sampleCtx).2 = some (Err.foreign 3) ∧
    PrepareStmt samplePrepareEnv ⟨0⟩ sampleCtx ⟨7⟩ =
      ⟨[Call.Preprocess ⟨7⟩ ⟨0⟩ sampleCtx], some (some (Err.traced (Err.foreign 3)))⟩ ∧
    (samplePrepareEnv.Preprocess ⟨8⟩ ⟨0⟩ sampleCtx).2 = none ∧
    samplePrepareEnv.Validate (samplePrepareEnv.Preprocess ⟨8⟩ ⟨0⟩ sampleCtx).1 true =
      some (Err.foreign 4) ∧
    PrepareStmt samplePrepareEnv ⟨0⟩ sampleCtx ⟨8⟩ =
      ⟨[Call.Preprocess ⟨8⟩ ⟨0⟩ sampleCtx,
          Call.Validate (samplePrepareEnv.Preprocess ⟨8⟩ ⟨0⟩ sampleCtx).1 true],
        some (some (Err.traced (Err.foreign 4)))⟩ ∧
    (samplePrepareEnv.Preprocess ⟨0⟩ ⟨0⟩ sampleCtx).2 = none ∧
    samplePrepareEnv.Validate (samplePrepareEnv.Preprocess ⟨0⟩ ⟨0⟩ sampleCtx).1 true = none ∧
    PrepareStmt samplePrepareEnv ⟨0⟩ sampleCtx ⟨0⟩ =
      ⟨[Call.Preprocess ⟨0⟩ ⟨0⟩ sampleCtx,
          Call.Validate (samplePrepareEnv.Preprocess ⟨0⟩ ⟨0⟩ sampleCtx).1 true],
        some none⟩ :=
  ⟨rfl,
    (PrepareStmt_preprocesses_then_validates samplePrepareEnv ⟨0⟩ sampleCtx ⟨7⟩).2.1
      (Err.foreign 3) rfl,
    rfl, rfl,
    (PrepareStmt_preprocesses_then_validates samplePrepareEnv ⟨0⟩ sampleCtx ⟨8⟩).2.2.1 rfl
      (Err.foreign 4) rfl,
    rfl, rfl,
    (PrepareStmt_preprocesses_then_validates samplePrepareEnv ⟨0⟩ sampleCtx ⟨0⟩).2.2.2 rfl rfl⟩

/-- Claim C18: the first call of `Optimize` is `InferType` on the statement, and
when it returns an error `Optimize` returns a nil plan and that error traced,
having made no other call: no build, no rule, no guard, no conversion. -/
theorem Optimize_infers_types_first (env : Env) (g : Globals) (ctx : Context) (node : Node)
    (is : InfoSchema) :
    (∃ rest, (Optimize env g ctx node is).calls =
      Call.InferType ctx.GetSessionVars.StmtCtx node :: rest) ∧
    (∀ e, (inferred env ctx node).2 = some e →
      Optimize env g ctx node is =
        ⟨[Call.InferType ctx.GetSessionVars.StmtCtx node],
          some (Plan.nil, errors.Trace (some e))⟩) := by
  refine ⟨?_, fun e he => Optimize_of_infer_error env g ctx node is e he⟩
  cases hi : (inferred env ctx node).2 with
  | some e =>
    rw [Optimize_of_infer_error env g ctx node is e hi]
    exact ⟨[], rfl⟩
  | none =>
    cases hb : (built env ctx node is).2.err with
    | some e =>
      rw [Optimize_of_build_error env g ctx node is e hi hb]
      exact ⟨_, rfl⟩
    | none =>
      cases hl : (built env ctx node is).1.isLogical with
      | false =>
        rw [Optimize_of_built_non_logical env g ctx node is hi hb hl]
        exact ⟨_, rfl⟩
      | true =>
        rw [Optimize_of_built env g ctx node is hi hb hl]
        exact ⟨_, rfl⟩

/-- Witness of C18: type inference fails on the statement with id 9. -/
theorem Optimize_infers_types_first_witness :
    (inferred sampleEnv sampleCtx ⟨9⟩).2 = some (Err.foreign 1) ∧
    Optimize sampleEnv ⟨false⟩ sampleCtx ⟨9⟩ ⟨0⟩ =
      ⟨[Call.InferType sampleCtx.GetSessionVars.StmtCtx ⟨9⟩],
        some (Plan.nil, errors.Trace (some (Err.foreign 1)))⟩ :=
  ⟨rfl,
    (Optimize_infers_types_first sampleEnv ⟨false⟩ sampleCtx ⟨9⟩ ⟨0⟩).2 (Err.foreign 1) rfl⟩

/-- Claim C19: after a successful type inference, when `builder.err` is non-nil
after the build `Optimize` returns a nil plan and `builder.err` traced,
whatever plan the build returned, and calls nothing after the build; when
`builder.err` is nil the plan the build returned is the one handed to
`doOptimize` (if it is a `LogicalPlan`) or returned as it is (if not). -/
theorem Optimize_builder_error_decides (env : Env) (g : Globals) (ctx : Context)
    (node : Node) (is : InfoSchema) (hinfer : (inferred env ctx node).2 = none) :
    (∀ e, (built env ctx node is).2.err = some e →
      Optimize env g ctx node is =
        ⟨[Call.InferType ctx.GetSessionVars.StmtCtx node,
            Call.build (newBuilder ctx is) (inferred env ctx node).1],
          some (Plan.nil, errors.Trace (some e))⟩) ∧
    ((built env ctx node is).2.err = none → (built env ctx node is).1.isLogical = true →
      Optimize env g ctx node is =
        ⟨[Call.InferType ctx.GetSessionVars.StmtCtx node,
            Call.build (newBuilder ctx is) (inferred env ctx node).1] ++
            (doOptimize env g (built env ctx node is).2.optFlag (built env ctx node is).1 ctx
              (built env ctx node is).2.allocator).calls,
          (doOptimize env g (built env ctx node is).2.optFlag (built env ctx node is).1 ctx
            (built env ctx node is).2.allocator).result.map (fun v => v.1)⟩) ∧
    ((built env ctx node is).2.err = none → (built env ctx node is).1.isLogical = false →
      Optimize env g ctx node is =
        ⟨[Call.InferType ctx.GetSessionVars.StmtCtx node,
            Call.build (newBuilder ctx is) (inferred env ctx node).1],
          some ((built env ctx node is).1, none)⟩) :=
  ⟨fun e hb => Optimize_of_build_error env g ctx node is e hinfer hb,
    fun hb hl => Optimize_of_built env g ctx node is hinfer hb hl,
    fun hb hl => Optimize_of_built_non_logical env g ctx node is hinfer hb hl⟩

/-- Witness of C19: the statement with id 2, for which the sample builder sets
`err`, and the statement with id 1, for which it does not and returns a plan
that is not logical. -/
theorem Optimize_builder_error_decides_witness :
    (inferred sampleEnv sampleCtx ⟨2⟩).2 = none ∧
    (built sampleEnv sampleCtx ⟨2⟩ ⟨0⟩).2.err = some ErrInvalidWildCard ∧
    Optimize sampleEnv ⟨false⟩ sampleCtx ⟨2⟩ ⟨0⟩ =
      ⟨[Call.InferType sampleCtx.GetSessionVars.StmtCtx ⟨2⟩,
          Call.build (newBuilder sampleCtx ⟨0⟩) (inferred sampleEnv sampleCtx ⟨2⟩).1],
        some (Plan.nil, errors.Trace (some ErrInvalidWildCard))⟩ ∧
    (inferred sampleEnv sampleCtx ⟨1⟩).2 = none ∧
    (built sampleEnv sampleCtx ⟨1⟩ ⟨0⟩).2.err = none ∧
    (built sampleEnv sampleCtx ⟨1⟩ ⟨0⟩).1.isLogical = false ∧
    Optimize sampleEnv ⟨false⟩ sampleCtx ⟨1⟩ ⟨0⟩ =
      ⟨[Call.InferType sampleCtx.GetSessionVars.StmtCtx ⟨1⟩,
          Call.build (newBuilder sampleCtx ⟨0⟩) (inferred sampleEnv sampleCtx ⟨1⟩).1],
        some ((built sampleEnv sampleCtx ⟨1⟩ ⟨0⟩).1, none)⟩ :=
  ⟨rfl, rfl,
    (Optimize_builder_error_decides sampleEnv ⟨false⟩ sampleCtx ⟨2⟩ ⟨0⟩ rfl).1
      ErrInvalidWildCard rfl,
    rfl, rfl, rfl,
    (Optimize_builder_error_decides sampleEnv ⟨false⟩ sampleCtx ⟨1⟩ ⟨0⟩ rfl).2.2 rfl rfl⟩

/-- Claim C20: when the physical conversion of a non-nil plan succeeds with plan
`pp`, `physicalOptimize` calls `EliminateProjection(pp)` once, for every flag.
With the decorrelation bit clear it returns the plan `EliminateProjection`
returns; with the bit set it calls `addCachePlan` on that plan, after the
projection elimination, and returns the plan as `addCachePlan` leaves it. -/
theorem physicalOptimize_eliminates_projection_always (env : Env) (flag : Nat) (logic : Plan)
    (a : idAllocator) (info : physicalPlanInfo)
    (hlogic : logic.isNil = false)
    (hconv : env.convert2PhysicalPlan logic {} = (some info, none)) :
    timesCalled Callee.EliminateProjection (physicalOptimize env flag logic a).calls = 1 ∧
    (flag &&& flagDecorrelate = 0 →
      physicalOptimize env flag logic a =
        ⟨[Call.convert2PhysicalPlan logic {}, Call.EliminateProjection info.p],
          some ((env.EliminateProjection info.p, none), a)⟩) ∧
    (flag &&& flagDecorrelate ≠ 0 →
      physicalOptimize env flag logic a =
        ⟨[Call.convert2PhysicalPlan logic {}, Call.EliminateProjection info.p,
            Call.addCachePlan (env.EliminateProjection info.p) a],
          some (((env.addCachePlan (env.EliminateProjection info.p) a).1, none),
            (env.addCachePlan (env.EliminateProjection info.p) a).2)⟩) := by
  have hrun := physicalOptimize_of_converted env flag logic a info hlogic hconv
  refine ⟨?_, ?_, ?_⟩
  · rw [hrun]
    split_ifs <;> simp [timesCalled, Call.callee]
  · intro hf
    rw [hrun]
    simp [hf]
  · intro hf
    rw [hrun]
    simp [Nat.pos_of_ne_zero hf]

/-- Witness of C20: with `flag = 0` and with `flag = 2` (decorrelation bit
clear) the projection elimination is applied and no cache plan is added; with
`flag = 1` the cache plan is added after it. -/
theorem physicalOptimize_eliminates_projection_always_witness :
    sampleEquiJoin.isNil = false ∧
    sampleEnv.convert2PhysicalPlan sampleEquiJoin {} =
      (some { p := Plan.nonLogical 100 [sampleEquiJoin] }, none) ∧
    0 &&& flagDecorrelate = 0 ∧
    physicalOptimize sampleEnv 0 sampleEquiJoin ⟨0⟩ =
      ⟨[Call.convert2PhysicalPlan sampleEquiJoin {},
          Call.EliminateProjection (Plan.nonLogical 100 [sampleEquiJoin])],
        some ((sampleEnv.EliminateProjection (Plan.nonLogical 100 [sampleEquiJoin]), none),
          ⟨0⟩)⟩ ∧
    2 &&& flagDecorrelate = 0 ∧
    timesCalled Callee.EliminateProjection
      (physicalOptimize sampleEnv 2 sampleEquiJoin ⟨0⟩).calls = 1 ∧
    1 &&& flagDecorrelate ≠ 0 ∧
    physicalOptimize sampleEnv 1 sampleEquiJoin ⟨0⟩ =
      ⟨[Call.convert2PhysicalPlan sampleEquiJoin {},
          Call.EliminateProjection (Plan.nonLogical 100 [sampleEquiJoin]),
          Call.addCachePlan
            (sampleEnv.EliminateProjection (Plan.nonLogical 100 [sampleEquiJoin])) ⟨0⟩],
        some (((sampleEnv.addCachePlan
            (sampleEnv.EliminateProjection (Plan.nonLogical 100 [sampleEquiJoin])) ⟨0⟩).1, none),
          (sampleEnv.addCachePlan
            (sampleEnv.EliminateProjection (Plan.nonLogical 100 [sampleEquiJoin])) ⟨0⟩).2)⟩ :=
  ⟨rfl, rfl, rfl,
    (physicalOptimize_eliminates_projection_always sampleEnv 0 sampleEquiJoin ⟨0⟩
      { p := Plan.nonLogical 100 [sampleEquiJoin] } rfl rfl).2.1 rfl,
    rfl,
    (physicalOptimize_eliminates_projection_always sampleEnv 2 sampleEquiJoin ⟨0⟩
      { p := Plan.nonLogical 100 [sampleEquiJoin] } rfl rfl).1,
    by decide,
    (physicalOptimize_eliminates_projection_always sampleEnv 1 sampleEquiJoin ⟨0⟩
      { p := Plan.nonLogical 100 [sampleEquiJoin] } rfl rfl).2.2 (by decide)⟩

/-- Claim C16: for every contents of the two tables, NULLs in the correlated
columns included, the plan decorrelation leaves for a query with a correlated
`exists` or `not exists` sub-query returns exactly the rows of nested
evaluation, the sub-query evaluated once per outer row; and on
`t(c, d)` with rows (1,1), (2,2), (3,4) the query
`select * from t where exists(select * from t k where t.c = k.c having sum(c) = 1)`
returns exactly (1,1). -/
theorem decorrelated_plan_returns_nested_rows :
    (∀ q : ExistsQuery, (decorrelate q).execute = nestedEval q) ∧
    (decorrelate sampleExistsHaving).execute = [[some 1, some 1]] ∧
    nestedEval sampleExistsHaving = [[some 1, some 1]] := by
  refine ⟨?_, by decide, by decide⟩
  intro q
  obtain ⟨outer, negated, inner, innerCol, op, outerCol, having⟩ := q
  cases op with
  | lt => rfl
  | eq =>
    cases having with
    | some hv => rfl
    | none =>
      simp only [decorrelate, DecorrelatedPlan.execute, nestedEval, SubQuery.rowsFor]
      apply List.filter_congr
      intro t _
      rw [filter_isEmpty_eq_any]
      cases ht : t.col outerCol with
      | none => rw [any_compare_null]
      | some v => simp only [contains_keys_eq_any]

/-- Claim C17: on a table whose column `id` is a unique key, the grouped
aggregations `select id, sum(x) from t group by id` and
`select id, count(x) from t group by id` return one row per row of the table,
`(id, x)` and `(id, 1 if x is not NULL else 0)`, the rows aggregation pruning
produces. -/
theorem pruned_aggregation_returns_grouped_rows (t : List KeyedRow)
    (hkey : (t.map (fun r => r.id)).Nodup) :
    groupBySum t = t.map (fun r => (r.id, r.x)) ∧
    groupByCount t = t.map (fun r => (r.id, if r.x.isSome then 1 else 0)) ∧
    prunedSum t = groupBySum t ∧
    prunedCount t = groupByCount t := by
  have hsum : groupBySum t = t.map (fun r => (r.id, r.x)) := by
    unfold groupBySum
    rw [List.Nodup.dedup hkey, List.map_map]
    apply List.map_congr_left
    intro r hr
    simp only [Function.comp, filter_key_eq_singleton t hkey r hr, List.map_cons, List.map_nil,
      aggSum_singleton]
  have hcount : groupByCount t = t.map (fun r => (r.id, if r.x.isSome then 1 else 0)) := by
    unfold groupByCount
    rw [List.Nodup.dedup hkey, List.map_map]
    apply List.map_congr_left
    intro r hr
    simp only [Function.comp, filter_key_eq_singleton t hkey r hr, List.map_cons, List.map_nil,
      aggCount_singleton]
  exact ⟨hsum, hcount, hsum.symm, hcount.symm⟩

/-- Witness of C17: the table of `TestAggPrune`, rows (1, NULL) and (2, 1). -/
theorem pruned_aggregation_returns_grouped_rows_witness :
    (sampleKeyed.map (fun r => r.id)).Nodup ∧
    groupBySum sampleKeyed = [(1, none), (2, some 1)] ∧
    groupByCount sampleKeyed = [(1, 0), (2, 1)] ∧
    groupBySum sampleKeyed = sampleKeyed.map (fun r => (r.id, r.x)) ∧
    groupByCount sampleKeyed =
      sampleKeyed.map (fun r => (r.id, if r.x.isSome then 1 else 0)) :=
  ⟨by decide, by decide, by decide,
    (pruned_aggregation_returns_grouped_rows sampleKeyed (by decide)).1,
    (pruned_aggregation_returns_grouped_rows sampleKeyed (by decide)).2.1⟩

/-- Claim C25: when every bit set in `f1` among bits 0..5 is lower than every
bit set in `f2` among them, `logicalOptimize (f1 ||| f2)` on `p` is
`logicalOptimize f1` on `p` followed by `logicalOptimize f2` on the plan and
allocator the first stage returns; when the first stage fails,
`logicalOptimize (f1 ||| f2)` fails in the same way, with the same error. -/
theorem logicalOptimize_splits_at_flag_boundary (env : Env) (f1 f2 : Nat) (p : Plan)
    (ctx : Context) (a : idAllocator)
    (horder : ∀ i j, i < 6 → j < 6 → f1 &&& 2 ^ i ≠ 0 → f2 &&& 2 ^ j ≠ 0 → i < j) :
    (∀ q a1, (logicalOptimize env f1 p ctx a).result = some ((q, none), a1) →
      logicalOptimize env (f1 ||| f2) p ctx a =
        ⟨(logicalOptimize env f1 p ctx a).calls ++ (logicalOptimize env f2 q ctx a1).calls,
          (logicalOptimize env f2 q ctx a1).result⟩) ∧
    (∀ q e a1, (logicalOptimize env f1 p ctx a).result = some ((q, some e), a1) →
      logicalOptimize env (f1 ||| f2) p ctx a = logicalOptimize env f1 p ctx a) := by
  have hsplit := enabledRules_lor f1 f2 horder
  constructor
  · intro q a1 h
    rw [logicalOptimize_eq_runRules] at h
    rw [logicalOptimize_eq_runRules, logicalOptimize_eq_runRules, logicalOptimize_eq_runRules,
      hsplit]
    exact runRules_append_of_success env ctx _ _ p a q a1 h
  · intro q e a1 h
    rw [logicalOptimize_eq_runRules] at h
    rw [logicalOptimize_eq_runRules, logicalOptimize_eq_runRules, hsplit]
    exact runRules_append_of_error env ctx _ _ p a q e a1 h

/-- Witness of C25: `f1 = 1` (decorrelation) and `f2 = 6` (predicate push-down and
column pruning), on a plan the rules accept and on a plan on which the second
stage fails. -/
theorem logicalOptimize_splits_at_flag_boundary_witness :
    (∀ i j, i < 6 → j < 6 → 1 &&& 2 ^ i ≠ 0 → 6 &&& 2 ^ j ≠ 0 → i < j) ∧
    (logicalOptimize sampleEnv 1 sampleCartesian sampleCtx ⟨0⟩).result =
      some ((sampleCartesian, none), ⟨1⟩) ∧
    logicalOptimize sampleEnv (1 ||| 6) sampleCartesian sampleCtx ⟨0⟩ =
      ⟨(logicalOptimize sampleEnv 1 sampleCartesian sampleCtx ⟨0⟩).calls ++
          (logicalOptimize sampleEnv 6 sampleCartesian sampleCtx ⟨1⟩).calls,
        (logicalOptimize sampleEnv 6 sampleCartesian sampleCtx ⟨1⟩).result⟩ ∧
    (logicalOptimize sampleEnv 2 (Plan.logical 7 []) sampleCtx ⟨0⟩).result =
      some ((Plan.nil, some (Err.traced ErrIllegalReference)), ⟨0⟩) ∧
    logicalOptimize sampleEnv (2 ||| 4) (Plan.logical 7 []) sampleCtx ⟨0⟩ =
      logicalOptimize sampleEnv 2 (Plan.logical 7 []) sampleCtx ⟨0⟩ :=
  ⟨bits_of_1_below_bits_of_6, rfl,
    (logicalOptimize_splits_at_flag_boundary sampleEnv 1 6 sampleCartesian sampleCtx ⟨0⟩
      bits_of_1_below_bits_of_6).1 sampleCartesian ⟨1⟩ rfl,
    rfl,
    (logicalOptimize_splits_at_flag_boundary sampleEnv 2 4 (Plan.logical 7 []) sampleCtx ⟨0⟩
      bits_of_2_below_bits_of_4).2 Plan.nil (Err.traced ErrIllegalReference) ⟨0⟩ rfl⟩

/-- Claim C26: only the six low bits of `flag` matter: `logicalOptimize flag` is
`logicalOptimize (flag % 64)`, and when `flag % 64 = 0` no rule is applied and
the result is `(p, nil)` with `p` and the allocator unchanged. -/
theorem logicalOptimize_reads_six_low_bits (env : Env) (flag : Nat) (p : Plan) (ctx : Context)
    (a : idAllocator) :
    logicalOptimize env flag p ctx a = logicalOptimize env (flag % 64) p ctx a ∧
    (flag % 64 = 0 → logicalOptimize env flag p ctx a = ⟨[], some ((p, none), a)⟩) := by
  have hmod : logicalOptimize env flag p ctx a = logicalOptimize env (flag % 64) p ctx a := by
    rw [logicalOptimize_eq_runRules, logicalOptimize_eq_runRules, enabledRules_mod]
  refine ⟨hmod, ?_⟩
  intro h0
  rw [hmod, h0, logicalOptimize_eq_runRules, enabledRules_zero]
  rfl

/-- Witness of C26: `flag = 192`, whose six low bits are clear, and `flag = 67`,
which is 3 modulo 64. -/
theorem logicalOptimize_reads_six_low_bits_witness :
    192 % 64 = 0 ∧
    logicalOptimize sampleEnv 192 sampleCartesian sampleCtx ⟨0⟩ =
      ⟨[], some ((sampleCartesian, none), ⟨0⟩)⟩ ∧
    logicalOptimize sampleEnv 67 sampleCartesian sampleCtx ⟨0⟩ =
      logicalOptimize sampleEnv (67 % 64) sampleCartesian sampleCtx ⟨0⟩ :=
  ⟨rfl,
    (logicalOptimize_reads_six_low_bits sampleEnv 192 sampleCartesian sampleCtx ⟨0⟩).2 rfl,
    (logicalOptimize_reads_six_low_bits sampleEnv 67 sampleCartesian sampleCtx ⟨0⟩).1⟩

/-- Claim C27: when the output of the rule pipeline contains no cartesian
product (`existsCartesianProduct` is false on it), or the pipeline fails,
`doOptimize` returns the same plan, error and allocator with
`AllowCartesianProduct` off as with it on; the two runs make the same calls
but for the guard's call of `existsCartesianProduct`. -/
theorem doOptimize_switch_affects_guard_only (env : Env) (flag : Nat) (p : Plan)
    (ctx : Context) (a : idAllocator)
    (h : (∃ q a1, (logicalOptimize env flag p ctx a).result = some ((q, none), a1) ∧
          existsCartesianProduct q = some false) ∨
        (∃ q e a1, (logicalOptimize env flag p ctx a).result = some ((q, some e), a1))) :
    (doOptimize env ⟨false⟩ flag p ctx a).result = (doOptimize env ⟨true⟩ flag p ctx a).result ∧
    (doOptimize env ⟨false⟩ flag p ctx a).calls.filter
        (fun c => c.callee != Callee.existsCartesianProduct) =
      (doOptimize env ⟨true⟩ flag p ctx a).calls := by
  rcases h with ⟨q, a1, hpipe, hcart⟩ | ⟨q, e, a1, hpipe⟩
  · have hq := existsCartesianProduct_some_not_nil q false hcart
    have hoff : (cartesianGuard ⟨false⟩ q).result = some false := by
      simp [cartesianGuard, hcart]
    have hon : (cartesianGuard ⟨true⟩ q).result = some false := by
      simp [cartesianGuard]
    rw [doOptimize_of_guard_passed env ⟨false⟩ flag p ctx a q a1 hpipe hoff hq,
      doOptimize_of_guard_passed env ⟨true⟩ flag p ctx a q a1 hpipe hon hq]
    refine ⟨rfl, ?_⟩
    have hlog : (logicalOptimize env flag p ctx a).calls.filter
        (fun c => c.callee != Callee.existsCartesianProduct) =
        (logicalOptimize env flag p ctx a).calls := by
      rw [List.filter_eq_self]
      intro c hc
      rw [logicalOptimize_calls_callee env flag p ctx a c hc]
      decide
    have hphys : (physicalOptimize env flag (env.ResolveIndicesAndCorCols q) a1).calls.filter
        (fun c => c.callee != Callee.existsCartesianProduct) =
        (physicalOptimize env flag (env.ResolveIndicesAndCorCols q) a1).calls := by
      rw [List.filter_eq_self]
      intro c hc
      rcases physicalOptimize_calls_callee env flag _ a1 c hc with hc1 | hc1 | hc1 <;>
        rw [hc1] <;> decide
    simp only [cartesianGuard, List.filter_append, hlog, hphys]
    simp [Call.callee]
  · rw [doOptimize_of_pipeline_error env ⟨false⟩ flag p ctx a q e a1 hpipe,
      doOptimize_of_pipeline_error env ⟨true⟩ flag p ctx a q e a1 hpipe]
    refine ⟨rfl, ?_⟩
    rw [List.filter_eq_self]
    intro c hc
    rw [logicalOptimize_calls_callee env flag p ctx a c hc]
    decide

/-- Witness of C27: an inner join with an equality condition, on which
`existsCartesianProduct` is false. -/
theorem doOptimize_switch_affects_guard_only_witness :
    ((∃ q a1, (logicalOptimize sampleEnv 3 sampleEquiJoin sampleCtx ⟨0⟩).result =
          some ((q, none), a1) ∧ existsCartesianProduct q = some false) ∨
      (∃ q e a1, (logicalOptimize sampleEnv 3 sampleEquiJoin sampleCtx ⟨0⟩).result =
          some ((q, some e), a1))) ∧
    (doOptimize sampleEnv ⟨false⟩ 3 sampleEquiJoin sampleCtx ⟨0⟩).result =
      some ((Plan.nonLogical 100 [sampleEquiJoin], none), ⟨3⟩) ∧
    (doOptimize sampleEnv ⟨false⟩ 3 sampleEquiJoin sampleCtx ⟨0⟩).result =
      (doOptimize sampleEnv ⟨true⟩ 3 sampleEquiJoin sampleCtx ⟨0⟩).result :=
  ⟨Or.inl ⟨sampleEquiJoin, ⟨2⟩, rfl, rfl⟩, rfl,
    (doOptimize_switch_affects_guard_only sampleEnv 3 sampleEquiJoin sampleCtx ⟨0⟩
      (Or.inl ⟨sampleEquiJoin, ⟨2⟩, rfl, rfl⟩)).1⟩

/-- Claim C23: the five optimizer error codes are 1, 3, 4, 5, 6, pairwise
distinct; the five base errors carry them in this order, so each a different
one, and `ErrCartesianProductUnsupported` is the only one with
`CodeUnsupported`; and when `Optimize` returns an error whose cause is
`ErrCartesianProductUnsupported`, either the guard of `doOptimize` produced it
(the switch is off and `existsCartesianProduct` returned true) or a function
`Optimize` calls (type inference, the builder, a rule, the converter)
returned an error with that cause. -/
theorem unsupported_error_comes_from_guard_only :
    optimizerCodes = [1, 3, 4, 5, 6] ∧
    CodeOperandColumns = 1 ∧ CodeInvalidWildCard = 3 ∧ CodeUnsupported = 4 ∧
    CodeInvalidGroupFuncUse = 5 ∧ CodeIllegalReference = 6 ∧
    optimizerCodes.Nodup ∧
    optimizerErrors.map Err.code = optimizerCodes.map some ∧
    (optimizerErrors.map Err.code).Nodup ∧
    optimizerErrors.filter (fun e => e.code == some CodeUnsupported) =
      [ErrCartesianProductUnsupported] ∧
    ∀ (env : Env) (g : Globals) (ctx : Context) (node : Node) (is : InfoSchema) (q : Plan)
      (e : Err), (Optimize env g ctx node is).result = some (q, some e) →
      e.Cause = ErrCartesianProductUnsupported →
        (e = Err.traced ErrCartesianProductUnsupported ∧ g.AllowCartesianProduct = false ∧
          ∃ q0, Call.existsCartesianProduct q0 ∈ (Optimize env g ctx node is).calls ∧
            existsCartesianProduct q0 = some true) ∨
        (∃ e0, e0.Cause = ErrCartesianProductUnsupported ∧
          ((inferred env ctx node).2 = some e0 ∨ (built env ctx node is).2.err = some e0 ∨
            (∃ rule q0 a0, (env.optimize rule q0 ctx a0).1.2 = some e0) ∨
            (∃ q0 prop, (env.convert2PhysicalPlan q0 prop).2 = some e0))) := by
  refine ⟨rfl, rfl, rfl, rfl, rfl, rfl, by decide, rfl, by decide, by decide, ?_⟩
  intro env g ctx node is q e h hcause
  rcases Optimize_error_origin env g ctx node is q e h with
    ⟨e0, h0, he⟩ | ⟨e0, h0, he⟩ | ⟨rule, q0, a0, e0, h0, he⟩ | hguard | ⟨q0, prop, e0, h0, he⟩
  · subst he
    exact Or.inr ⟨e0, hcause, Or.inl h0⟩
  · subst he
    exact Or.inr ⟨e0, hcause, Or.inr (Or.inl h0)⟩
  · subst he
    exact Or.inr ⟨e0, hcause, Or.inr (Or.inr (Or.inl ⟨rule, q0, a0, h0⟩))⟩
  · exact Or.inl hguard
  · subst he
    exact Or.inr ⟨e0, hcause, Or.inr (Or.inr (Or.inr ⟨q0, prop, h0⟩))⟩

/-- Witness of C23: the run on `select * from a, b` with the switch off, whose
error is produced by the guard. -/
theorem unsupported_error_comes_from_guard_only_witness :
    (Optimize sampleEnv ⟨false⟩ sampleCtx ⟨0⟩ ⟨0⟩).result =
      some (Plan.nil, some (Err.traced ErrCartesianProductUnsupported)) ∧
    (Err.traced ErrCartesianProductUnsupported).Cause = ErrCartesianProductUnsupported ∧
    ((Err.traced ErrCartesianProductUnsupported = Err.traced ErrCartesianProductUnsupported ∧
        (⟨false⟩ : Globals).AllowCartesianProduct = false ∧
        ∃ q0, Call.existsCartesianProduct q0 ∈
            (Optimize sampleEnv ⟨false⟩ sampleCtx ⟨0⟩ ⟨0⟩).calls ∧
          existsCartesianProduct q0 = some true) ∨
      (∃ e0, e0.Cause = ErrCartesianProductUnsupported ∧
        ((inferred sampleEnv sampleCtx ⟨0⟩).2 = some e0 ∨
          (built sampleEnv sampleCtx ⟨0⟩ ⟨0⟩).2.err = some e0 ∨
          (∃ rule q0 a0, (sampleEnv.optimize rule q0 sampleCtx a0).1.2 = some e0) ∨
          (∃ q0 prop, (sampleEnv.convert2PhysicalPlan q0 prop).2 = some e0)))) :=
  ⟨rfl, rfl,
    unsupported_error_comes_from_guard_only.2.2.2.2.2.2.2.2.2.2 sampleEnv ⟨false⟩ sampleCtx
      ⟨0⟩ ⟨0⟩ Plan.nil (Err.traced ErrCartesianProductUnsupported) rfl rfl⟩

/-- Claim C29: the table `init` registers for the optimizer class has exactly
four entries, `CodeOperandColumns` to `mysql.ErrOperandColumns`,
`CodeInvalidWildCard` to `mysql.ErrParse`, `CodeInvalidGroupFuncUse` to
`mysql.ErrInvalidGroupFuncUse` and `CodeIllegalReference` to
`mysql.ErrIllegalReference`; of the five optimizer codes only
`CodeUnsupported`, the code of `ErrCartesianProductUnsupported`, has no entry. -/
theorem init_registers_four_of_five_codes (mysql : mysqlCodes)
    (table : ErrClass → List (Nat × Nat)) :
    init mysql table ErrClass.ClassOptimizer =
      [(CodeOperandColumns, mysql.ErrOperandColumns), (CodeInvalidWildCard, mysql.ErrParse),
       (CodeInvalidGroupFuncUse, mysql.ErrInvalidGroupFuncUse),
       (CodeIllegalReference, mysql.ErrIllegalReference)] ∧
    (init mysql table ErrClass.ClassOptimizer).length = 4 ∧
    (init mysql table ErrClass.ClassOptimizer).map Prod.fst = [1, 3, 5, 6] ∧
    (init mysql table ErrClass.ClassOptimizer).lookup CodeOperandColumns =
      some mysql.ErrOperandColumns ∧
    (init mysql table ErrClass.ClassOptimizer).lookup CodeInvalidWildCard =
      some mysql.ErrParse ∧
    (init mysql table ErrClass.ClassOptimizer).lookup CodeInvalidGroupFuncUse =
      some mysql.ErrInvalidGroupFuncUse ∧
    (init mysql table ErrClass.ClassOptimizer).lookup CodeIllegalReference =
      some mysql.ErrIllegalReference ∧
    (init mysql table ErrClass.ClassOptimizer).lookup CodeUnsupported = none ∧
    optimizerCodes.filter
        (fun code => ((init mysql table ErrClass.ClassOptimizer).lookup code).isNone) =
      [CodeUnsupported] ∧
    ErrCartesianProductUnsupported.code = some CodeUnsupported :=
  ⟨rfl, rfl, rfl, rfl, rfl, rfl, rfl, rfl, rfl, rfl⟩

/-- Claim C22: on every finite logical plan tree `existsCartesianProduct` returns
a value; it makes at least one and at most as many calls as the tree has
nodes, and its calls are nested at most as deep as the tree is high. -/
theorem existsCartesianProduct_terminates_within_tree (p : Plan)
    (htree : p.isLogicalTree = true) :
    (∃ b, existsCartesianProduct p = some b ∧
      (existsCartesianProductCost p).value = some b) ∧
    1 ≤ (existsCartesianProductCost p).calls ∧
    (existsCartesianProductCost p).calls ≤ p.nodes.length ∧
    1 ≤ (existsCartesianProductCost p).depth ∧
    (existsCartesianProductCost p).depth ≤ p.height := by
  obtain ⟨b, hb⟩ := existsCartesianProduct_returns p htree
  exact ⟨⟨b, hb, by rw [existsCartesianProductCost_value, hb]⟩,
    existsCartesianProductCost_bounds p htree⟩

/-- Witness of C22: a unary node over an inner join with an equality condition
over two leaves: four nodes, height three, four calls nested three deep. -/
theorem existsCartesianProduct_terminates_within_tree_witness :
    (Plan.logical 9 [sampleEquiJoin]).isLogicalTree = true ∧
    (Plan.logical 9 [sampleEquiJoin]).nodes.length = 4 ∧
    (Plan.logical 9 [sampleEquiJoin]).height = 3 ∧
    existsCartesianProductCost (Plan.logical 9 [sampleEquiJoin]) = ⟨some false, 4, 3⟩ ∧
    (existsCartesianProductCost (Plan.logical 9 [sampleEquiJoin])).calls ≤
      (Plan.logical 9 [sampleEquiJoin]).nodes.length ∧
    (existsCartesianProductCost (Plan.logical 9 [sampleEquiJoin])).depth ≤
      (Plan.logical 9 [sampleEquiJoin]).height :=
  ⟨rfl, rfl, rfl, rfl,
    (existsCartesianProduct_terminates_within_tree (Plan.logical 9 [sampleEquiJoin])
      rfl).2.2.1,
    (existsCartesianProduct_terminates_within_tree (Plan.logical 9 [sampleEquiJoin])
      rfl).2.2.2.2⟩

/-- Claim C24: at a join with no equality condition `existsCartesianProduct`
answers from the join type alone, in one call, whatever the children are:
true for inner, left outer and right outer joins, false for every other join
type, also when a child subtree contains an inner join with no equality
condition.  Below every other node (a join with an equality condition, a
node that is not a join) the answer is that of the search of the children. -/
theorem existsCartesianProduct_at_join_without_equal_condition :
    (∀ (jt : JoinType) (children : List Plan),
      existsCartesianProduct (Plan.Join jt [] children) =
        some (jt == JoinType.InnerJoin || jt == JoinType.LeftOuterJoin ||
          jt == JoinType.RightOuterJoin) ∧
      (existsCartesianProductCost (Plan.Join jt [] children)).calls = 1) ∧
    (∀ children, existsCartesianProduct (Plan.Join JoinType.InnerJoin [] children) = some true) ∧
    (∀ children,
      existsCartesianProduct (Plan.Join JoinType.LeftOuterJoin [] children) = some true) ∧
    (∀ children,
      existsCartesianProduct (Plan.Join JoinType.RightOuterJoin [] children) = some true) ∧
    (∀ tag children,
      existsCartesianProduct (Plan.Join (JoinType.other tag) [] children) = some false) ∧
    (existsCartesianProduct sampleSemiOverCartesian = some false ∧
      sampleCartesian ∈ sampleSemiOverCartesian.Children ∧
      sampleCartesian.isCartesianJoin = true) ∧
    (∀ (jt : JoinType) (eqs : List Nat) (children : List Plan), eqs ≠ [] →
      existsCartesianProduct (Plan.Join jt eqs children) =
        existsCartesianProductChildren children) ∧
    (∀ (tag : Nat) (children : List Plan),
      existsCartesianProduct (Plan.logical tag children) =
        existsCartesianProductChildren children) := by
  refine ⟨?_, ?_, ?_, ?_, ?_, ⟨rfl, ?_, rfl⟩, ?_, ?_⟩
  · intro jt children
    constructor
    · rw [existsCartesianProduct]; rfl
    · rw [existsCartesianProductCost]; rfl
  · intro children; rw [existsCartesianProduct]; rfl
  · intro children; rw [existsCartesianProduct]; rfl
  · intro children; rw [existsCartesianProduct]; rfl
  · intro tag children; rw [existsCartesianProduct]; rfl
  · simp [sampleSemiOverCartesian, Plan.Children]
  · intro jt eqs children hne
    rw [existsCartesianProduct]
    have hlen : ¬ eqs.length = 0 := fun h => hne (List.length_eq_zero.mp h)
    simp [hlen]
  · intro tag children
    rw [existsCartesianProduct]

/-- Witness of C24: a join with one equality condition, below which the
children are searched. -/
theorem existsCartesianProduct_at_join_without_equal_condition_witness :
    ([0] : List Nat) ≠ [] ∧
    existsCartesianProduct (Plan.Join JoinType.InnerJoin [0] [sampleCartesian]) =
      existsCartesianProductChildren [sampleCartesian] ∧
    existsCartesianProduct (Plan.Join JoinType.InnerJoin [0] [sampleCartesian]) = some true :=
  ⟨by decide,
    existsCartesianProduct_at_join_without_equal_condition.2.2.2.2.2.2.1 JoinType.InnerJoin [0]
      [sampleCartesian] (by decide),
    rfl⟩

/-- Claim C28: on a plan tree in which every node is a `LogicalPlan`
`existsCartesianProduct` does not panic: it returns a value.  When the loop
over the children of a node that is not a join, or of a join with an equality
condition, reaches a child that is not a `LogicalPlan` (every child before it
is one and gives false), the type assertion fails and the call panics. -/
theorem existsCartesianProduct_panics_only_on_non_logical_child :
    (∀ p : Plan, p.isLogicalTree = true → ∃ b, existsCartesianProduct p = some b) ∧
    (∀ (tag : Nat) (pre : List Plan) (bad : Plan) (rest : List Plan),
      bad.isLogical = false →
      (∀ c ∈ pre, c.isLogical = true ∧ existsCartesianProduct c = some false) →
        existsCartesianProduct (Plan.logical tag (pre ++ bad :: rest)) = none) ∧
    (∀ (jt : JoinType) (eqs : List Nat) (pre : List Plan) (bad : Plan) (rest : List Plan),
      eqs ≠ [] → bad.isLogical = false →
      (∀ c ∈ pre, c.isLogical = true ∧ existsCartesianProduct c = some false) →
        existsCartesianProduct (Plan.Join jt eqs (pre ++ bad :: rest)) = none) ∧
    (∀ (tag : Nat) (pre : List Plan) (c : Plan) (rest : List Plan),
      c.isLogical = true → existsCartesianProduct c = none →
      (∀ d ∈ pre, d.isLogical = true ∧ existsCartesianProduct d = some false) →
        existsCartesianProduct (Plan.logical tag (pre ++ c :: rest)) = none) := by
  refine ⟨existsCartesianProduct_returns, ?_, ?_, ?_⟩
  · intro tag pre bad rest hbad hpre
    rw [existsCartesianProduct, existsCartesianProductChildren_skips_false _ pre hpre,
      existsCartesianProductChildren_cons_of_not_logical bad rest hbad]
  · intro jt eqs pre bad rest hne hbad hpre
    have hlen : ¬ eqs.length = 0 := fun h => hne (List.length_eq_zero.mp h)
    rw [existsCartesianProduct]
    simp only [hlen, if_false]
    rw [existsCartesianProductChildren_skips_false _ pre hpre,
      existsCartesianProductChildren_cons_of_not_logical bad rest hbad]
  · intro tag pre c rest hc hnone hpre
    rw [existsCartesianProduct, existsCartesianProductChildren_skips_false _ pre hpre,
      existsCartesianProductChildren_cons_of_logical c rest hc, hnone]

/-- Witness of C28: a logical tree, on which a value is returned, and a node
whose second child is not a `LogicalPlan`, on which the call panics. -/
theorem existsCartesianProduct_panics_only_on_non_logical_child_witness :
    sampleEquiJoin.isLogicalTree = true ∧
    existsCartesianProduct sampleEquiJoin = some false ∧
    (∃ b, existsCartesianProduct sampleEquiJoin = some b) ∧
    (Plan.nonLogical 2 []).isLogical = false ∧
    (∀ c ∈ [Plan.logical 1 []],
      c.isLogical = true ∧ existsCartesianProduct c = some false) ∧
    sampleNonLogicalChild = Plan.logical 0 ([Plan.logical 1 []] ++ Plan.nonLogical 2 [] :: []) ∧
    existsCartesianProduct (Plan.logical 0 ([Plan.logical 1 []] ++ Plan.nonLogical 2 [] :: [])) =
      none :=
  ⟨rfl, rfl,
    existsCartesianProduct_panics_only_on_non_logical_child.1 sampleEquiJoin rfl,
    rfl,
    fun c hc => by
      rw [List.mem_singleton] at hc
      subst hc
      exact ⟨rfl, rfl⟩,
    rfl,
    existsCartesianProduct_panics_only_on_non_logical_child.2.1 0 [Plan.logical 1 []]
      (Plan.nonLogical 2 []) [] rfl
      (fun c hc => by
        rw [List.mem_singleton] at hc
        subst hc
        exact ⟨rfl, rfl⟩)⟩

/-- Claim C21: in every call of `Optimize` the allocator handed to the builder is
a new one with the zero value, the same in any two calls; when the plan is a
logical plan the rules are applied in a chain that starts from the built
plan and the allocator as the builder leaves it, each rule receiving the
allocator as the rule before it leaves it, and `addCachePlan` receives the
allocator as the rule pipeline leaves it. -/
theorem Optimize_threads_its_own_allocator (env : Env) (g : Globals) (ctx : Context)
    (node : Node) (is : InfoSchema) :
    (∀ b n, Call.build b n ∈ (Optimize env g ctx node is).calls →
      b.allocator = ({} : idAllocator) ∧ b.allocator.id = 0) ∧
    (∀ (env2 : Env) (g2 : Globals) (ctx2 : Context) (node2 : Node) (is2 : InfoSchema) b n b2 n2,
      Call.build b n ∈ (Optimize env g ctx node is).calls →
      Call.build b2 n2 ∈ (Optimize env2 g2 ctx2 node2 is2).calls →
        b2.allocator = b.allocator) ∧
    ((inferred env ctx node).2 = none → (built env ctx node is).2.err = none →
      (built env ctx node is).1.isLogical = true →
      ∃ rest,
        (Optimize env g ctx node is).calls =
          [Call.InferType ctx.GetSessionVars.StmtCtx node,
            Call.build (newBuilder ctx is) (inferred env ctx node).1] ++
          applyRulesCalls env ctx
            ((logicalOptimize env (built env ctx node is).2.optFlag (built env ctx node is).1
              ctx (built env ctx node is).2.allocator).calls.filterMap Call.rule)
            ((built env ctx node is).1, (built env ctx node is).2.allocator) ++ rest ∧
        (∀ c ∈ rest, c.callee ≠ Callee.optimize) ∧
        (∀ pp al, Call.addCachePlan pp al ∈ rest →
          ∃ q, (logicalOptimize env (built env ctx node is).2.optFlag
            (built env ctx node is).1 ctx (built env ctx node is).2.allocator).result =
              some ((q, none), al))) := by
  refine ⟨?_, ?_, ?_⟩
  · intro b n h
    rw [Optimize_build_calls env g ctx node is b n h]
    exact ⟨rfl, rfl⟩
  · intro env2 g2 ctx2 node2 is2 b n b2 n2 h h2
    rw [Optimize_build_calls env g ctx node is b n h,
      Optimize_build_calls env2 g2 ctx2 node2 is2 b2 n2 h2]
    rfl
  · intro hi hb hl
    obtain ⟨rest, hcalls, hrest, hcache⟩ := doOptimize_calls_split env g
      (built env ctx node is).2.optFlag (built env ctx node is).1 ctx
      (built env ctx node is).2.allocator
    refine ⟨rest, ?_, hrest, hcache⟩
    rw [Optimize_of_built env g ctx node is hi hb hl]
    simp only
    rw [hcalls, List.append_assoc]
    congr 2
    rw [logicalOptimize_eq_runRules]
    exact runRules_calls_chain env ctx _ _ _

/-- Witness of C21: the statement with id 0, for which the sample builder takes
three ids: the builder starts from id 0, decorrelation from id 3, predicate
push-down from id 4. -/
theorem Optimize_threads_its_own_allocator_witness :
    (inferred sampleEnv sampleCtx ⟨0⟩).2 = none ∧
    (built sampleEnv sampleCtx ⟨0⟩ ⟨0⟩).2.err = none ∧
    (built sampleEnv sampleCtx ⟨0⟩ ⟨0⟩).1.isLogical = true ∧
    (Optimize sampleEnv Globals.initial sampleCtx ⟨0⟩ ⟨0⟩).calls =
      [Call.InferType sampleCtx.GetSessionVars.StmtCtx ⟨0⟩,
        Call.build (newBuilder sampleCtx ⟨0⟩) ⟨0⟩,
        Call.optimize .decorrelateSolver sampleCartesian ⟨3⟩,
        Call.optimize .ppdSolver sampleCartesian ⟨4⟩,
        Call.ResolveIndicesAndCorCols sampleCartesian,
        Call.convert2PhysicalPlan sampleCartesian {},
        Call.EliminateProjection (Plan.nonLogical 100 [sampleCartesian]),
        Call.addCachePlan (Plan.nonLogical 100 [sampleCartesian]) ⟨5⟩] ∧
    (newBuilder sampleCtx ⟨0⟩).allocator = ({} : idAllocator) ∧
    ∃ rest,
      (Optimize sampleEnv Globals.initial sampleCtx ⟨0⟩ ⟨0⟩).calls =
        [Call.InferType sampleCtx.GetSessionVars.StmtCtx ⟨0⟩,
          Call.build (newBuilder sampleCtx ⟨0⟩) (inferred sampleEnv sampleCtx ⟨0⟩).1] ++
        applyRulesCalls sampleEnv sampleCtx
          ((logicalOptimize sampleEnv (built sampleEnv sampleCtx ⟨0⟩ ⟨0⟩).2.optFlag
            (built sampleEnv sampleCtx ⟨0⟩ ⟨0⟩).1 sampleCtx
            (built sampleEnv sampleCtx ⟨0⟩ ⟨0⟩).2.allocator).calls.filterMap Call.rule)
          ((built sampleEnv sampleCtx ⟨0⟩ ⟨0⟩).1,
            (built sampleEnv sampleCtx ⟨0⟩ ⟨0⟩).2.allocator) ++ rest ∧
      (∀ c ∈ rest, c.callee ≠ Callee.optimize) ∧
      (∀ pp al, Call.addCachePlan pp al ∈ rest →
        ∃ q, (logicalOptimize sampleEnv (built sampleEnv sampleCtx ⟨0⟩ ⟨0⟩).2.optFlag
          (built sampleEnv sampleCtx ⟨0⟩ ⟨0⟩).1 sampleCtx
          (built sampleEnv sampleCtx ⟨0⟩ ⟨0⟩).2.allocator).result = some ((q, none), al)) :=
  ⟨rfl, rfl, rfl, rfl, rfl,
    (Optimize_threads_its_own_allocator sampleEnv Globals.initial sampleCtx ⟨0⟩ ⟨0⟩).2.2
      rfl rfl rfl⟩

end plan
